import Mathlib

/-!
# qcosignal: a shallow embedding of the coroutine runtime of `qcosignal.hpp`

Controllers (`CoroutineControllerBase`), their `SharedState` and the awaiters
(`CoSignal`, `FutureAwaiter`) are embedded as an explicit heap indexed by
identifiers.  Raw pointers become `Option` identifiers (`none` is `nullptr`),
a failed `Q_ASSERT` and undefined behaviour (resuming a frame that is not
suspended, touching an awaiter whose frame was destroyed) become `none`
results, the event loop is a run queue of posted callbacks, and every
`abort()`, `handle.destroy()` and `handle.resume()` call is recorded in an
event log.  `abort()` calls `handle.destroy()` without checking that the
coroutine is suspended: the call is embedded with its effect on the frame, and
`abortDefined` tells whether every such call of a cascade was made on a
suspended coroutine, the only case in which C++ defines it.

The recursion of `abort` is bounded by a fuel argument; `abort_total` shows
that more fuel than there are non-null links is always enough.

What Qt does is modelled from its documented behaviour: a connection dies with
its sender and with its context object, a `Qt::SingleShotConnection` is
removed before its slot runs, a continuation attached with a context object is
cancelled when that object dies, and the slots of `QObject::destroyed` run in
the order of the controllers.  Of the objects living in a coroutine frame only
the awaiters of this library are modelled.
-/

namespace QCoSignal

/-- Identifier of a coroutine controller (the address of a promise object). -/
abbrev CtrlId := Nat

/-- Identifier of a `QObject` (an owner or a signal sender). -/
abbrev ObjId := Nat

/-- Identifier of a `QFuture`. -/
abbrev FutId := Nat

/-- The `SharedState<T>` record: `current`, `up` (caller), `down` (callee) and
the optional `result`.  A `void` task stores the sentinel `true`, here `1`. -/
structure SharedState where
  current : Option CtrlId
  up : Option CtrlId
  down : Option CtrlId
  result : Option Int
deriving DecidableEq, Repr

/-- Status of a coroutine frame.  `absent`: never created; `running`: the body
is executing; `suspended`: parked at a `co_await`; `finished`: ran to its end
(`final_suspend` is `suspend_never`); `destroyed`: `handle.destroy()` was
called on it. -/
inductive Frame where
  | absent
  | running
  | suspended
  | finished
  | destroyed
deriving DecidableEq, Repr

/-- Observable events, in the order the code performs them. -/
inductive Event where
  | destroyed (c : CtrlId)
  | resumed (c : CtrlId)
  | posted (c : CtrlId)
  | watchRemoved (c : CtrlId)
  | deleted (o : ObjId)
  | aborted (c : CtrlId)
deriving DecidableEq, Repr

/-- The value of `CoSignalFlags::SingleShot`. -/
def SingleShot : Nat := 1

/-- The value of `CoSignalFlags::DeleteSenderOnSignal`. -/
def DeleteSenderOnSignal : Nat := 2

/-- The fields of a `CoSignal` awaiter.  `connection` and
`destroyedConnection` tell whether the two `QMetaObject::Connection`s are
live; `result` is the payload slot `m_result` (default constructed as `0`). -/
structure CoSignal where
  sender : Option ObjId
  flags : Nat
  received : Bool
  handle : Option CtrlId
  connection : Bool
  destroyedConnection : Bool
  result : Int
deriving DecidableEq, Repr

/-- A continuation registered by `FutureAwaiter::setup_then`:
`m_future.then(object, [this] { m_handle.resume(); })`. -/
structure FutCont where
  future : FutId
  context : ObjId
  handle : Option CtrlId
  awaiterOf : CtrlId
deriving DecidableEq, Repr

/-- The whole runtime: the heap of shared states and controllers, the frames,
the awaiters living in the frames, the `QObject`s, the run queue of the event
loop and the event log. -/
structure Runtime where
  st : CtrlId → SharedState
  conn : CtrlId → Bool
  owner : CtrlId → ObjId
  frame : CtrlId → Frame
  sig : CtrlId → Option CoSignal
  alive : ObjId → Bool
  thread : ObjId → Nat
  futConts : List FutCont
  futDone : FutId → Bool
  queue : List CtrlId
  log : List Event
  next : CtrlId

/-- The state of a controller that was never created. -/
def emptyState : SharedState :=
  { current := none, up := none, down := none, result := none }

/-- The runtime before any task was started. -/
def Runtime.empty : Runtime :=
  { st := fun _ => emptyState
    conn := fun _ => false
    owner := fun _ => 0
    frame := fun _ => Frame.absent
    sig := fun _ => none
    alive := fun _ => true
    thread := fun _ => 0
    futConts := []
    futDone := fun _ => false
    queue := []
    log := []
    next := 0 }

/-- Assignment `c->m_state->current = v`. -/
def Runtime.setCurrent (r : Runtime) (c : CtrlId) (v : Option CtrlId) : Runtime :=
  { r with st := Function.update r.st c { r.st c with current := v } }

/-- Assignment `c->m_state->up = v`. -/
def Runtime.setUp (r : Runtime) (c : CtrlId) (v : Option CtrlId) : Runtime :=
  { r with st := Function.update r.st c { r.st c with up := v } }

/-- Assignment `c->m_state->down = v`. -/
def Runtime.setDown (r : Runtime) (c : CtrlId) (v : Option CtrlId) : Runtime :=
  { r with st := Function.update r.st c { r.st c with down := v } }

/-- Assignment `c->m_state->result.emplace(v)`. -/
def Runtime.setResult (r : Runtime) (c : CtrlId) (v : Int) : Runtime :=
  { r with st := Function.update r.st c { r.st c with result := some v } }

/-- The call `QObject::disconnect(m_connection)` of controller `c`. -/
def Runtime.disconnect (r : Runtime) (c : CtrlId) : Runtime :=
  { r with conn := Function.update r.conn c false }

/-- Appends an event to the log. -/
def Runtime.emit (r : Runtime) (e : Event) : Runtime :=
  { r with log := r.log ++ [e] }

/-- The call `handle.destroy()` on the frame of `c`: the frame is gone, and so
is the `CoSignal` awaiter it held (`~CoSignal` disconnects both connections).
A `FutureAwaiter` has no destructor, so the continuations stay registered.
C++ defines the call only on a suspended coroutine; `abort()` makes it
unconditionally, so the effect is recorded whatever the status of the frame,
and `abortDefined` tells whether the call had defined behaviour. -/
def Runtime.destroyFrame (r : Runtime) (c : CtrlId) : Runtime :=
  { r with
    frame := Function.update r.frame c Frame.destroyed
    sig := Function.update r.sig c none
    log := r.log ++ [Event.destroyed c] }

/-- First unlink step of `abort` (lines 243-247): the snapshot of `down` is
taken by the caller; both sides of the edge are cleared. -/
def unlinkDown (c : CtrlId) (r : Runtime) : Runtime :=
  match (r.st c).down with
  | some d => (r.setUp d none).setDown c none
  | none => r

/-- Second unlink step of `abort` (lines 249-253). -/
def unlinkUp (c : CtrlId) (r : Runtime) : Runtime :=
  match (r.st c).up with
  | some u => (r.setDown u none).setUp c none
  | none => r

/-- Lines 228-229 of `abort`: disconnect and clear `current`. -/
def abortEnter (c : CtrlId) (r : Runtime) : Runtime :=
  ((r.emit (Event.aborted c)).disconnect c).setCurrent c none

/-- The method `CoroutineControllerBase::abort`.  The recursion of the source
is bounded by `fuel`; `none` means the fuel ran out. -/
def abort : Nat → CtrlId → Runtime → Option Runtime
  | 0, _, _ => none
  | fuel + 1, c, r =>
    let r1 := abortEnter c r
    let down := (r1.st c).down
    let r2 := unlinkDown c r1
    let up := (r2.st c).up
    let r3 := unlinkUp c r2
    let afterDown := match down with
      | some d => abort fuel d r3
      | none => some r3
    match afterDown with
    | none => none
    | some r4 =>
      let r5 := r4.destroyFrame c
      match up with
      | some u => abort fuel u r5
      | none => some r5

/-- The controllers whose frames were destroyed by `handle.destroy()`, in
order. -/
def destroyedOf : List Event → List CtrlId
  | [] => []
  | Event.destroyed c :: es => c :: destroyedOf es
  | _ :: es => destroyedOf es

/-- The list `cs` is a call chain whose first element has caller `prev`: every
element's `up` is its predecessor, every element's `down` is its successor, and
the last element has no callee. -/
def linkedFrom (r : Runtime) : Option CtrlId → List CtrlId → Bool
  | _, [] => true
  | prev, [c] => decide ((r.st c).up = prev) && decide ((r.st c).down = none)
  | prev, c :: d :: rest =>
    decide ((r.st c).up = prev) && decide ((r.st c).down = some d)
      && linkedFrom r (some c) (d :: rest)

/-- A call chain `c_0` (caller-most) ... `c_{N-1}` (callee-most) of distinct
controllers with mutually consistent links. -/
def IsChain (r : Runtime) (cs : List CtrlId) : Prop :=
  cs.Nodup ∧ linkedFrom r none cs = true

/-- Construction of a controller for a task owned by `o`
(`CoroutineControllerBase::CoroutineControllerBase`): a fresh shared state
whose `current` is the controller, the owner-destruction connection, and a
frame that starts running at once (`initial_suspend` is `suspend_never`). -/
def start (o : ObjId) (r : Runtime) : Runtime :=
  { r with
    st := Function.update r.st r.next
      { current := some r.next, up := none, down := none, result := none }
    conn := Function.update r.conn r.next true
    owner := Function.update r.owner r.next o
    frame := Function.update r.frame r.next Frame.running
    next := r.next + 1 }

/-- The method `Async<T>::await_suspend` of the handle of task `x`, called with
the handle of the awaiting controller `u`.  The three `Q_ASSERT`s fail with
`none`. -/
def await_suspend (x u : CtrlId) (r : Runtime) : Option Runtime :=
  match (r.st x).current with
  | none => none
  | some cur =>
    if (r.st x).up ≠ none then none
    else if r.thread (r.owner u) ≠ r.thread (r.owner cur) then none
    else some ((r.setUp x (some u)).setDown u (some cur))

/-- The call `QTimer::singleShot(0, [=] { handle.resume(); })`: the resumption
of `u` is appended to the run queue of the event loop. -/
def Runtime.post (r : Runtime) (u : CtrlId) : Runtime :=
  { r with queue := r.queue ++ [u], log := r.log ++ [Event.posted u] }

/-- The method `CoroutineControllerBase::handle_return`.  The `Q_ASSERT` on the
caller's `down` fails with `none`. -/
def handle_return (x : CtrlId) (r : Runtime) : Option Runtime :=
  let r1 := (r.disconnect x).setCurrent x none
  match (r1.st x).up with
  | none => some r1
  | some u =>
    if (r1.st u).down ≠ some x then none
    else some (((r1.setDown u none).post u).setUp x none)

/-- The method `CoroutineController<T>::return_value`. -/
def return_value (x : CtrlId) (v : Int) (r : Runtime) : Option Runtime :=
  handle_return x (r.setResult x v)

/-- The method `CoroutineController<void>::return_void`: the sentinel `true`
is stored. -/
def return_void (x : CtrlId) (r : Runtime) : Option Runtime :=
  handle_return x (r.setResult x 1)

/-- The method `Async<T>::await_ready`. -/
def await_ready (x : CtrlId) (r : Runtime) : Bool :=
  (r.st x).result.isSome

/-- The method `Async<T>::await_resume` of a valued task: `result.value()`,
which has no value to give on an empty slot. -/
def await_resume (x : CtrlId) (r : Runtime) : Option Int :=
  (r.st x).result

/-- Sets the status of the frame of `c`. -/
def Runtime.setFrame (r : Runtime) (c : CtrlId) (f : Frame) : Runtime :=
  { r with frame := Function.update r.frame c f }

/-- The call `handle.resume()`: defined only on a suspended frame, whose body
then runs; on any other frame it is undefined behaviour (`none`). -/
def resume (c : CtrlId) (r : Runtime) : Option Runtime :=
  if r.frame c = Frame.suspended then
    some ((r.setFrame c Frame.running).emit (Event.resumed c))
  else none

/-- One turn of the event loop on the run queue: the oldest posted callback
`[=] { handle.resume(); }` is taken off the queue and called. -/
def runPosted (r : Runtime) : Option Runtime :=
  match r.queue with
  | [] => none
  | u :: q => resume u { r with queue := q }

/-- The body of the running task `u` reaches `co_await x` on a task that is
not ready: the frame is suspended and `Async::await_suspend` runs. -/
def awaitNested (x u : CtrlId) (r : Runtime) : Option Runtime :=
  if r.frame u = Frame.running ∧ await_ready x r = false then
    (await_suspend x u r).map (fun r1 => r1.setFrame u Frame.suspended)
  else none

/-- The body of the running task `x` reaches `co_return v`: `return_value`
runs, and the frame ends (`final_suspend` is `suspend_never`). -/
def coReturn (x : CtrlId) (v : Int) (r : Runtime) : Option Runtime :=
  if r.frame x = Frame.running then
    (return_value x v r).map (fun r1 => r1.setFrame x Frame.finished)
  else none

/-- Replaces the `CoSignal` awaiter held in the frame of `c`. -/
def Runtime.setSig (r : Runtime) (c : CtrlId) (a : Option CoSignal) : Runtime :=
  { r with sig := Function.update r.sig c a }

/-- The constructor `CoSignal(sender, signal, flags)`. -/
def CoSignal.new (s : ObjId) (flags : Nat) : CoSignal :=
  { sender := some s, flags := flags, received := false, handle := none,
    connection := false, destroyedConnection := false, result := 0 }

/-- The method `CoSignal::await_ready`. -/
def CoSignal.await_ready (a : CoSignal) : Bool := a.received

/-- The method `CoSignal::await_resume`: the payload slot. -/
def CoSignal.await_resume (a : CoSignal) : Int := a.result

/-- The method `CoSignal::await_suspend` of the awaiter held in the frame of
`c`, called with the handle of `c`.  When not yet connected it asserts a live
sender and `!m_received`, then makes both connections (context object: the
owner of `c`). -/
def CoSignal.await_suspend (c : CtrlId) (r : Runtime) : Option Runtime :=
  match r.sig c with
  | none => none
  | some a =>
    if a.connection then
      some (r.setSig c (some { a with handle := some c, received := false }))
    else
      match a.sender with
      | none => none
      | some _ =>
        if a.received then none
        else some (r.setSig c (some { a with
          destroyedConnection := true, connection := true,
          handle := some c, received := false }))

/-- The body of the running task `c` reaches
`co_await CoSignal(s, signal, flags)`: the awaiter is built in the frame,
`await_ready` is false, the frame is suspended and `await_suspend` runs. -/
def awaitSignal (c : CtrlId) (s : ObjId) (flags : Nat) (r : Runtime) : Option Runtime :=
  if r.frame c = Frame.running ∧ r.alive s = true then
    (CoSignal.await_suspend c (r.setSig c (some (CoSignal.new s flags)))).map
      (fun r1 => r1.setFrame c Frame.suspended)
  else none

/-- Destruction of `o` calls `abort()` on controller `y` through the owner
connection made in the controller's constructor. -/
def ownedBy (r : Runtime) (o : ObjId) (y : CtrlId) : Bool :=
  decide (r.owner y = o) && r.conn y

/-- The slot of the `destroyed` signal of `o` for controller `y`: the lambda
of the owner connection (`abort()`), then the lambda of the sender watch
(`m_sender = nullptr; m_handle.promise().abort()`), each only if still
connected when its turn comes. -/
def destroyedSlot (fuel : Nat) (o : ObjId) (watched : Bool) (y : CtrlId) (r : Runtime) :
    Option Runtime :=
  let afterOwner := if ownedBy r o y then abort fuel y r else some r
  match afterOwner with
  | none => none
  | some r1 =>
    match r1.sig y with
    | none => some r1
    | some a =>
      if watched && a.destroyedConnection then
        match a.handle with
        | none => none
        | some h => abort fuel h (r1.setSig y (some { a with sender := none }))
      else some r1

/-- Runs the slots of the `destroyed` signal of `o` for the controllers `ys`
in order. -/
def destroyedSlots (fuel : Nat) (o : ObjId) (watch : CtrlId → Bool) :
    List CtrlId → Runtime → Option Runtime
  | [], r => some r
  | y :: ys, r =>
    match destroyedSlot fuel o (watch y) y r with
    | none => none
    | some r1 => destroyedSlots fuel o watch ys r1

/-- After `~QObject` of `o`: every connection that has `o` as sender or as
context object is gone, `QPointer`s to `o` are null, and the continuations
attached to a future with context `o` are cancelled. -/
def forgetObject (o : ObjId) (watch : CtrlId → Bool) (r : Runtime) : Runtime :=
  { r with
    conn := fun y => if r.owner y = o then false else r.conn y
    sig := fun y =>
      match r.sig y with
      | none => none
      | some a =>
        if watch y ∨ a.sender = some o ∨ r.owner y = o then
          some { a with
            sender := if watch y ∨ a.sender = some o then none else a.sender
            connection := false, destroyedConnection := false }
        else some a
    futConts := r.futConts.filter (fun k => decide (k.context ≠ o)) }

/-- The destruction of the `QObject` `o` (`delete o`): the object is marked
dead, the `destroyed` signal runs its slots in the order of the controllers,
then Qt drops every connection of `o`.  Deleting a dead object is undefined
(`none`). -/
def destroyObject (fuel : Nat) (o : ObjId) (r : Runtime) : Option Runtime :=
  if r.alive o = true then
    let watch : CtrlId → Bool := fun y =>
      match r.sig y with
      | some a => decide (a.sender = some o)
      | none => false
    let r1 : Runtime :=
      { r with alive := Function.update r.alive o false, log := r.log ++ [Event.deleted o] }
    (destroyedSlots fuel o watch (List.range r.next) r1).map (forgetObject o watch)
  else none

/-- The call `QObject::disconnect(m_destroyedConnection)` of the awaiter held
in the frame of `c`. -/
def disconnectWatch (c : CtrlId) (r : Runtime) : Runtime :=
  match r.sig c with
  | some a =>
    (r.setSig c (some { a with destroyedConnection := false })).emit (Event.watchRemoved c)
  | none => r

/-- The assignment `m_received = true` of the awaiter held in the frame of
`c`. -/
def setReceived (c : CtrlId) (r : Runtime) : Runtime :=
  match r.sig c with
  | some a => r.setSig c (some { a with received := true })
  | none => r

/-- The method `CoSignal::handle_signal` of the awaiter held in the frame of
`c`: in one-shot mode the sender watch is removed and `m_received` set; in
"delete sender" mode the sender watch is removed and the sender deleted; then
`m_handle.resume()` is called.  After `delete m_sender` the awaiter itself may
be gone (its frame was destroyed): touching `m_handle` is then undefined
(`none`). -/
def handle_signal (fuel : Nat) (c : CtrlId) (r : Runtime) : Option Runtime :=
  match r.sig c with
  | none => none
  | some a =>
    let r1 := if a.flags &&& SingleShot ≠ 0 then setReceived c (disconnectWatch c r) else r
    let afterDelete : Option Runtime :=
      if a.flags &&& DeleteSenderOnSignal ≠ 0 then
        match a.sender with
        | none => some (disconnectWatch c r1)
        | some s => destroyObject fuel s (disconnectWatch c r1)
      else some r1
    match afterDelete with
    | none => none
    | some r3 =>
      match r3.sig c with
      | none => none
      | some a3 =>
        match a3.handle with
        | none => none
        | some h => resume h r3

/-- The slot connected to the awaited signal for the awaiter in the frame of
`c`, called with payload `p`: a `Qt::SingleShotConnection` is removed before
the slot runs; the lambda stores the payload and calls `handle_signal`. -/
def signalSlot (fuel : Nat) (s : ObjId) (p : Int) (c : CtrlId) (r : Runtime) :
    Option Runtime :=
  match r.sig c with
  | none => some r
  | some a =>
    if a.connection ∧ a.sender = some s then
      let a1 := if a.flags &&& SingleShot ≠ 0 then { a with connection := false } else a
      handle_signal fuel c (r.setSig c (some { a1 with result := p }))
    else some r

/-- Runs the slots of the awaited signal of `s` for the controllers `ys` in
order. -/
def signalSlots (fuel : Nat) (s : ObjId) (p : Int) : List CtrlId → Runtime → Option Runtime
  | [], r => some r
  | y :: ys, r =>
    match signalSlot fuel s p y r with
    | none => none
    | some r1 => signalSlots fuel s p ys r1

/-- The sender `s` emits the awaited signal with payload `p`. -/
def emitSignal (fuel : Nat) (s : ObjId) (p : Int) (r : Runtime) : Option Runtime :=
  signalSlots fuel s p (List.range r.next) r

/-- The sender `s` emits the awaited signal once for each payload of `ps`, in
order. -/
def emitSignals (fuel : Nat) (s : ObjId) : List Int → Runtime → Option Runtime
  | [], r => some r
  | p :: ps, r =>
    match emitSignal fuel s p r with
    | none => none
    | some r1 => emitSignals fuel s ps r1

/-- The body of the running task `c` reaches `co_await future` on a future
that is not finished: `await_transform` builds a `FutureAwaiter`, whose
constructor attaches the continuation with the owner of `c` as context; then
`await_suspend` stores the handle. -/
def awaitFuture (c : CtrlId) (f : FutId) (r : Runtime) : Option Runtime :=
  if r.frame c = Frame.running ∧ r.futDone f = false then
    some (({ r with futConts := r.futConts ++
      [{ future := f, context := r.owner c, handle := some c, awaiterOf := c }] } :
        Runtime).setFrame c Frame.suspended)
  else none

/-- The continuation `[this] { m_handle.resume(); }` of a `FutureAwaiter` held
in the frame of `k.awaiterOf`: touching `m_handle` of an awaiter whose frame
was destroyed is undefined (`none`). -/
def futureSlot (k : FutCont) (r : Runtime) : Option Runtime :=
  if r.frame k.awaiterOf = Frame.destroyed then none
  else
    match k.handle with
    | none => none
    | some h => resume h r

/-- Runs the continuations `ks` in order. -/
def futureSlots : List FutCont → Runtime → Option Runtime
  | [], r => some r
  | k :: ks, r =>
    match futureSlot k r with
    | none => none
    | some r1 => futureSlots ks r1

/-- The future `f` finishes: its continuations that are still attached run,
each once. -/
def completeFuture (f : FutId) (r : Runtime) : Option Runtime :=
  futureSlots (r.futConts.filter (fun k => decide (k.future = f)))
    { r with
      futDone := Function.update r.futDone f true
      futConts := r.futConts.filter (fun k => decide (k.future ≠ f)) }

/-- Three tasks `0`, `1`, `2` of owners `10`, `11`, `12`: task `0` calls task
`1`, which calls task `2`; task `2` suspends, then `1` awaits `2` and `0`
awaits `1` (the shape of `MyObject::chain`). -/
def chain3 : Runtime :=
  let r := start 12 (start 11 (start 10 Runtime.empty))
  let r := r.setFrame 2 Frame.suspended
  let r := (awaitNested 2 1 r).getD r
  (awaitNested 1 0 r).getD r

/-- Downward links only: `c` awaits `ds.head`, which awaits the next one, and
so on; the last one awaits nothing. -/
def downLinked (r : Runtime) : CtrlId → List CtrlId → Prop
  | c, [] => (r.st c).down = none
  | c, d :: ds => (r.st c).down = some d ∧ downLinked r d ds

/-- Upward links only: `c` is awaited by `us.head`, which is awaited by the
next one, and so on; the last one has no caller. -/
def upLinked (r : Runtime) : CtrlId → List CtrlId → Prop
  | c, [] => (r.st c).up = none
  | c, u :: us => (r.st c).up = some u ∧ upLinked r u us

/-- The state in which `abort` makes its recursive calls: after lines
228-253. -/
def abortPrep (c : CtrlId) (r : Runtime) : Runtime :=
  unlinkUp c (unlinkDown c (abortEnter c r))

/-- One atomic step of the task runtime: a task is started, the running body
of `u` suspends on the nested task `x`, the running body of `x` completes
(`co_return v`, or plain completion of a `void` task), `abort()` is called on
a controller, or the event loop calls the oldest posted resumption. -/
inductive Step : Runtime → Runtime → Prop where
  | start (r : Runtime) (o : ObjId) : Step r (start o r)
  | awaitNested (r r' : Runtime) (x u : CtrlId) :
      awaitNested x u r = some r' → Step r r'
  | coReturn (r r' : Runtime) (x : CtrlId) (v : Int) :
      coReturn x v r = some r' → Step r r'
  | abort (r r' : Runtime) (fuel : Nat) (c : CtrlId) :
      abort fuel c r = some r' → Step r r'
  | runPosted (r r' : Runtime) : runPosted r = some r' → Step r r'

/-- The states reachable from the empty runtime. -/
inductive Reachable : Runtime → Prop where
  | init : Reachable Runtime.empty
  | step (r r' : Runtime) : Reachable r → Step r r' → Reachable r'

/-- Link consistency: `A.down == B` if and only if `B.up == A`. -/
def Consistent (r : Runtime) : Prop :=
  ∀ a b : CtrlId, (r.st a).down = some b ↔ (r.st b).up = some a

/-- The states at the entry of every `abort()` call of the cascade started by
`abort()` on `c` in state `r`: the call itself, the calls made by the descent
into the callee, and the calls made by the ascent into the caller. -/
def abortEntries : Nat → CtrlId → Runtime → List (CtrlId × Runtime)
  | 0, _, _ => []
  | fuel + 1, c, r =>
    let r1 := abortEnter c r
    let down := (r1.st c).down
    let r2 := unlinkDown c r1
    let up := (r2.st c).up
    let r3 := unlinkUp c r2
    let downEntries := match down with
      | some d => abortEntries fuel d r3
      | none => []
    let afterDown := match down with
      | some d => abort fuel d r3
      | none => some r3
    let upEntries := match afterDown, up with
      | some r4, some u => abortEntries fuel u (r4.destroyFrame c)
      | _, _ => []
    (c, r) :: (downEntries ++ upEntries)

/-- Two tasks: task `0` (owner `10`) calls task `1` (owner `11`) and awaits
it. -/
def pair2 : Runtime :=
  (awaitNested 1 0 (start 11 (start 10 Runtime.empty))).getD Runtime.empty

/-- The invariant of the task runtime: link consistency, together with the
facts that make it inductive (a running body awaits nothing, a posted
resumption belongs to a frame that is not running and awaits nothing, and
identifiers not yet handed out are untouched). -/
structure Inv (r : Runtime) : Prop where
  cons : Consistent r
  runDown : ∀ u, r.frame u = Frame.running → (r.st u).down = none
  queueDown : ∀ u ∈ r.queue, (r.st u).down = none ∧ r.frame u ≠ Frame.running
  queueNodup : r.queue.Nodup
  fresh : ∀ c, r.next ≤ c →
    (r.st c).up = none ∧ (r.st c).down = none ∧ (r.st c).current = none ∧
      r.frame c ≠ Frame.running
  queueLt : ∀ u ∈ r.queue, u < r.next
  cur : ∀ x c, (r.st x).current = some c → c = x

/-- What an `abort()` cascade may change between two states: links and
`current` are only cleared, frames are only destroyed, connections and
awaiters are only removed; results, the run queue, the objects and the future
continuations are untouched. -/
structure AbortMono (r r' : Runtime) : Prop where
  next : r'.next = r.next
  queue : r'.queue = r.queue
  owner : r'.owner = r.owner
  alive : r'.alive = r.alive
  thread : r'.thread = r.thread
  futConts : r'.futConts = r.futConts
  futDone : r'.futDone = r.futDone
  result : ∀ y, (r'.st y).result = (r.st y).result
  down : ∀ y, (r'.st y).down = (r.st y).down ∨ (r'.st y).down = none
  up : ∀ y, (r'.st y).up = (r.st y).up ∨ (r'.st y).up = none
  current : ∀ y, (r'.st y).current = (r.st y).current ∨ (r'.st y).current = none
  frame : ∀ y, r'.frame y = r.frame y ∨ r'.frame y = Frame.destroyed
  connOff : ∀ y, r'.conn y = r.conn y ∨ r'.conn y = false
  sigOff : ∀ y, r'.sig y = r.sig y ∨ r'.sig y = none

/-- The labels of the atomic steps of the task runtime. -/
inductive Action where
  | start (o : ObjId)
  | awaitNested (x u : CtrlId)
  | coReturn (x : CtrlId) (v : Int)
  | coReturnVoid (x : CtrlId)
  | abort (fuel : Nat) (c : CtrlId)
  | runPosted
deriving DecidableEq, Repr

/-- The body of the running `void` task `x` runs to its end: `return_void`
runs, and the frame ends. -/
def coReturnVoid (x : CtrlId) (r : Runtime) : Option Runtime :=
  if r.frame x = Frame.running then
    (return_void x r).map (fun r1 => r1.setFrame x Frame.finished)
  else none

/-- The effect of one labelled step; `none` when the step is not possible in
this state (a failed `Q_ASSERT`, undefined behaviour, or no fuel left). -/
def step : Action → Runtime → Option Runtime
  | Action.start o, r => some (start o r)
  | Action.awaitNested x u, r => awaitNested x u r
  | Action.coReturn x v, r => coReturn x v r
  | Action.coReturnVoid x, r => coReturnVoid x r
  | Action.abort fuel c, r => abort fuel c r
  | Action.runPosted, r => runPosted r

/-- Runs a sequence of steps, oldest first. -/
def run : List Action → Runtime → Option Runtime
  | [], r => some r
  | a :: as, r =>
    match step a r with
    | none => none
    | some r1 => run as r1

/-- The action `a` is the completion of the body of task `x`. -/
def Action.returns (x : CtrlId) : Action → Bool
  | Action.coReturn y _ => decide (y = x)
  | Action.coReturnVoid y => decide (y = x)
  | _ => false

/-- The number of non-null link fields (`up`, `down`) of controller `x`. -/
def linkWeight (r : Runtime) (x : CtrlId) : Nat :=
  (if (r.st x).down.isSome then 1 else 0) + (if (r.st x).up.isSome then 1 else 0)

/-- The number of non-null link fields of all controllers: a bound on the
recursion depth of `abort`. -/
def linkCount (r : Runtime) : Nat :=
  ((List.range r.next).map (linkWeight r)).sum

/-- The controllers `cs` are closed under the links: no link leads from a
member to a controller outside. -/
def Closed (r : Runtime) (cs : List CtrlId) : Prop :=
  ∀ m ∈ cs, (∀ u, (r.st m).up = some u → u ∈ cs) ∧ (∀ d, (r.st m).down = some d → d ∈ cs)

/-- Nothing of the controllers `cs` differs between the two states. -/
def Untouched (r r' : Runtime) (cs : List CtrlId) : Prop :=
  ∀ m ∈ cs, r'.st m = r.st m ∧ r'.frame m = r.frame m ∧ r'.conn m = r.conn m ∧
    r'.sig m = r.sig m

/-- Every `CoSignal` awaiter that went through `await_suspend` holds the
handle of the frame it lives in. -/
def SigWF (r : Runtime) : Prop :=
  ∀ y a, r.sig y = some a → a.handle = some y

/-- The events of an `abort()` cascade: entries of `abort()` and frame
destructions. -/
def Event.isTeardown : Event → Bool
  | Event.aborted _ => true
  | Event.destroyed _ => true
  | _ => false

/-- What an `abort()` cascade leaves coupled: a controller either keeps its
frame, its owner connection and its awaiter, or its frame is destroyed and
`abort()` was entered on it. -/
def Coupled (r r' : Runtime) : Prop :=
  (∃ l, r'.log = r.log ++ l ∧ (∀ e ∈ l, e.isTeardown = true) ∧
    ∀ z, Event.aborted z ∈ l → r'.frame z = Frame.destroyed) ∧
  ∀ z, (r'.frame z = r.frame z ∧ r'.conn z = r.conn z ∧ r'.sig z = r.sig z) ∨
    (r'.frame z = Frame.destroyed ∧ r'.sig z = none ∧ Event.aborted z ∈ r'.log)

/-- The conditions under which the slots of a `destroyed` signal run to
their end: the runtime invariant, well-formed awaiters, and enough fuel for
every `abort()` cascade. -/
structure Good (fuel : Nat) (r : Runtime) : Prop where
  inv : Inv r
  wf : SigWF r
  enough : linkCount r < fuel

/-- Task `0` of owner `10` suspended on the future `5`
(`testAwaitFutureOwnerDestroyed`). -/
def futWait : Runtime :=
  (awaitFuture 0 5 (start 10 Runtime.empty)).getD Runtime.empty

/-- Task `0` of owner `10` suspended on the signal of sender `20`, with the
given flags (`testAwaitSignal1`, `testAwaitSignalOwnerDestroyed`). -/
def sigWait (flags : Nat) : Runtime :=
  (awaitSignal 0 20 flags (start 10 Runtime.empty)).getD Runtime.empty

/-- The destruction of `o` calls `abort()` from the slot of controller `y`:
through the owner connection, or through the sender watch of its awaiter
(`w` tells whether that awaiter watches `o`). -/
def triggers (r : Runtime) (o : ObjId) (w : Bool) (y : CtrlId) : Bool :=
  ownedBy r o y ||
    (match r.sig y with
      | some a => w && a.destroyedConnection
      | none => false)

/-- Task `0` (owner `10`) awaits the nested task `1` (owner `11`), which is
suspended on the signal of sender `20` with the given flags. -/
def sigChain (flags : Nat) : Runtime :=
  let r := start 11 (start 10 Runtime.empty)
  let r := (awaitSignal 1 20 flags r).getD r
  (awaitNested 1 0 r).getD r

/-- The sender of the awaiter held in the frame of `y` is `s`. -/
def watches (r : Runtime) (s : ObjId) (y : CtrlId) : Bool :=
  match r.sig y with
  | some a => decide (a.sender = some s)
  | none => false

/-- The destruction of the sender `s` calls `abort()` on no controller of the
chain `cs` of the awaiting controller `c`: `s` is alive, it is not the Owner
of `c`, and no other link of the chain is owned by `s` or watches `s`. -/
def SenderApart (r : Runtime) (s : ObjId) (c : CtrlId) (cs : List CtrlId) : Prop :=
  IsChain r cs ∧ c ∈ cs ∧ r.alive s = true ∧ ownedBy r s c = false ∧
    ∀ y ∈ cs, y ≠ c → triggers r s (watches r s y) y = false

/-- Task `0` awaits, in "delete sender" mode, a signal of its own Owner `10`:
`co_await CoSignal(this, signal, DeleteSenderOnSignal)`. -/
def selfSender : Runtime :=
  (awaitSignal 0 10 DeleteSenderOnSignal (start 10 Runtime.empty)).getD Runtime.empty

/-- The state of `handle_signal` after its one-shot block. -/
def afterOneShot (c : CtrlId) (a : CoSignal) (r : Runtime) : Runtime :=
  if a.flags &&& SingleShot ≠ 0 then setReceived c (disconnectWatch c r) else r

/-- The events of the one-shot block of `handle_signal`. -/
def oneShotEvents (c : CtrlId) (a : CoSignal) : List Event :=
  if a.flags &&& SingleShot ≠ 0 then [Event.watchRemoved c] else []

/-- The method `Async<void>::await_resume` of a valueless task: `return;`,
whatever the result slot holds. -/
def await_resume_void (_x : CtrlId) (_r : Runtime) : Option Unit :=
  some ()

/-- Task `0` (owner `10`) awaits the nested task `1` (owner `11`), which is
suspended on the future `5` (the shape of `MyObject::chain` with one child). -/
def futChain : Runtime :=
  let r := start 11 (start 10 Runtime.empty)
  let r := (awaitFuture 1 5 r).getD r
  (awaitNested 1 0 r).getD r

/-- What a call made by the running body of a task leads to.  `undefined`:
the call has no defined result (or no body was running).  `continues`: the
call returns into the body, whose frame is intact.  `continuesDestroyed`:
during the call `handle.destroy()` was called on the frame of the running
body, a coroutine that is not suspended (undefined behaviour), and the call
then returns into the body of the destroyed frame. -/
inductive BodyOutcome where
  | undefined
  | continues (r : Runtime)
  | continuesDestroyed (r : Runtime)

/-- The running body of task `c` executes `delete o` (directly, or through a
synchronous call chain, as in `testShootInMyFingFootAndHit`), then the call
returns into the body.  The frame of `c` is running when the call is made and
a frame becomes `destroyed` only by `handle.destroy()`: when it is destroyed
after the call, `abort()` has called `handle.destroy()` on the running
coroutine. -/
def deleteInBody (fuel : Nat) (c : CtrlId) (o : ObjId) (r : Runtime) : BodyOutcome :=
  if r.frame c = Frame.running then
    match destroyObject fuel o r with
    | none => BodyOutcome.undefined
    | some r1 =>
      if r1.frame c = Frame.destroyed then BodyOutcome.continuesDestroyed r1
      else BodyOutcome.continues r1
  else BodyOutcome.undefined

/-- Task `0` of owner `10` was suspended on the future `5`; the future has
completed and the body of task `0` is running again
(`testShootInMyFingFootAndHit` at "back in"). -/
def hitState : Runtime :=
  (completeFuture 5 futWait).getD Runtime.empty

/-- Controller `z` went through `abort()`: no links, no owner connection, no
awaiter, frame destroyed. -/
def Dead (r : Runtime) (z : CtrlId) : Prop :=
  (r.st z).up = none ∧ (r.st z).down = none ∧ r.conn z = false ∧ r.sig z = none ∧
    r.frame z = Frame.destroyed

/-- The number of `handle.destroy()` calls made so far on the frame of `z`. -/
def destroyCount (r : Runtime) (z : CtrlId) : Nat :=
  (destroyedOf r.log).count z

/-- Whether every `handle.destroy()` call of the cascade started by `abort()`
on `c` in state `r` is made on a suspended coroutine, the only frame on which
C++ defines the call; the recursion is that of `abort`.  Without fuel, or
when the cascade does not return, the answer is `false`. -/
def abortDefined : Nat → CtrlId → Runtime → Bool
  | 0, _, _ => false
  | fuel + 1, c, r =>
    let r1 := abortEnter c r
    let down := (r1.st c).down
    let r2 := unlinkDown c r1
    let up := (r2.st c).up
    let r3 := unlinkUp c r2
    let downDefined := match down with
      | some d => abortDefined fuel d r3
      | none => true
    let afterDown := match down with
      | some d => abort fuel d r3
      | none => some r3
    match afterDown with
    | none => false
    | some r4 =>
      downDefined && decide (r4.frame c = Frame.suspended) &&
        (match up with
          | some u => abortDefined fuel u (r4.destroyFrame c)
          | none => true)

theorem abort_succ (fuel : Nat) (c : CtrlId) (r : Runtime) :
    abort (fuel + 1) c r =
      (match (match ((abortEnter c r).st c).down with
          | some d => abort fuel d (abortPrep c r)
          | none => some (abortPrep c r)) with
        | none => none
        | some r4 =>
          match ((unlinkDown c (abortEnter c r)).st c).up with
          | some u => abort fuel u (r4.destroyFrame c)
          | none => some (r4.destroyFrame c)) := rfl

theorem downLinked_congr (r r' : Runtime) :
    ∀ (ds : List CtrlId) (c : CtrlId),
      (∀ x ∈ c :: ds, (r'.st x).down = (r.st x).down) →
      downLinked r c ds → downLinked r' c ds
  | [], c, h, hl => by
    simp only [downLinked] at hl ⊢
    rw [h c (by simp), hl]
  | d :: ds, c, h, hl => by
    simp only [downLinked] at hl ⊢
    refine ⟨by rw [h c (by simp), hl.1], ?_⟩
    exact downLinked_congr r r' ds d (fun x hx => h x (List.mem_cons_of_mem _ hx)) hl.2

theorem upLinked_congr (r r' : Runtime) :
    ∀ (us : List CtrlId) (c : CtrlId),
      (∀ x ∈ c :: us, (r'.st x).up = (r.st x).up) →
      upLinked r c us → upLinked r' c us
  | [], c, h, hl => by
    simp only [upLinked] at hl ⊢
    rw [h c (by simp), hl]
  | u :: us, c, h, hl => by
    simp only [upLinked] at hl ⊢
    refine ⟨by rw [h c (by simp), hl.1], ?_⟩
    exact upLinked_congr r r' us u (fun x hx => h x (List.mem_cons_of_mem _ hx)) hl.2

@[simp] theorem destroyedOf_append (a b : List Event) :
    destroyedOf (a ++ b) = destroyedOf a ++ destroyedOf b := by
  induction a with
  | nil => rfl
  | cons e es ih => cases e <;> simp [destroyedOf, ih]

@[simp] theorem setCurrent_current (r : Runtime) (c x : CtrlId) (v : Option CtrlId) :
    ((r.setCurrent c v).st x).current = if x = c then v else (r.st x).current := by
  by_cases h : x = c <;> simp [Runtime.setCurrent, Function.update_apply, h]

@[simp] theorem setCurrent_up (r : Runtime) (c x : CtrlId) (v : Option CtrlId) :
    ((r.setCurrent c v).st x).up = (r.st x).up := by
  by_cases h : x = c <;> simp [Runtime.setCurrent, Function.update_apply, h]

@[simp] theorem setCurrent_down (r : Runtime) (c x : CtrlId) (v : Option CtrlId) :
    ((r.setCurrent c v).st x).down = (r.st x).down := by
  by_cases h : x = c <;> simp [Runtime.setCurrent, Function.update_apply, h]

@[simp] theorem setCurrent_result (r : Runtime) (c x : CtrlId) (v : Option CtrlId) :
    ((r.setCurrent c v).st x).result = (r.st x).result := by
  by_cases h : x = c <;> simp [Runtime.setCurrent, Function.update_apply, h]

@[simp] theorem setUp_current (r : Runtime) (c x : CtrlId) (v : Option CtrlId) :
    ((r.setUp c v).st x).current = (r.st x).current := by
  by_cases h : x = c <;> simp [Runtime.setUp, Function.update_apply, h]

@[simp] theorem setUp_up (r : Runtime) (c x : CtrlId) (v : Option CtrlId) :
    ((r.setUp c v).st x).up = if x = c then v else (r.st x).up := by
  by_cases h : x = c <;> simp [Runtime.setUp, Function.update_apply, h]

@[simp] theorem setUp_down (r : Runtime) (c x : CtrlId) (v : Option CtrlId) :
    ((r.setUp c v).st x).down = (r.st x).down := by
  by_cases h : x = c <;> simp [Runtime.setUp, Function.update_apply, h]

@[simp] theorem setUp_result (r : Runtime) (c x : CtrlId) (v : Option CtrlId) :
    ((r.setUp c v).st x).result = (r.st x).result := by
  by_cases h : x = c <;> simp [Runtime.setUp, Function.update_apply, h]

@[simp] theorem setDown_current (r : Runtime) (c x : CtrlId) (v : Option CtrlId) :
    ((r.setDown c v).st x).current = (r.st x).current := by
  by_cases h : x = c <;> simp [Runtime.setDown, Function.update_apply, h]

@[simp] theorem setDown_up (r : Runtime) (c x : CtrlId) (v : Option CtrlId) :
    ((r.setDown c v).st x).up = (r.st x).up := by
  by_cases h : x = c <;> simp [Runtime.setDown, Function.update_apply, h]

@[simp] theorem setDown_down (r : Runtime) (c x : CtrlId) (v : Option CtrlId) :
    ((r.setDown c v).st x).down = if x = c then v else (r.st x).down := by
  by_cases h : x = c <;> simp [Runtime.setDown, Function.update_apply, h]

@[simp] theorem setDown_result (r : Runtime) (c x : CtrlId) (v : Option CtrlId) :
    ((r.setDown c v).st x).result = (r.st x).result := by
  by_cases h : x = c <;> simp [Runtime.setDown, Function.update_apply, h]

@[simp] theorem setResult_current (r : Runtime) (c x : CtrlId) (v : Int) :
    ((r.setResult c v).st x).current = (r.st x).current := by
  by_cases h : x = c <;> simp [Runtime.setResult, Function.update_apply, h]

@[simp] theorem setResult_up (r : Runtime) (c x : CtrlId) (v : Int) :
    ((r.setResult c v).st x).up = (r.st x).up := by
  by_cases h : x = c <;> simp [Runtime.setResult, Function.update_apply, h]

@[simp] theorem setResult_down (r : Runtime) (c x : CtrlId) (v : Int) :
    ((r.setResult c v).st x).down = (r.st x).down := by
  by_cases h : x = c <;> simp [Runtime.setResult, Function.update_apply, h]

@[simp] theorem setResult_result (r : Runtime) (c x : CtrlId) (v : Int) :
    ((r.setResult c v).st x).result = if x = c then some v else (r.st x).result := by
  by_cases h : x = c <;> simp [Runtime.setResult, Function.update_apply, h]

@[simp] theorem setCurrent_conn (r : Runtime) (c : CtrlId) (v : Option CtrlId) :
    (r.setCurrent c v).conn = r.conn := rfl

@[simp] theorem setCurrent_owner (r : Runtime) (c : CtrlId) (v : Option CtrlId) :
    (r.setCurrent c v).owner = r.owner := rfl

@[simp] theorem setCurrent_frame (r : Runtime) (c : CtrlId) (v : Option CtrlId) :
    (r.setCurrent c v).frame = r.frame := rfl

@[simp] theorem setCurrent_sig (r : Runtime) (c : CtrlId) (v : Option CtrlId) :
    (r.setCurrent c v).sig = r.sig := rfl

@[simp] theorem setCurrent_alive (r : Runtime) (c : CtrlId) (v : Option CtrlId) :
    (r.setCurrent c v).alive = r.alive := rfl

@[simp] theorem setCurrent_thread (r : Runtime) (c : CtrlId) (v : Option CtrlId) :
    (r.setCurrent c v).thread = r.thread := rfl

@[simp] theorem setCurrent_futConts (r : Runtime) (c : CtrlId) (v : Option CtrlId) :
    (r.setCurrent c v).futConts = r.futConts := rfl

@[simp] theorem setCurrent_futDone (r : Runtime) (c : CtrlId) (v : Option CtrlId) :
    (r.setCurrent c v).futDone = r.futDone := rfl

@[simp] theorem setCurrent_queue (r : Runtime) (c : CtrlId) (v : Option CtrlId) :
    (r.setCurrent c v).queue = r.queue := rfl

@[simp] theorem setCurrent_log (r : Runtime) (c : CtrlId) (v : Option CtrlId) :
    (r.setCurrent c v).log = r.log := rfl

@[simp] theorem setCurrent_next (r : Runtime) (c : CtrlId) (v : Option CtrlId) :
    (r.setCurrent c v).next = r.next := rfl

@[simp] theorem setUp_conn (r : Runtime) (c : CtrlId) (v : Option CtrlId) :
    (r.setUp c v).conn = r.conn := rfl

@[simp] theorem setUp_owner (r : Runtime) (c : CtrlId) (v : Option CtrlId) :
    (r.setUp c v).owner = r.owner := rfl

@[simp] theorem setUp_frame (r : Runtime) (c : CtrlId) (v : Option CtrlId) :
    (r.setUp c v).frame = r.frame := rfl

@[simp] theorem setUp_sig (r : Runtime) (c : CtrlId) (v : Option CtrlId) :
    (r.setUp c v).sig = r.sig := rfl

@[simp] theorem setUp_alive (r : Runtime) (c : CtrlId) (v : Option CtrlId) :
    (r.setUp c v).alive = r.alive := rfl

@[simp] theorem setUp_thread (r : Runtime) (c : CtrlId) (v : Option CtrlId) :
    (r.setUp c v).thread = r.thread := rfl

@[simp] theorem setUp_futConts (r : Runtime) (c : CtrlId) (v : Option CtrlId) :
    (r.setUp c v).futConts = r.futConts := rfl

@[simp] theorem setUp_futDone (r : Runtime) (c : CtrlId) (v : Option CtrlId) :
    (r.setUp c v).futDone = r.futDone := rfl

@[simp] theorem setUp_queue (r : Runtime) (c : CtrlId) (v : Option CtrlId) :
    (r.setUp c v).queue = r.queue := rfl

@[simp] theorem setUp_log (r : Runtime) (c : CtrlId) (v : Option CtrlId) :
    (r.setUp c v).log = r.log := rfl

@[simp] theorem setUp_next (r : Runtime) (c : CtrlId) (v : Option CtrlId) :
    (r.setUp c v).next = r.next := rfl

@[simp] theorem setDown_conn (r : Runtime) (c : CtrlId) (v : Option CtrlId) :
    (r.setDown c v).conn = r.conn := rfl

@[simp] theorem setDown_owner (r : Runtime) (c : CtrlId) (v : Option CtrlId) :
    (r.setDown c v).owner = r.owner := rfl

@[simp] theorem setDown_frame (r : Runtime) (c : CtrlId) (v : Option CtrlId) :
    (r.setDown c v).frame = r.frame := rfl

@[simp] theorem setDown_sig (r : Runtime) (c : CtrlId) (v : Option CtrlId) :
    (r.setDown c v).sig = r.sig := rfl

@[simp] theorem setDown_alive (r : Runtime) (c : CtrlId) (v : Option CtrlId) :
    (r.setDown c v).alive = r.alive := rfl

@[simp] theorem setDown_thread (r : Runtime) (c : CtrlId) (v : Option CtrlId) :
    (r.setDown c v).thread = r.thread := rfl

@[simp] theorem setDown_futConts (r : Runtime) (c : CtrlId) (v : Option CtrlId) :
    (r.setDown c v).futConts = r.futConts := rfl

@[simp] theorem setDown_futDone (r : Runtime) (c : CtrlId) (v : Option CtrlId) :
    (r.setDown c v).futDone = r.futDone := rfl

@[simp] theorem setDown_queue (r : Runtime) (c : CtrlId) (v : Option CtrlId) :
    (r.setDown c v).queue = r.queue := rfl

@[simp] theorem setDown_log (r : Runtime) (c : CtrlId) (v : Option CtrlId) :
    (r.setDown c v).log = r.log := rfl

@[simp] theorem setDown_next (r : Runtime) (c : CtrlId) (v : Option CtrlId) :
    (r.setDown c v).next = r.next := rfl

@[simp] theorem setResult_conn (r : Runtime) (c : CtrlId) (v : Int) :
    (r.setResult c v).conn = r.conn := rfl

@[simp] theorem setResult_owner (r : Runtime) (c : CtrlId) (v : Int) :
    (r.setResult c v).owner = r.owner := rfl

@[simp] theorem setResult_frame (r : Runtime) (c : CtrlId) (v : Int) :
    (r.setResult c v).frame = r.frame := rfl

@[simp] theorem setResult_sig (r : Runtime) (c : CtrlId) (v : Int) :
    (r.setResult c v).sig = r.sig := rfl

@[simp] theorem setResult_alive (r : Runtime) (c : CtrlId) (v : Int) :
    (r.setResult c v).alive = r.alive := rfl

@[simp] theorem setResult_thread (r : Runtime) (c : CtrlId) (v : Int) :
    (r.setResult c v).thread = r.thread := rfl

@[simp] theorem setResult_futConts (r : Runtime) (c : CtrlId) (v : Int) :
    (r.setResult c v).futConts = r.futConts := rfl

@[simp] theorem setResult_futDone (r : Runtime) (c : CtrlId) (v : Int) :
    (r.setResult c v).futDone = r.futDone := rfl

@[simp] theorem setResult_queue (r : Runtime) (c : CtrlId) (v : Int) :
    (r.setResult c v).queue = r.queue := rfl

@[simp] theorem setResult_log (r : Runtime) (c : CtrlId) (v : Int) :
    (r.setResult c v).log = r.log := rfl

@[simp] theorem setResult_next (r : Runtime) (c : CtrlId) (v : Int) :
    (r.setResult c v).next = r.next := rfl

@[simp] theorem disconnect_st (r : Runtime) (c : CtrlId) :
    (r.disconnect c).st = r.st := rfl

@[simp] theorem emit_st (r : Runtime) (e : Event) :
    (r.emit e).st = r.st := rfl

@[simp] theorem destroyFrame_st (r : Runtime) (c : CtrlId) :
    (r.destroyFrame c).st = r.st := rfl

@[simp] theorem emit_conn (r : Runtime) (e : Event) :
    (r.emit e).conn = r.conn := rfl

@[simp] theorem destroyFrame_conn (r : Runtime) (c : CtrlId) :
    (r.destroyFrame c).conn = r.conn := rfl

@[simp] theorem disconnect_owner (r : Runtime) (c : CtrlId) :
    (r.disconnect c).owner = r.owner := rfl

@[simp] theorem emit_owner (r : Runtime) (e : Event) :
    (r.emit e).owner = r.owner := rfl

@[simp] theorem destroyFrame_owner (r : Runtime) (c : CtrlId) :
    (r.destroyFrame c).owner = r.owner := rfl

@[simp] theorem disconnect_frame (r : Runtime) (c : CtrlId) :
    (r.disconnect c).frame = r.frame := rfl

@[simp] theorem emit_frame (r : Runtime) (e : Event) :
    (r.emit e).frame = r.frame := rfl

@[simp] theorem disconnect_sig (r : Runtime) (c : CtrlId) :
    (r.disconnect c).sig = r.sig := rfl

@[simp] theorem emit_sig (r : Runtime) (e : Event) :
    (r.emit e).sig = r.sig := rfl

@[simp] theorem disconnect_alive (r : Runtime) (c : CtrlId) :
    (r.disconnect c).alive = r.alive := rfl

@[simp] theorem emit_alive (r : Runtime) (e : Event) :
    (r.emit e).alive = r.alive := rfl

@[simp] theorem destroyFrame_alive (r : Runtime) (c : CtrlId) :
    (r.destroyFrame c).alive = r.alive := rfl

@[simp] theorem disconnect_thread (r : Runtime) (c : CtrlId) :
    (r.disconnect c).thread = r.thread := rfl

@[simp] theorem emit_thread (r : Runtime) (e : Event) :
    (r.emit e).thread = r.thread := rfl

@[simp] theorem destroyFrame_thread (r : Runtime) (c : CtrlId) :
    (r.destroyFrame c).thread = r.thread := rfl

@[simp] theorem disconnect_futConts (r : Runtime) (c : CtrlId) :
    (r.disconnect c).futConts = r.futConts := rfl

@[simp] theorem emit_futConts (r : Runtime) (e : Event) :
    (r.emit e).futConts = r.futConts := rfl

@[simp] theorem destroyFrame_futConts (r : Runtime) (c : CtrlId) :
    (r.destroyFrame c).futConts = r.futConts := rfl

@[simp] theorem disconnect_futDone (r : Runtime) (c : CtrlId) :
    (r.disconnect c).futDone = r.futDone := rfl

@[simp] theorem emit_futDone (r : Runtime) (e : Event) :
    (r.emit e).futDone = r.futDone := rfl

@[simp] theorem destroyFrame_futDone (r : Runtime) (c : CtrlId) :
    (r.destroyFrame c).futDone = r.futDone := rfl

@[simp] theorem disconnect_queue (r : Runtime) (c : CtrlId) :
    (r.disconnect c).queue = r.queue := rfl

@[simp] theorem emit_queue (r : Runtime) (e : Event) :
    (r.emit e).queue = r.queue := rfl

@[simp] theorem destroyFrame_queue (r : Runtime) (c : CtrlId) :
    (r.destroyFrame c).queue = r.queue := rfl

@[simp] theorem disconnect_log (r : Runtime) (c : CtrlId) :
    (r.disconnect c).log = r.log := rfl

@[simp] theorem disconnect_next (r : Runtime) (c : CtrlId) :
    (r.disconnect c).next = r.next := rfl

@[simp] theorem emit_next (r : Runtime) (e : Event) :
    (r.emit e).next = r.next := rfl

@[simp] theorem destroyFrame_next (r : Runtime) (c : CtrlId) :
    (r.destroyFrame c).next = r.next := rfl

@[simp] theorem disconnect_conn (r : Runtime) (c : CtrlId) :
    (r.disconnect c).conn = Function.update r.conn c false := rfl

@[simp] theorem emit_log (r : Runtime) (e : Event) :
    (r.emit e).log = r.log ++ [e] := rfl

@[simp] theorem destroyFrame_log (r : Runtime) (c : CtrlId) :
    (r.destroyFrame c).log = r.log ++ [Event.destroyed c] := rfl

@[simp] theorem destroyFrame_frame (r : Runtime) (c : CtrlId) :
    (r.destroyFrame c).frame = Function.update r.frame c Frame.destroyed := rfl

@[simp] theorem destroyFrame_sig (r : Runtime) (c : CtrlId) :
    (r.destroyFrame c).sig = Function.update r.sig c none := rfl

/-- Field-wise description of the state `abortPrep c r` when `c` does not
await itself. -/
theorem abortPrep_spec (c : CtrlId) (r : Runtime)
    (hd : (r.st c).down ≠ some c) :
    (abortPrep c r).log = r.log ++ [Event.aborted c] ∧
    (abortPrep c r).frame = r.frame ∧
    (abortPrep c r).sig = r.sig ∧
    (abortPrep c r).queue = r.queue ∧
    (abortPrep c r).conn = Function.update r.conn c false ∧
    ((unlinkDown c (abortEnter c r)).st c).up = (r.st c).up ∧
    ((abortEnter c r).st c).down = (r.st c).down ∧
    (∀ x, ((abortPrep c r).st x).down =
      if x = c ∨ (r.st c).up = some x then none else (r.st x).down) ∧
    (∀ x, ((abortPrep c r).st x).up =
      if x = c ∨ (r.st c).down = some x then none else (r.st x).up) ∧
    (∀ x, ((abortPrep c r).st x).result = (r.st x).result) ∧
    (∀ x, ((abortPrep c r).st x).current =
      if x = c then none else (r.st x).current) := by
  have hdc : ∀ d, (r.st c).down = some d → ¬ c = d := by
    intro d h e; subst e; exact hd h
  rcases hdn : (r.st c).down with _ | d <;> rcases hup : (r.st c).up with _ | u
  · simp [abortPrep, unlinkUp, unlinkDown, abortEnter, hdn, hup]
    constructor <;> intro x <;> split_ifs with h <;> simp_all
  · simp [abortPrep, unlinkUp, unlinkDown, abortEnter, hdn, hup]
    intro x
    by_cases h1 : x = u <;> by_cases h2 : x = c <;> simp_all [eq_comm]
  · have hcd := hdc d hdn
    simp [abortPrep, unlinkUp, unlinkDown, abortEnter, hdn, hup, hcd]
    intro x
    by_cases h1 : x = d <;> by_cases h2 : x = c <;> simp_all [eq_comm]
  · have hcd := hdc d hdn
    simp [abortPrep, unlinkUp, unlinkDown, abortEnter, hdn, hup, hcd]
    constructor <;> intro x
    · by_cases h1 : x = u <;> by_cases h2 : x = c <;> simp_all [eq_comm]
    · by_cases h1 : x = d <;> by_cases h2 : x = c <;> simp_all [eq_comm]

/-- The cascade of `abort` started at `c`, whose callees are `ds` (nearest
first) and whose callers are `us` (nearest first): the frames are destroyed in
the order `ds.reverse`, `c`, `us`, and nothing else is touched. -/
theorem abort_focus : ∀ (fuel : Nat) (c : CtrlId) (us ds : List CtrlId) (r : Runtime),
    us.length + ds.length < fuel → (c :: (us ++ ds)).Nodup →
    downLinked r c ds → upLinked r c us →
    ∃ r', abort fuel c r = some r' ∧
      destroyedOf r'.log = destroyedOf r.log ++ (ds.reverse ++ c :: us) ∧
      (∀ x, x ∉ c :: (us ++ ds) →
        (r'.st x).up = (r.st x).up ∧ (r'.st x).down = (r.st x).down ∧
          r'.frame x = r.frame x) ∧
      (∀ x, x ∈ c :: (us ++ ds) → r'.frame x = Frame.destroyed) := by
  intro fuel
  induction fuel with
  | zero => intro c us ds r h; omega
  | succ fuel ih =>
    intro c us ds r hlen hnd hdl hul
    have hcd : (r.st c).down ≠ some c := by
      cases ds with
      | nil => simp only [downLinked] at hdl; simp [hdl]
      | cons d ds =>
        simp only [downLinked] at hdl
        rw [hdl.1]
        intro h
        have : d = c := Option.some.inj h
        subst this
        simp at hnd
    obtain ⟨hlog, hframe, -, -, -, hupc, hdownc, hdown, hup, -, -⟩ := abortPrep_spec c r hcd
    rw [abort_succ, hupc, hdownc]
    -- the descent
    have phase1 : ∃ r4, (match (r.st c).down with
          | some d => abort fuel d (abortPrep c r)
          | none => some (abortPrep c r)) = some r4 ∧
        destroyedOf r4.log = destroyedOf r.log ++ ds.reverse ∧
        (∀ x, x ∉ ds →
          (r4.st x).up = ((abortPrep c r).st x).up ∧
          (r4.st x).down = ((abortPrep c r).st x).down ∧
          r4.frame x = r.frame x) ∧
        (∀ x, x ∈ ds → r4.frame x = Frame.destroyed) := by
      cases ds with
      | nil =>
        simp only [downLinked] at hdl
        refine ⟨abortPrep c r, by simp [hdl], ?_, ?_, ?_⟩
        · simp [hlog, destroyedOf]
        · intro x _; simp [hframe]
        · intro x hx; simp at hx
      | cons d ds =>
        simp only [downLinked] at hdl
        have hnd' : (d :: ([] ++ ds)).Nodup := by
          simp only [List.nil_append]
          have := (List.nodup_cons.mp hnd).2
          exact (List.nodup_append.mp this).2.1
        have hdisj : ∀ x ∈ d :: ds, x ≠ c ∧ x ∉ us := by
          intro x hx
          have h1 := List.nodup_cons.mp hnd
          constructor
          · rintro rfl; exact h1.1 (List.mem_append_right _ hx)
          · intro hxu
            exact (List.nodup_append.mp h1.2).2.2 hxu hx
        have hdl' : downLinked (abortPrep c r) d ds := by
          apply downLinked_congr r _ ds d _ hdl.2
          intro x hx
          rw [hdown]
          have := hdisj x hx
          have hne : ¬ (x = c ∨ (r.st c).up = some x) := by
            rintro (h | h)
            · exact this.1 h
            · cases us with
              | nil => simp only [upLinked] at hul; rw [hul] at h; cases h
              | cons u us =>
                simp only [upLinked] at hul; rw [hul.1] at h
                have : u = x := Option.some.inj h
                subst this
                exact this.2 (by simp)
          simp [hne]
        have hul' : upLinked (abortPrep c r) d [] := by
          simp only [upLinked]; rw [hup]; simp [hdl.1]
        obtain ⟨r4, h4, h4log, h4st, h4fr⟩ := ih d [] ds (abortPrep c r)
          (by simp at hlen ⊢; omega) hnd' hdl' hul'
        refine ⟨r4, by simp [hdl.1, h4], ?_, ?_, ?_⟩
        · rw [h4log, hlog]; simp [destroyedOf]
        · intro x hx
          have := h4st x (by simpa using hx)
          exact ⟨this.1, this.2.1, by rw [this.2.2, hframe]⟩
        · intro x hx; exact h4fr x (by simpa using hx)
    obtain ⟨r4, h4, h4log, h4st, h4fr⟩ := phase1
    rw [h4]
    have hcds : c ∉ ds := fun h =>
      (List.nodup_cons.mp hnd).1 (List.mem_append_right _ h)
    cases us with
    | nil =>
      simp only [upLinked] at hul
      refine ⟨r4.destroyFrame c, by simp [hul], ?_, ?_, ?_⟩
      · simp [h4log, destroyedOf]
      · intro x hx
        simp only [List.nil_append, List.mem_cons, not_or] at hx
        have := h4st x hx.2
        simp only [destroyFrame_st, destroyFrame_frame]
        rw [this.1, this.2.1, hup, hdown, hul]
        refine ⟨?_, ?_, ?_⟩
        · have : ¬ (x = c ∨ (r.st c).down = some x) := by
            rintro (h | h)
            · exact hx.1 h
            · cases ds with
              | nil => simp only [downLinked] at hdl; rw [hdl] at h; cases h
              | cons d ds =>
                simp only [downLinked] at hdl; rw [hdl.1] at h
                have : d = x := Option.some.inj h
                subst this
                exact hx.2 (by simp)
          simp [this]
        · simp [hx.1]
        · simp [Function.update_apply, hx.1, this.2.2]
      · intro x hx
        simp only [List.nil_append, List.mem_cons] at hx
        simp only [destroyFrame_frame, Function.update_apply]
        rcases hx with hx | hx
        · simp [hx]
        · have : x ≠ c := by rintro rfl; exact hcds hx
          simp [this, h4fr x hx]
    | cons u us =>
      simp only [upLinked] at hul
      have hnd0 := List.nodup_cons.mp hnd
      have hndu : (u :: (us ++ [])).Nodup := by
        simp only [List.append_nil]
        exact (List.nodup_append.mp hnd0.2).1
      have hus : ∀ x ∈ u :: us, x ≠ c ∧ x ∉ ds := by
        intro x hx
        constructor
        · rintro rfl; exact hnd0.1 (List.mem_append_left _ hx)
        · intro hxd
          exact (List.nodup_append.mp hnd0.2).2.2 hx hxd
      have hprepUp : ∀ x, x ≠ c → x ∉ ds →
          ((abortPrep c r).st x).up = (r.st x).up := by
        intro x hxc hxd
        rw [hup]
        have : ¬ (x = c ∨ (r.st c).down = some x) := by
          rintro (h | h)
          · exact hxc h
          · cases ds with
            | nil => simp only [downLinked] at hdl; rw [hdl] at h; cases h
            | cons d ds =>
              simp only [downLinked] at hdl; rw [hdl.1] at h
              have : d = x := Option.some.inj h
              subst this
              exact hxd (by simp)
        simp [this]
      have hdl5 : downLinked (r4.destroyFrame c) u [] := by
        simp only [downLinked, destroyFrame_st]
        rw [(h4st u (hus u (by simp)).2).2.1, hdown]
        simp [hul.1]
      have hul5 : upLinked (r4.destroyFrame c) u us := by
        apply upLinked_congr r _ us u _ hul.2
        intro x hx
        simp only [destroyFrame_st]
        rw [(h4st x (hus x hx).2).1]
        exact hprepUp x (hus x hx).1 (hus x hx).2
      obtain ⟨r6, h6, h6log, h6st, h6fr⟩ := ih u us [] (r4.destroyFrame c)
        (by simp at hlen ⊢; omega) hndu hdl5 hul5
      refine ⟨r6, by simp [hul.1, h6], ?_, ?_, ?_⟩
      · rw [h6log]; simp [h4log, destroyedOf]
      · intro x hx
        simp only [List.mem_cons, List.mem_append, not_or] at hx
        have hx6 := h6st x (by simp [hx.2.1.1, hx.2.1.2])
        have hx4 := h4st x hx.2.2
        simp only [destroyFrame_st, destroyFrame_frame] at hx6
        refine ⟨?_, ?_, ?_⟩
        · rw [hx6.1, hx4.1]; exact hprepUp x hx.1 hx.2.2
        · rw [hx6.2.1, hx4.2.1, hdown]
          have : ¬ (x = c ∨ (r.st c).up = some x) := by
            rintro (h | h)
            · exact hx.1 h
            · rw [hul.1] at h
              exact hx.2.1.1 (Option.some.inj h).symm
          simp [this]
        · rw [hx6.2.2]; simp [Function.update_apply, hx.1, hx4.2.2]
      · intro x hx
        by_cases hxu : x ∈ u :: us
        · exact h6fr x (by simpa using hxu)
        · have hx6 := h6st x (by simpa using hxu)
          rw [hx6.2.2]
          simp only [destroyFrame_frame, Function.update_apply]
          by_cases hxc : x = c
          · simp [hxc]
          · have : x ∈ ds := by
              simp only [List.mem_cons, List.mem_append] at hx hxu
              rcases hx with h | (h | h) | h
              · exact absurd h hxc
              · exact absurd (Or.inl h) hxu
              · exact absurd (Or.inr h) hxu
              · exact h
            simp [hxc, h4fr x this]

theorem linkedFrom_cons_cons (r : Runtime) (prev : Option CtrlId) (c d : CtrlId)
    (l : List CtrlId) :
    linkedFrom r prev (c :: d :: l) = true ↔
      (r.st c).up = prev ∧ (r.st c).down = some d ∧ linkedFrom r (some c) (d :: l) = true := by
  simp [linkedFrom, and_assoc]

theorem linkedFrom_singleton (r : Runtime) (prev : Option CtrlId) (c : CtrlId) :
    linkedFrom r prev [c] = true ↔ (r.st c).up = prev ∧ (r.st c).down = none := by
  simp [linkedFrom]

theorem linkedFrom_up (r : Runtime) (prev : Option CtrlId) (c : CtrlId) (l : List CtrlId)
    (h : linkedFrom r prev (c :: l) = true) : (r.st c).up = prev := by
  cases l with
  | nil => exact ((linkedFrom_singleton r prev c).mp h).1
  | cons d l => exact ((linkedFrom_cons_cons r prev c d l).mp h).1

theorem downLinked_of_linkedFrom (r : Runtime) :
    ∀ (post : List CtrlId) (prev : Option CtrlId) (c : CtrlId),
      linkedFrom r prev (c :: post) = true → downLinked r c post
  | [], prev, c, h => by
    simp only [downLinked]
    exact ((linkedFrom_singleton r prev c).mp h).2
  | d :: post, prev, c, h => by
    simp only [downLinked]
    have h' := (linkedFrom_cons_cons r prev c d post).mp h
    exact ⟨h'.2.1, downLinked_of_linkedFrom r post (some c) d h'.2.2⟩

theorem split_of_linkedFrom (r : Runtime) (c : CtrlId) (post : List CtrlId) :
    ∀ (pre acc : List CtrlId),
      linkedFrom r acc.head? (pre ++ c :: post) = true →
      (∀ x, (r.st x).up = acc.head? → upLinked r x acc) →
      upLinked r c (pre.reverse ++ acc) ∧ downLinked r c post
  | [], acc, h, hacc => by
    simp only [List.nil_append] at h
    exact ⟨by simpa using hacc c (linkedFrom_up r _ c post h),
      downLinked_of_linkedFrom r post _ c h⟩
  | p :: pre, acc, h, hacc => by
    have hp : (r.st p).up = acc.head? ∧ linkedFrom r (some p) (pre ++ c :: post) = true := by
      cases pre with
      | nil =>
        have h' := (linkedFrom_cons_cons r _ p c post).mp h
        exact ⟨h'.1, h'.2.2⟩
      | cons q pre =>
        have h' := (linkedFrom_cons_cons r _ p q (pre ++ c :: post)).mp h
        exact ⟨h'.1, h'.2.2⟩
    have := split_of_linkedFrom r c post pre (p :: acc) hp.2 (by
      intro x hx
      simp only [List.head?_cons] at hx
      simp only [upLinked]
      exact ⟨hx, hacc p hp.1⟩)
    simpa using this

/-- Aborting the link `c` of the chain `pre ++ c :: post`. -/
theorem abort_chain_split (r : Runtime) (pre post : List CtrlId) (c : CtrlId)
    (hchain : IsChain r (pre ++ c :: post)) (fuel : Nat)
    (hfuel : (pre ++ c :: post).length ≤ fuel) :
    ∃ r', abort fuel c r = some r' ∧
      destroyedOf r'.log = destroyedOf r.log ++ (pre ++ c :: post).reverse ∧
      (∀ x, r'.frame x =
        if x ∈ pre ++ c :: post then Frame.destroyed else r.frame x) := by
  obtain ⟨hnd, hl⟩ := hchain
  have hsplit := split_of_linkedFrom r c post pre [] hl (by
    intro x hx; simpa [upLinked] using hx)
  simp only [List.append_nil] at hsplit
  have hnd' : (c :: (pre.reverse ++ post)).Nodup := by
    have h1 : (pre ++ c :: post).Perm (c :: (pre.reverse ++ post)) := by
      have h2 : (pre ++ c :: post).Perm (c :: (pre ++ post)) := List.perm_middle
      exact h2.trans (List.Perm.cons c ((List.reverse_perm pre).symm.append_right post))
    exact h1.nodup_iff.mp hnd
  obtain ⟨r', hr', hlog, hst, hfr⟩ := abort_focus fuel c pre.reverse post r
    (by simp at hfuel ⊢; omega) hnd' hsplit.2 hsplit.1
  refine ⟨r', hr', ?_, ?_⟩
  · rw [hlog]; simp
  · intro x
    by_cases hx : x ∈ pre ++ c :: post
    · rw [if_pos hx]
      apply hfr
      simp only [List.mem_append, List.mem_cons, List.mem_reverse] at hx ⊢
      tauto
    · rw [if_neg hx]
      apply (hst x _).2.2
      simp only [List.mem_append, List.mem_cons, List.mem_reverse] at hx ⊢
      tauto

/-- C1: in a call chain `cs` of `N` distinct controllers with consistent
links, `abort()` on the link of any index `k` returns, destroys exactly the
frames of `cs`, each once, in the order callee-most first, caller-most last
(`cs.reverse`), and changes the status of no other frame. -/
theorem abort_destroys_chain (r : Runtime) (cs : List CtrlId) (k : Nat)
    (hk : k < cs.length) (hchain : IsChain r cs) (fuel : Nat)
    (hfuel : cs.length ≤ fuel) :
    ∃ r', abort fuel (cs.get ⟨k, hk⟩) r = some r' ∧
      destroyedOf r'.log = destroyedOf r.log ++ cs.reverse ∧
      cs.reverse.Nodup ∧
      (∀ x, r'.frame x = if x ∈ cs then Frame.destroyed else r.frame x) := by
  have hsplit : cs = cs.take k ++ cs.get ⟨k, hk⟩ :: cs.drop (k + 1) := by
    conv_lhs => rw [← List.take_append_drop k cs]
    rw [List.drop_eq_getElem_cons hk]
    rfl
  have hnd : cs.reverse.Nodup := List.nodup_reverse.mpr hchain.1
  generalize cs.get ⟨k, hk⟩ = c at hsplit
  generalize cs.take k = pre at hsplit
  generalize cs.drop (k + 1) = post at hsplit
  subst hsplit
  obtain ⟨r', h1, h2, h3⟩ := abort_chain_split r pre post c hchain fuel hfuel
  exact ⟨r', h1, h2, hnd, h3⟩

/-- C1 (witness): the chain `0`, `1`, `2` of `chain3`, aborted at its middle link. -/
theorem abort_destroys_chain_witness :
    IsChain chain3 [0, 1, 2] ∧
    ∃ r', abort 3 1 chain3 = some r' ∧
      destroyedOf r'.log = destroyedOf chain3.log ++ [2, 1, 0] ∧
      [2, 1, 0].Nodup ∧
      (∀ x, r'.frame x = if x ∈ [0, 1, 2] then Frame.destroyed else chain3.frame x) :=
  ⟨⟨by decide, by decide⟩,
    abort_destroys_chain chain3 [0, 1, 2] 1 (by decide) ⟨by decide, by decide⟩ 3 (by decide)⟩

theorem Inv.of_cleared {r r' : Runtime} (h : Inv r) (hc : Consistent r')
    (hq : r'.queue = r.queue) (hn : r'.next = r.next)
    (hdown : ∀ x, (r'.st x).down = (r.st x).down ∨ (r'.st x).down = none)
    (hup : ∀ x, (r'.st x).up = (r.st x).up ∨ (r'.st x).up = none)
    (hcur : ∀ x, (r'.st x).current = (r.st x).current ∨ (r'.st x).current = none)
    (hfr : ∀ x, r'.frame x = r.frame x ∨ r'.frame x ≠ Frame.running) : Inv r' where
  cons := hc
  runDown := by
    intro u hu
    rcases hfr u with h1 | h1
    · rcases hdown u with h2 | h2
      · rw [h2]; exact h.runDown u (h1 ▸ hu)
      · exact h2
    · exact absurd hu h1
  queueDown := by
    intro u hu
    rw [hq] at hu
    have := h.queueDown u hu
    constructor
    · rcases hdown u with h2 | h2
      · rw [h2]; exact this.1
      · exact h2
    · rcases hfr u with h1 | h1
      · rw [h1]; exact this.2
      · exact h1
  queueNodup := hq ▸ h.queueNodup
  fresh := by
    intro c hcn
    rw [hn] at hcn
    have := h.fresh c hcn
    refine ⟨?_, ?_, ?_, ?_⟩
    · rcases hup c with h2 | h2
      · rw [h2]; exact this.1
      · exact h2
    · rcases hdown c with h2 | h2
      · rw [h2]; exact this.2.1
      · exact h2
    · rcases hcur c with h2 | h2
      · rw [h2]; exact this.2.2.1
      · exact h2
    · rcases hfr c with h1 | h1
      · rw [h1]; exact this.2.2.2
      · exact h1
  queueLt := by
    intro u hu
    rw [hq] at hu
    rw [hn]
    exact h.queueLt u hu
  cur := by
    intro x c hx
    rcases hcur x with h2 | h2
    · exact h.cur x c (h2 ▸ hx)
    · rw [h2] at hx; cases hx

theorem unlinkDown_consistent (c : CtrlId) (r : Runtime) (h : Consistent r) :
    Consistent (unlinkDown c r) := by
  unfold unlinkDown
  rcases hd : (r.st c).down with _ | d
  · exact h
  · intro a b
    have hdc : (r.st d).up = some c := (h c d).mp hd
    simp only [setDown_down, setUp_down, setDown_up, setUp_up]
    by_cases ha : a = c <;> by_cases hb : b = d
    · simp [ha, hb]
    · subst ha
      simp only [if_true, if_neg hb]
      constructor
      · intro h1; cases h1
      · intro h1
        have := (h a b).mpr h1
        rw [hd] at this
        exact absurd (Option.some.inj this).symm hb
    · subst hb
      simp only [if_true, if_neg ha]
      constructor
      · intro h1
        have := (h a b).mp h1
        rw [hdc] at this
        exact absurd (Option.some.inj this).symm ha
      · intro h1; cases h1
    · simp only [if_neg ha, if_neg hb]
      exact h a b

theorem unlinkUp_consistent (c : CtrlId) (r : Runtime) (h : Consistent r) :
    Consistent (unlinkUp c r) := by
  unfold unlinkUp
  rcases hu : (r.st c).up with _ | u
  · exact h
  · intro a b
    have huc : (r.st u).down = some c := (h u c).mpr hu
    simp only [setDown_down, setUp_down, setDown_up, setUp_up]
    by_cases ha : a = u <;> by_cases hb : b = c
    · simp [ha, hb]
    · subst ha
      simp only [if_true, if_neg hb]
      constructor
      · intro h1; cases h1
      · intro h1
        have := (h a b).mpr h1
        rw [huc] at this
        exact absurd (Option.some.inj this).symm hb
    · subst hb
      simp only [if_true, if_neg ha]
      constructor
      · intro h1
        have := (h a b).mp h1
        rw [hu] at this
        exact absurd (Option.some.inj this).symm ha
      · intro h1; cases h1
    · simp only [if_neg ha, if_neg hb]
      exact h a b

theorem unlinkDown_inv (c : CtrlId) (r : Runtime) (h : Inv r) : Inv (unlinkDown c r) := by
  refine h.of_cleared (unlinkDown_consistent c r h.cons) ?_ ?_ ?_ ?_ ?_ ?_
  all_goals
    unfold unlinkDown
    rcases (r.st c).down with _ | d
  all_goals first
    | rfl
    | (intro x; simp only [setDown_down, setUp_down, setDown_up, setUp_up, setDown_current,
        setUp_current, setDown_frame, setUp_frame]
       split_ifs <;> simp)
    | (intro x; simp)

theorem unlinkUp_inv (c : CtrlId) (r : Runtime) (h : Inv r) : Inv (unlinkUp c r) := by
  refine h.of_cleared (unlinkUp_consistent c r h.cons) ?_ ?_ ?_ ?_ ?_ ?_
  all_goals
    unfold unlinkUp
    rcases (r.st c).up with _ | d
  all_goals first
    | rfl
    | (intro x; simp only [setDown_down, setUp_down, setDown_up, setUp_up, setDown_current,
        setUp_current, setDown_frame, setUp_frame]
       split_ifs <;> simp)
    | (intro x; simp)

theorem abortEnter_inv (c : CtrlId) (r : Runtime) (h : Inv r) : Inv (abortEnter c r) := by
  refine h.of_cleared ?_ rfl rfl ?_ ?_ ?_ ?_
  · intro a b
    simp only [abortEnter, setCurrent_down, setCurrent_up, disconnect_st, emit_st]
    exact h.cons a b
  all_goals
    intro x
    simp only [abortEnter, setCurrent_down, setCurrent_up, setCurrent_current, setCurrent_frame,
      disconnect_st, emit_st, disconnect_frame, emit_frame]
    try split_ifs
    all_goals simp

theorem destroyFrame_inv (c : CtrlId) (r : Runtime) (h : Inv r) : Inv (r.destroyFrame c) := by
  refine h.of_cleared ?_ rfl rfl ?_ ?_ ?_ ?_
  · intro a b
    simp only [destroyFrame_st]
    exact h.cons a b
  · intro x; simp
  · intro x; simp
  · intro x; simp
  · intro x
    simp only [destroyFrame_frame, Function.update_apply]
    split_ifs <;> simp

theorem abortPrep_inv (c : CtrlId) (r : Runtime) (h : Inv r) : Inv (abortPrep c r) :=
  unlinkUp_inv c _ (unlinkDown_inv c _ (abortEnter_inv c r h))

theorem abort_inv : ∀ (fuel : Nat) (c : CtrlId) (r r' : Runtime),
    abort fuel c r = some r' → Inv r → Inv r' := by
  intro fuel
  induction fuel with
  | zero => intro c r r' h; simp [abort] at h
  | succ fuel ih =>
    intro c r r' h hinv
    rw [abort_succ] at h
    have hprep := abortPrep_inv c r hinv
    have h4 : ∀ r4, (match ((abortEnter c r).st c).down with
          | some d => abort fuel d (abortPrep c r)
          | none => some (abortPrep c r)) = some r4 → Inv r4 := by
      intro r4 h4
      rcases hd : ((abortEnter c r).st c).down with _ | d
      · rw [hd] at h4
        cases h4
        exact hprep
      · rw [hd] at h4
        exact ih d _ r4 h4 hprep
    rcases hr4 : (match ((abortEnter c r).st c).down with
          | some d => abort fuel d (abortPrep c r)
          | none => some (abortPrep c r)) with _ | r4
    · rw [hr4] at h; cases h
    · rw [hr4] at h
      have hinv5 := destroyFrame_inv c r4 (h4 r4 hr4)
      rcases hu : ((unlinkDown c (abortEnter c r)).st c).up with _ | u
      · rw [hu] at h
        cases h
        exact hinv5
      · rw [hu] at h
        exact ih u _ r' h hinv5

theorem abortEntries_inv : ∀ (fuel : Nat) (c : CtrlId) (r : Runtime), Inv r →
    ∀ e ∈ abortEntries fuel c r, Inv e.2 := by
  intro fuel
  induction fuel with
  | zero => intro c r _ e he; simp [abortEntries] at he
  | succ fuel ih =>
    intro c r hinv e he
    have hprep := abortPrep_inv c r hinv
    simp only [abortEntries, List.mem_cons, List.mem_append] at he
    rcases he with he | he | he
    · rw [he]; exact hinv
    · rcases hd : ((abortEnter c r).st c).down with _ | d
      · rw [hd] at he; simp at he
      · rw [hd] at he
        exact ih d _ hprep e he
    · rcases hd : ((abortEnter c r).st c).down with _ | d
      · rw [hd] at he
        rcases hu : ((unlinkDown c (abortEnter c r)).st c).up with _ | u
        · rw [hu] at he; simp at he
        · rw [hu] at he
          exact ih u _ (destroyFrame_inv c _ hprep) e he
      · rw [hd] at he
        rcases h4 : abort fuel d (unlinkUp c (unlinkDown c (abortEnter c r))) with _ | r4
        · simp only [h4] at he; simp at he
        · simp only [h4] at he
          rcases hu : ((unlinkDown c (abortEnter c r)).st c).up with _ | u
          · rw [hu] at he; simp at he
          · rw [hu] at he
            exact ih u _ (destroyFrame_inv c _ (abort_inv fuel d _ r4 h4 hprep)) e he

theorem start_st (o : ObjId) (r : Runtime) (x : CtrlId) :
    (start o r).st x = if x = r.next then
      { current := some r.next, up := none, down := none, result := none } else r.st x := by
  simp [start, Function.update_apply]

theorem start_frame (o : ObjId) (r : Runtime) (x : CtrlId) :
    (start o r).frame x = if x = r.next then Frame.running else r.frame x := by
  simp [start, Function.update_apply]

theorem start_inv (o : ObjId) (r : Runtime) (h : Inv r) : Inv (start o r) where
  cons := by
    intro a b
    have hn := h.fresh r.next (le_refl _)
    rw [start_st, start_st]
    by_cases ha : a = r.next <;> by_cases hb : b = r.next
    · simp [ha, hb]
    · simp only [if_pos ha, if_neg hb]
      constructor
      · intro h1; cases h1
      · intro h1
        have := (h.cons a b).mpr h1
        rw [ha, hn.2.1] at this; cases this
    · simp only [if_neg ha, if_pos hb]
      constructor
      · intro h1
        have := (h.cons a b).mp h1
        rw [hb, hn.1] at this; cases this
      · intro h1; cases h1
    · simp only [if_neg ha, if_neg hb]
      exact h.cons a b
  runDown := by
    intro u hu
    rw [start_st]
    rw [start_frame] at hu
    by_cases hx : u = r.next
    · simp [hx]
    · simp only [if_neg hx] at hu ⊢
      exact h.runDown u hu
  queueDown := by
    intro u hu
    have hlt : u < r.next := h.queueLt u hu
    have hx : u ≠ r.next := Nat.ne_of_lt hlt
    rw [start_st, start_frame]
    simp only [if_neg hx]
    exact h.queueDown u hu
  queueNodup := h.queueNodup
  fresh := by
    intro c hc
    have hc' : r.next + 1 ≤ c := hc
    have hx : c ≠ r.next := Nat.ne_of_gt hc'
    rw [start_st, start_frame]
    simp only [if_neg hx]
    exact h.fresh c (Nat.le_of_succ_le hc')
  queueLt := by
    intro u hu
    have hlt : u < r.next := h.queueLt u hu
    exact Nat.lt_succ_of_lt hlt
  cur := by
    intro x c hx
    rw [start_st] at hx
    by_cases hxn : x = r.next
    · simp only [if_pos hxn] at hx
      rw [hxn]; exact (Option.some.inj hx).symm
    · simp only [if_neg hxn] at hx
      exact h.cur x c hx

@[simp] theorem setFrame_st (r : Runtime) (c : CtrlId) (f : Frame) :
    (r.setFrame c f).st = r.st := rfl

@[simp] theorem setFrame_sig_apply (r : Runtime) (c : CtrlId) (f : Frame) :
    (r.setFrame c f).sig = r.sig := rfl

@[simp] theorem setFrame_queue (r : Runtime) (c : CtrlId) (f : Frame) :
    (r.setFrame c f).queue = r.queue := rfl

@[simp] theorem setFrame_next (r : Runtime) (c : CtrlId) (f : Frame) :
    (r.setFrame c f).next = r.next := rfl

@[simp] theorem setFrame_log (r : Runtime) (c : CtrlId) (f : Frame) :
    (r.setFrame c f).log = r.log := rfl

@[simp] theorem setFrame_frame (r : Runtime) (c x : CtrlId) (f : Frame) :
    (r.setFrame c f).frame x = if x = c then f else r.frame x := by
  simp [Runtime.setFrame, Function.update_apply]

@[simp] theorem post_st (r : Runtime) (u : CtrlId) : (r.post u).st = r.st := rfl

@[simp] theorem post_frame (r : Runtime) (u : CtrlId) : (r.post u).frame = r.frame := rfl

@[simp] theorem post_next (r : Runtime) (u : CtrlId) : (r.post u).next = r.next := rfl

@[simp] theorem post_queue (r : Runtime) (u : CtrlId) :
    (r.post u).queue = r.queue ++ [u] := rfl

@[simp] theorem post_log (r : Runtime) (u : CtrlId) :
    (r.post u).log = r.log ++ [Event.posted u] := rfl

/-- What a successful `awaitNested x u` does. -/
theorem awaitNested_some (x u : CtrlId) (r r' : Runtime) (h : awaitNested x u r = some r') :
    r.frame u = Frame.running ∧ (r.st x).result = none ∧
    ∃ cur, (r.st x).current = some cur ∧ (r.st x).up = none ∧
      r.thread (r.owner u) = r.thread (r.owner cur) ∧
      r' = ((r.setUp x (some u)).setDown u (some cur)).setFrame u Frame.suspended := by
  unfold awaitNested at h
  split_ifs at h with hg
  obtain ⟨hf, hr⟩ := hg
  refine ⟨hf, by simpa [await_ready] using hr, ?_⟩
  unfold await_suspend at h
  rcases hc : (r.st x).current with _ | cur
  · rw [hc] at h; simp at h
  · rw [hc] at h
    by_cases h1 : (r.st x).up = none
    · by_cases h2 : r.thread (r.owner u) = r.thread (r.owner cur)
      · simp [h1, h2] at h
        exact ⟨cur, rfl, h1, h2, h.symm⟩
      · simp [h1, h2] at h
    · simp [h1] at h

theorem awaitNested_inv (x u : CtrlId) (r r' : Runtime) (hs : awaitNested x u r = some r')
    (h : Inv r) : Inv r' := by
  obtain ⟨hf, -, cur, hcur, hup, -, rfl⟩ := awaitNested_some x u r r' hs
  have hcx : cur = x := h.cur x cur hcur
  subst hcx
  have hud : (r.st u).down = none := h.runDown u hf
  have hult : u < r.next := by
    by_contra hge
    exact (h.fresh u (Nat.le_of_not_lt hge)).2.2.2 hf
  have hxlt : cur < r.next := by
    by_contra hge
    have := (h.fresh cur (Nat.le_of_not_lt hge)).2.2.1
    rw [hcur] at this; cases this
  refine ⟨?_, ?_, ?_, ?_, ?_, ?_, ?_⟩
  · intro a b
    simp only [setFrame_st, setDown_down, setUp_down, setDown_up, setUp_up]
    by_cases ha : a = u <;> by_cases hb : b = cur
    · simp [ha, hb]
    · simp only [if_pos ha, if_neg hb]
      constructor
      · intro h1; exact absurd (Option.some.inj h1).symm hb
      · intro h1
        have := (h.cons a b).mpr h1
        rw [ha, hud] at this; cases this
    · simp only [if_neg ha, if_pos hb]
      constructor
      · intro h1
        have := (h.cons a b).mp h1
        rw [hb, hup] at this; cases this
      · intro h1; exact absurd (Option.some.inj h1).symm ha
    · simp only [if_neg ha, if_neg hb]
      exact h.cons a b
  · intro v hv
    simp only [setFrame_frame] at hv
    by_cases hvu : v = u
    · simp [hvu] at hv
    · simp only [if_neg hvu] at hv
      simp only [setFrame_st, setDown_down, setUp_down, if_neg hvu]
      exact h.runDown v hv
  · intro v hv
    have hq := h.queueDown v hv
    have hvu : v ≠ u := by rintro rfl; exact hq.2 hf
    simp only [setFrame_st, setDown_down, setUp_down, setFrame_frame, if_neg hvu]
    exact hq
  · exact h.queueNodup
  · intro c hc
    have hc' : r.next ≤ c := hc
    have hcu : c ≠ u := Nat.ne_of_gt (Nat.lt_of_lt_of_le hult hc')
    have hcx : c ≠ cur := Nat.ne_of_gt (Nat.lt_of_lt_of_le hxlt hc')
    simp only [setFrame_st, setDown_down, setUp_down, setDown_up, setUp_up, setDown_current,
      setUp_current, setFrame_frame, if_neg hcu, if_neg hcx]
    exact h.fresh c hc'
  · exact h.queueLt
  · intro y c hy
    simp only [setFrame_st, setDown_current, setUp_current] at hy
    exact h.cur y c hy

/-- What a successful `handle_return x` does. -/
theorem handle_return_some (x : CtrlId) (r r' : Runtime) (h : handle_return x r = some r') :
    ((r.st x).up = none ∧ r' = (r.disconnect x).setCurrent x none) ∨
    ∃ u, (r.st x).up = some u ∧ (r.st u).down = some x ∧
      r' = (((((r.disconnect x).setCurrent x none).setDown u none).post u).setUp x none) := by
  unfold handle_return at h
  simp only [setCurrent_up, disconnect_st, setCurrent_down] at h
  rcases hu : (r.st x).up with _ | u
  · rw [hu] at h
    left
    exact ⟨rfl, (Option.some.inj h).symm⟩
  · rw [hu] at h
    right
    by_cases hd : (r.st u).down = some x
    · simp [hd] at h
      exact ⟨u, rfl, hd, h.symm⟩
    · simp [hd] at h

/-- What a successful `coReturn x v` does. -/
theorem coReturn_some (x : CtrlId) (v : Int) (r r' : Runtime) (h : coReturn x v r = some r') :
    r.frame x = Frame.running ∧
    (((r.st x).up = none ∧
        r' = (((r.setResult x v).disconnect x).setCurrent x none).setFrame x Frame.finished) ∨
      ∃ u, (r.st x).up = some u ∧ (r.st u).down = some x ∧
        r' = (((((((r.setResult x v).disconnect x).setCurrent x none).setDown u none).post
          u).setUp x none)).setFrame x Frame.finished) := by
  unfold coReturn at h
  split_ifs at h with hf
  refine ⟨hf, ?_⟩
  unfold return_value at h
  rcases h1 : handle_return x (r.setResult x v) with _ | r1
  · rw [h1] at h; simp at h
  · rw [h1] at h
    simp only [Option.map_some', Option.some.injEq] at h
    rcases handle_return_some x _ r1 h1 with ⟨hu, hr⟩ | ⟨u, hu, hd, hr⟩
    · left
      simp only [setResult_up] at hu
      exact ⟨hu, by rw [← h, hr]⟩
    · right
      simp only [setResult_up, setResult_down] at hu hd
      exact ⟨u, hu, hd, by rw [← h, hr]⟩

theorem coReturn_inv (x : CtrlId) (v : Int) (r r' : Runtime) (hs : coReturn x v r = some r')
    (h : Inv r) : Inv r' := by
  obtain ⟨hf, ⟨hu, rfl⟩ | ⟨u, hu, hd, rfl⟩⟩ := coReturn_some x v r r' hs
  · refine h.of_cleared ?_ rfl rfl ?_ ?_ ?_ ?_
    · intro a b
      simp only [setFrame_st, setCurrent_down, setCurrent_up, disconnect_st, setResult_down,
        setResult_up]
      exact h.cons a b
    · intro a; simp
    · intro a; simp
    · intro a
      simp only [setFrame_st, setCurrent_current, disconnect_st, setResult_current]
      split_ifs <;> simp
    · intro a
      simp only [setFrame_frame]
      split_ifs <;> simp
  · have hxd : (r.st x).down = none := h.runDown x hf
    have hux : u ≠ x := by
      rintro rfl
      rw [hxd] at hd; cases hd
    have hunr : r.frame u ≠ Frame.running := by
      intro hr
      have := h.runDown u hr
      rw [hd] at this; cases this
    have hunq : u ∉ r.queue := by
      intro hq
      have := (h.queueDown u hq).1
      rw [hd] at this; cases this
    have hult : u < r.next := by
      by_contra hge
      have := (h.fresh u (Nat.le_of_not_lt hge)).2.1
      rw [hd] at this; cases this
    refine ⟨?_, ?_, ?_, ?_, ?_, ?_, ?_⟩
    · intro a b
      simp only [setFrame_st, setUp_down, setUp_up, post_st, setDown_down, setDown_up,
        setCurrent_down, setCurrent_up, disconnect_st, setResult_down, setResult_up]
      by_cases ha : a = u <;> by_cases hb : b = x
      · simp [ha, hb]
      · simp only [if_pos ha, if_neg hb]
        constructor
        · intro h1; cases h1
        · intro h1
          have := (h.cons a b).mpr h1
          rw [ha, hd] at this
          exact absurd (Option.some.inj this).symm hb
      · simp only [if_neg ha, if_pos hb]
        constructor
        · intro h1
          have := (h.cons a b).mp h1
          rw [hb, hu] at this
          exact absurd (Option.some.inj this).symm ha
        · intro h1; cases h1
      · simp only [if_neg ha, if_neg hb]
        exact h.cons a b
    · intro w hw
      simp only [setFrame_frame] at hw
      by_cases hwx : w = x
      · simp [hwx] at hw
      · simp only [if_neg hwx] at hw
        simp only [setFrame_st, setUp_down, post_st, setDown_down, setCurrent_down,
          disconnect_st, setResult_down]
        split_ifs
        · rfl
        · exact h.runDown w hw
    · intro w hw
      simp only [setFrame_queue, setUp_queue, post_queue, List.mem_append,
        List.mem_singleton] at hw
      simp only [setFrame_st, setUp_down, post_st, setDown_down, setCurrent_down,
        disconnect_st, setResult_down, setFrame_frame, setUp_frame, post_frame, setDown_frame,
        setCurrent_frame, disconnect_frame, setResult_frame]
      rcases hw with hw | hw
      · have hq := h.queueDown w hw
        constructor
        · split_ifs
          · rfl
          · exact hq.1
        · split_ifs
          · simp
          · exact hq.2
      · subst hw
        simp only [if_true, if_neg hux]
        exact ⟨trivial, hunr⟩
    · simp only [setFrame_queue, setUp_queue, post_queue]
      exact List.Nodup.append h.queueNodup (List.nodup_singleton u)
        (by simpa using hunq)
    · intro c hc
      have hc' : r.next ≤ c := hc
      have hfc := h.fresh c hc'
      simp only [setFrame_st, setUp_down, setUp_up, setUp_current, post_st, setDown_down,
        setDown_up, setDown_current, setCurrent_down, setCurrent_up, setCurrent_current,
        disconnect_st, setResult_down, setResult_up, setResult_current, setFrame_frame,
        setUp_frame, post_frame, setDown_frame, setCurrent_frame, disconnect_frame,
        setResult_frame]
      refine ⟨?_, ?_, ?_, ?_⟩
      · split_ifs
        · rfl
        · exact hfc.1
      · split_ifs
        · rfl
        · exact hfc.2.1
      · split_ifs
        · rfl
        · exact hfc.2.2.1
      · split_ifs
        · simp
        · exact hfc.2.2.2
    · intro w hw
      simp only [setFrame_queue, setUp_queue, post_queue, List.mem_append,
        List.mem_singleton] at hw
      rcases hw with hw | hw
      · exact h.queueLt w hw
      · rw [hw]; exact hult
    · intro y c hy
      simp only [setFrame_st, setUp_current, post_st, setDown_current, setCurrent_current,
        disconnect_st, setResult_current] at hy
      split_ifs at hy
      exact h.cur y c hy

/-- What a successful `runPosted` does. -/
theorem runPosted_some (r r' : Runtime) (h : runPosted r = some r') :
    ∃ u q, r.queue = u :: q ∧ r.frame u = Frame.suspended ∧
      r' = (({ r with queue := q } : Runtime).setFrame u Frame.running).emit
        (Event.resumed u) := by
  unfold runPosted at h
  rcases hq : r.queue with _ | ⟨u, q⟩
  · rw [hq] at h; simp at h
  · rw [hq] at h
    simp only [resume] at h
    split_ifs at h with hf
    exact ⟨u, q, rfl, hf, (Option.some.inj h).symm⟩

theorem runPosted_inv (r r' : Runtime) (hs : runPosted r = some r') (h : Inv r) : Inv r' := by
  obtain ⟨u, q, hq, hf, rfl⟩ := runPosted_some r r' hs
  have hnd : (u :: q).Nodup := hq ▸ h.queueNodup
  have hu := h.queueDown u (by rw [hq]; simp)
  have hult := h.queueLt u (by rw [hq]; simp)
  have hmem : ∀ w ∈ q, w ∈ r.queue := by
    intro w hw; rw [hq]; exact List.mem_cons_of_mem _ hw
  refine ⟨?_, ?_, ?_, ?_, ?_, ?_, ?_⟩
  · intro a b
    exact h.cons a b
  · intro w hw
    simp only [emit_frame, setFrame_frame] at hw
    show (r.st w).down = none
    by_cases hwu : w = u
    · rw [hwu]; exact hu.1
    · rw [if_neg hwu] at hw
      exact h.runDown w hw
  · intro w hw
    have hw' : w ∈ q := hw
    have hwu : w ≠ u := by
      rintro rfl
      exact (List.nodup_cons.mp hnd).1 hw'
    have := h.queueDown w (hmem w hw')
    simp only [emit_frame, setFrame_frame, if_neg hwu]
    exact this
  · exact (List.nodup_cons.mp hnd).2
  · intro c hc
    have hc' : r.next ≤ c := hc
    have hcu : c ≠ u := Nat.ne_of_gt (Nat.lt_of_lt_of_le hult hc')
    simp only [emit_frame, setFrame_frame, if_neg hcu]
    exact h.fresh c hc'
  · intro w hw
    exact h.queueLt w (hmem w hw)
  · intro y c hy
    exact h.cur y c hy

theorem empty_inv : Inv Runtime.empty where
  cons := by intro a b; simp [Runtime.empty, emptyState]
  runDown := by intro u _; rfl
  queueDown := by intro u hu; simp [Runtime.empty] at hu
  queueNodup := List.nodup_nil
  fresh := by intro c _; simp [Runtime.empty, emptyState]
  queueLt := by intro u hu; simp [Runtime.empty] at hu
  cur := by intro x c hx; simp [Runtime.empty, emptyState] at hx

theorem step_inv (r r' : Runtime) (hs : Step r r') (h : Inv r) : Inv r' := by
  cases hs with
  | start o => exact start_inv o r h
  | awaitNested _ x u hx => exact awaitNested_inv x u r r' hx h
  | coReturn _ x v hx => exact coReturn_inv x v r r' hx h
  | abort _ fuel c hx => exact abort_inv fuel c r r' hx h
  | runPosted _ hx => exact runPosted_inv r r' hx h

theorem reachable_inv (r : Runtime) (h : Reachable r) : Inv r := by
  induction h with
  | init => exact empty_inv
  | step r r' _ hs ih => exact step_inv r r' hs ih

/-- C2: in every state reachable from the empty runtime by task start,
suspension on a nested task, normal completion, `abort()` and the event loop
calling a posted resumption, `A.down == B` if and only if `B.up == A`; and the
same holds in the state at the entry of every `abort()` call (the first and
the recursive ones) of any cascade started in such a state. -/
theorem links_consistent (r : Runtime) (h : Reachable r) :
    Consistent r ∧
      ∀ (fuel : Nat) (c : CtrlId), ∀ e ∈ abortEntries fuel c r, Consistent e.2 :=
  ⟨(reachable_inv r h).cons,
    fun fuel c e he => (abortEntries_inv fuel c r (reachable_inv r h) e he).cons⟩

theorem pair2_reachable : Reachable pair2 :=
  Reachable.step _ _
    (Reachable.step _ _ (Reachable.step _ _ Reachable.init (Step.start _ 10)) (Step.start _ 11))
    (Step.awaitNested _ _ 1 0 rfl)

/-- C2 (witness): the reachable state `pair2`, in which task `0` awaits task `1`. -/
theorem links_consistent_witness :
    Reachable pair2 ∧ Consistent pair2 ∧
      ∀ (fuel : Nat) (c : CtrlId), ∀ e ∈ abortEntries fuel c pair2, Consistent e.2 :=
  ⟨pair2_reachable, links_consistent pair2 pair2_reachable⟩

theorem AbortMono.mono_refl (r : Runtime) : AbortMono r r where
  next := rfl
  queue := rfl
  owner := rfl
  alive := rfl
  thread := rfl
  futConts := rfl
  futDone := rfl
  result := fun _ => rfl
  down := fun _ => Or.inl rfl
  up := fun _ => Or.inl rfl
  current := fun _ => Or.inl rfl
  frame := fun _ => Or.inl rfl
  connOff := fun _ => Or.inl rfl
  sigOff := fun _ => Or.inl rfl

theorem AbortMono.mono_trans {a b c : Runtime} (h1 : AbortMono a b) (h2 : AbortMono b c) :
    AbortMono a c where
  next := h2.next.trans h1.next
  queue := h2.queue.trans h1.queue
  owner := h2.owner.trans h1.owner
  alive := h2.alive.trans h1.alive
  thread := h2.thread.trans h1.thread
  futConts := h2.futConts.trans h1.futConts
  futDone := h2.futDone.trans h1.futDone
  result := fun y => (h2.result y).trans (h1.result y)
  down := fun y => by
    rcases h2.down y with h | h
    · rw [h]; exact h1.down y
    · exact Or.inr h
  up := fun y => by
    rcases h2.up y with h | h
    · rw [h]; exact h1.up y
    · exact Or.inr h
  current := fun y => by
    rcases h2.current y with h | h
    · rw [h]; exact h1.current y
    · exact Or.inr h
  frame := fun y => by
    rcases h2.frame y with h | h
    · rw [h]; exact h1.frame y
    · exact Or.inr h
  connOff := fun y => by
    rcases h2.connOff y with h | h
    · rw [h]; exact h1.connOff y
    · exact Or.inr h
  sigOff := fun y => by
    rcases h2.sigOff y with h | h
    · rw [h]; exact h1.sigOff y
    · exact Or.inr h

theorem abortPrep_mono (c : CtrlId) (r : Runtime) : AbortMono r (abortPrep c r) := by
  have key : ∀ (r0 : Runtime), AbortMono r0 (unlinkDown c r0) ∧ AbortMono r0 (unlinkUp c r0) := by
    intro r0
    constructor
    · unfold unlinkDown
      rcases (r0.st c).down with _ | d
      · exact AbortMono.mono_refl r0
      · refine ⟨rfl, rfl, rfl, rfl, rfl, rfl, rfl, ?_, ?_, ?_, ?_, ?_, ?_, ?_⟩ <;> intro y <;>
          simp only [setDown_result, setUp_result, setDown_down, setUp_down, setDown_up,
            setUp_up, setDown_current, setUp_current, setDown_frame, setUp_frame, setDown_conn,
            setUp_conn, setDown_sig, setUp_sig] <;> (try split_ifs) <;> simp
    · unfold unlinkUp
      rcases (r0.st c).up with _ | d
      · exact AbortMono.mono_refl r0
      · refine ⟨rfl, rfl, rfl, rfl, rfl, rfl, rfl, ?_, ?_, ?_, ?_, ?_, ?_, ?_⟩ <;> intro y <;>
          simp only [setDown_result, setUp_result, setDown_down, setUp_down, setDown_up,
            setUp_up, setDown_current, setUp_current, setDown_frame, setUp_frame, setDown_conn,
            setUp_conn, setDown_sig, setUp_sig] <;> (try split_ifs) <;> simp
  have henter : AbortMono r (abortEnter c r) := by
    refine ⟨rfl, rfl, rfl, rfl, rfl, rfl, rfl, ?_, ?_, ?_, ?_, ?_, ?_, ?_⟩ <;> intro y <;>
      simp only [abortEnter, setCurrent_result, setCurrent_down, setCurrent_up,
        setCurrent_current, setCurrent_frame, setCurrent_conn, setCurrent_sig, disconnect_st,
        disconnect_frame, disconnect_conn, disconnect_sig, emit_st, emit_frame, emit_conn,
        emit_sig, Function.update_apply] <;> (try split_ifs) <;> simp
  exact (henter.mono_trans (key _).1).mono_trans (key _).2

theorem destroyFrame_mono (c : CtrlId) (r : Runtime) : AbortMono r (r.destroyFrame c) := by
  refine ⟨rfl, rfl, rfl, rfl, rfl, rfl, rfl, ?_, ?_, ?_, ?_, ?_, ?_, ?_⟩ <;> intro y <;>
    simp only [destroyFrame_st, destroyFrame_frame, destroyFrame_conn, destroyFrame_sig,
      Function.update_apply] <;> (try split_ifs) <;> simp

theorem abort_mono : ∀ (fuel : Nat) (c : CtrlId) (r r' : Runtime),
    abort fuel c r = some r' → AbortMono r r' := by
  intro fuel
  induction fuel with
  | zero => intro c r r' h; simp [abort] at h
  | succ fuel ih =>
    intro c r r' h
    rw [abort_succ] at h
    have hprep := abortPrep_mono c r
    rcases hr4 : (match ((abortEnter c r).st c).down with
          | some d => abort fuel d (abortPrep c r)
          | none => some (abortPrep c r)) with _ | r4
    · rw [hr4] at h; cases h
    · rw [hr4] at h
      have h4 : AbortMono r r4 := by
        rcases hd : ((abortEnter c r).st c).down with _ | d
        · rw [hd] at hr4
          cases hr4
          exact hprep
        · rw [hd] at hr4
          exact hprep.mono_trans (ih d _ r4 hr4)
      have h5 := h4.mono_trans (destroyFrame_mono c r4)
      rcases hu : ((unlinkDown c (abortEnter c r)).st c).up with _ | u
      · rw [hu] at h
        cases h
        exact h5
      · rw [hu] at h
        exact h5.mono_trans (ih u _ r' h)

/-- C3: when task `x` completes normally while `u` is recorded as its caller,
`handle_return` returns, runs no step of `u` (no frame changes status and the
only event is the posting), and appends exactly one resumption of `u` to the
run queue; `u` resumes when the event loop later takes that entry off the
queue. -/
theorem handle_return_posts (x u : CtrlId) (r : Runtime)
    (hu : (r.st x).up = some u) (hd : (r.st u).down = some x) :
    ∃ r', handle_return x r = some r' ∧
      r'.queue = r.queue ++ [u] ∧ r'.frame = r.frame ∧
      r'.log = r.log ++ [Event.posted u] ∧
      (r.queue = [] → r.frame u = Frame.suspended →
        ∃ r'', runPosted r' = some r'' ∧ r''.log = r'.log ++ [Event.resumed u] ∧
          r''.frame u = Frame.running) := by
  refine ⟨(((((r.disconnect x).setCurrent x none).setDown u none).post u).setUp x none),
    ?_, rfl, rfl, rfl, ?_⟩
  · simp [handle_return, hu, hd]
  · intro hq hf
    refine ⟨(({ (((((r.disconnect x).setCurrent x none).setDown u none).post u).setUp x
        none) with queue := [] } : Runtime).setFrame u Frame.running).emit (Event.resumed u),
      ?_, rfl, by simp⟩
    have hf' : (((((r.disconnect x).setCurrent x none).setDown u none).post u).setUp x
        none).frame u = Frame.suspended := hf
    simp only [runPosted, setUp_queue, post_queue, setDown_queue, setCurrent_queue,
      disconnect_queue, hq, List.nil_append, resume]
    rw [if_pos hf']

/-- C3 (witness): task `1` of `pair2` completes while task `0` awaits it. -/
theorem handle_return_posts_witness :
    (pair2.st 1).up = some 0 ∧ (pair2.st 0).down = some 1 ∧
    ∃ r', handle_return 1 pair2 = some r' ∧
      r'.queue = pair2.queue ++ [0] ∧ r'.frame = pair2.frame ∧
      r'.log = pair2.log ++ [Event.posted 0] ∧
      (pair2.queue = [] → pair2.frame 0 = Frame.suspended →
        ∃ r'', runPosted r' = some r'' ∧ r''.log = r'.log ++ [Event.resumed 0] ∧
          r''.frame 0 = Frame.running) :=
  ⟨by decide, by decide, handle_return_posts 1 0 pair2 (by decide) (by decide)⟩

theorem coReturnVoid_eq (x : CtrlId) (r : Runtime) : coReturnVoid x r = coReturn x 1 r := rfl

theorem step_Step (a : Action) (r r' : Runtime) (h : step a r = some r') : Step r r' := by
  cases a with
  | start o => simp only [step, Option.some.injEq] at h; rw [← h]; exact Step.start r o
  | awaitNested x u => exact Step.awaitNested r r' x u h
  | coReturn x v => exact Step.coReturn r r' x v h
  | coReturnVoid x => exact Step.coReturn r r' x 1 h
  | abort fuel c => exact Step.abort r r' fuel c h
  | runPosted => exact Step.runPosted r r' h

theorem run_reachable : ∀ (acts : List Action) (r r' : Runtime),
    Reachable r → run acts r = some r' → Reachable r'
  | [], r, r', hr, h => by
    simp only [run, Option.some.injEq] at h
    rw [← h]; exact hr
  | a :: acts, r, r', hr, h => by
    simp only [run] at h
    rcases h1 : step a r with _ | r1
    · rw [h1] at h; cases h
    · rw [h1] at h
      exact run_reachable acts r1 r' (Reachable.step r r1 hr (step_Step a r r1 h1)) h

/-- A task whose body has returned keeps its result and never runs again. -/
theorem done_step (a : Action) (r r' : Runtime) (h : step a r = some r') (x : CtrlId)
    (v : Int) (hres : (r.st x).result = some v)
    (hfr : r.frame x = Frame.finished ∨ r.frame x = Frame.destroyed) (hlt : x < r.next) :
    (r'.st x).result = some v ∧
      (r'.frame x = Frame.finished ∨ r'.frame x = Frame.destroyed) ∧ x < r'.next := by
  have hnr : r.frame x ≠ Frame.running := by
    rcases hfr with h1 | h1 <;> rw [h1] <;> decide
  have hns : r.frame x ≠ Frame.suspended := by
    rcases hfr with h1 | h1 <;> rw [h1] <;> decide
  have key : ∀ (y : CtrlId) (w : Int), coReturn y w r = some r' →
      (r'.st x).result = some v ∧
        (r'.frame x = Frame.finished ∨ r'.frame x = Frame.destroyed) ∧ x < r'.next := by
    intro y w h
    obtain ⟨hf, ⟨-, rfl⟩ | ⟨u, -, -, rfl⟩⟩ := coReturn_some y w r r' h
    all_goals
      have hxy : x ≠ y := by rintro rfl; exact hnr hf
      simp only [setFrame_st, setFrame_frame, setFrame_next, setUp_result, setUp_frame,
        setUp_next, post_st, post_frame, post_next, setDown_result, setDown_frame, setDown_next,
        setCurrent_result, setCurrent_frame, setCurrent_next, disconnect_st, disconnect_frame,
        disconnect_next, setResult_result, setResult_frame, setResult_next, if_neg hxy]
      exact ⟨hres, hfr, hlt⟩
  cases a with
  | start o =>
    simp only [step, Option.some.injEq] at h
    subst h
    have hx : x ≠ r.next := Nat.ne_of_lt hlt
    rw [start_st, start_frame]
    simp only [if_neg hx]
    exact ⟨hres, hfr, Nat.lt_succ_of_lt hlt⟩
  | awaitNested y u =>
    obtain ⟨hf, -, cur, -, -, -, rfl⟩ := awaitNested_some y u r r' h
    have hxu : x ≠ u := by rintro rfl; exact hnr hf
    simp only [setFrame_st, setDown_result, setUp_result, setFrame_frame, if_neg hxu,
      setDown_frame, setUp_frame, setFrame_next, setDown_next, setUp_next]
    exact ⟨hres, hfr, hlt⟩
  | coReturn y w => exact key y w h
  | coReturnVoid y => exact key y 1 h
  | abort fuel c =>
    have hm := abort_mono fuel c r r' h
    refine ⟨by rw [hm.result, hres], ?_, by rw [hm.next]; exact hlt⟩
    rcases hm.frame x with h1 | h1
    · rw [h1]; exact hfr
    · exact Or.inr h1
  | runPosted =>
    obtain ⟨u, q, -, hf, rfl⟩ := runPosted_some r r' h
    have hxu : x ≠ u := by rintro rfl; exact hns hf
    simp only [emit_st, emit_frame, emit_next, setFrame_st, setFrame_frame, setFrame_next,
      if_neg hxu]
    exact ⟨hres, hfr, hlt⟩

/-- Before its body returns, a task has an empty result slot. -/
theorem fresh_step (a : Action) (r r' : Runtime) (hinv : Inv r) (h : step a r = some r')
    (x : CtrlId) (hret : a.returns x = false) (hres : (r.st x).result = none)
    (hnew : ∀ c, r.next ≤ c → (r.st c).result = none) :
    (r'.st x).result = none ∧ ∀ c, r'.next ≤ c → (r'.st c).result = none := by
  have key : ∀ (y : CtrlId) (w : Int), y ≠ x → coReturn y w r = some r' →
      (r'.st x).result = none ∧ ∀ c, r'.next ≤ c → (r'.st c).result = none := by
    intro y w hyx h
    obtain ⟨hf, hcase⟩ := coReturn_some y w r r' h
    have hylt : y < r.next := by
      by_contra hge
      exact (hinv.fresh y (Nat.le_of_not_lt hge)).2.2.2 hf
    have hxy : x ≠ y := fun e => hyx e.symm
    rcases hcase with ⟨-, rfl⟩ | ⟨u, -, -, rfl⟩
    all_goals
      simp only [setFrame_st, setFrame_next, setUp_result, setUp_next, post_st, post_next,
        setDown_result, setDown_next, setCurrent_result, setCurrent_next, disconnect_st,
        disconnect_next, setResult_result, setResult_next, if_neg hxy]
      refine ⟨hres, ?_⟩
      intro c hc
      have hcy : c ≠ y := Nat.ne_of_gt (Nat.lt_of_lt_of_le hylt hc)
      rw [if_neg hcy]
      exact hnew c hc
  cases a with
  | start o =>
    simp only [step, Option.some.injEq] at h
    subst h
    constructor
    · rw [start_st]
      split_ifs
      · rfl
      · exact hres
    · intro c hc
      have hc' : r.next + 1 ≤ c := hc
      rw [start_st, if_neg (Nat.ne_of_gt hc')]
      exact hnew c (Nat.le_of_succ_le hc')
  | awaitNested y u =>
    obtain ⟨-, -, cur, -, -, -, rfl⟩ := awaitNested_some y u r r' h
    simp only [setFrame_st, setDown_result, setUp_result, setFrame_next, setDown_next,
      setUp_next]
    exact ⟨hres, hnew⟩
  | coReturn y w =>
    have hyx : y ≠ x := by simpa [Action.returns] using hret
    exact key y w hyx h
  | coReturnVoid y =>
    have hyx : y ≠ x := by simpa [Action.returns] using hret
    exact key y 1 hyx h
  | abort fuel c =>
    have hm := abort_mono fuel c r r' h
    refine ⟨by rw [hm.result, hres], ?_⟩
    intro c hc
    rw [hm.result]
    exact hnew c (hm.next ▸ hc)
  | runPosted =>
    obtain ⟨u, q, -, -, rfl⟩ := runPosted_some r r' h
    exact ⟨hres, hnew⟩

/-- The completion step of task `x` fills its result slot with the returned
value. -/
theorem return_step (r r' : Runtime) (hinv : Inv r) (x : CtrlId) (v : Int)
    (h : coReturn x v r = some r') :
    (r'.st x).result = some v ∧ r'.frame x = Frame.finished ∧ x < r'.next := by
  obtain ⟨hf, hcase⟩ := coReturn_some x v r r' h
  have hxlt : x < r.next := by
    by_contra hge
    exact (hinv.fresh x (Nat.le_of_not_lt hge)).2.2.2 hf
  rcases hcase with ⟨-, rfl⟩ | ⟨u, -, -, rfl⟩
  all_goals
    simp only [setFrame_st, setFrame_frame, setFrame_next, setUp_result, setUp_next, post_st,
      post_next, setDown_result, setDown_next, setCurrent_result, setCurrent_next,
      disconnect_st, disconnect_next, setResult_result, setResult_next, if_true]
    exact ⟨trivial, trivial, hxlt⟩

theorem run_done (x : CtrlId) (v : Int) : ∀ (acts : List Action) (r r' : Runtime),
    run acts r = some r' → (r.st x).result = some v →
    (r.frame x = Frame.finished ∨ r.frame x = Frame.destroyed) → x < r.next →
    (r'.st x).result = some v
  | [], r, r', h, hres, _, _ => by
    simp only [run, Option.some.injEq] at h
    rw [← h]; exact hres
  | a :: acts, r, r', h, hres, hfr, hlt => by
    simp only [run] at h
    rcases h1 : step a r with _ | r1
    · rw [h1] at h; cases h
    · rw [h1] at h
      obtain ⟨h2, h3, h4⟩ := done_step a r r1 h1 x v hres hfr hlt
      exact run_done x v acts r1 r' h h2 h3 h4

theorem run_fresh (x : CtrlId) : ∀ (acts : List Action) (r r' : Runtime),
    Reachable r → run acts r = some r' → (∀ a ∈ acts, a.returns x = false) →
    (r.st x).result = none → (∀ c, r.next ≤ c → (r.st c).result = none) →
    (r'.st x).result = none
  | [], r, r', _, h, _, hres, _ => by
    simp only [run, Option.some.injEq] at h
    rw [← h]; exact hres
  | a :: acts, r, r', hr, h, hno, hres, hnew => by
    simp only [run] at h
    rcases h1 : step a r with _ | r1
    · rw [h1] at h; cases h
    · rw [h1] at h
      obtain ⟨h2, h3⟩ := fresh_step a r r1 (reachable_inv r hr) h1 x
        (hno a (by simp)) hres hnew
      exact run_fresh x acts r1 r' (Reachable.step r r1 hr (step_Step a r r1 h1)) h
        (fun b hb => hno b (List.mem_cons_of_mem _ hb)) h2 h3

/-- C5: the result slot of task `x` is write-once.  In a state `r1` reached by
steps none of which is the return of `x`, `await_ready` is false; and if the
body of `x` then returns `v` (`return_value`), in every state `r` reached by
any later steps `await_ready` is true and `await_resume` yields `v`; for a
`void` task (`return_void`) `await_ready` is true in every later state. -/
theorem result_write_once (x : CtrlId) (pre : List Action) (r1 : Runtime)
    (hpre : run pre Runtime.empty = some r1)
    (hno : ∀ a ∈ pre, a.returns x = false) :
    await_ready x r1 = false ∧
    (∀ (v : Int) (post : List Action) (r : Runtime),
      run (Action.coReturn x v :: post) r1 = some r →
        await_ready x r = true ∧ await_resume x r = some v) ∧
    (∀ (post : List Action) (r : Runtime),
      run (Action.coReturnVoid x :: post) r1 = some r → await_ready x r = true) := by
  have hreach : Reachable r1 := run_reachable pre _ r1 Reachable.init hpre
  have hinv := reachable_inv r1 hreach
  have key : ∀ (v : Int) (post : List Action) (r : Runtime) (r2 : Runtime),
      coReturn x v r1 = some r2 → run post r2 = some r → (r.st x).result = some v := by
    intro v post r r2 h2 hpost
    obtain ⟨h3, h4, h5⟩ := return_step r1 r2 hinv x v h2
    exact run_done x v post r2 r hpost h3 (Or.inl h4) h5
  refine ⟨?_, ?_, ?_⟩
  · have := run_fresh x pre _ r1 Reachable.init hpre hno rfl (fun _ _ => rfl)
    simp [await_ready, this]
  · intro v post r h
    simp only [run, step] at h
    rcases h2 : coReturn x v r1 with _ | r2
    · rw [h2] at h; cases h
    · rw [h2] at h
      have := key v post r r2 h2 h
      simp [await_ready, await_resume, this]
  · intro post r h
    simp only [run, step, coReturnVoid_eq] at h
    rcases h2 : coReturn x 1 r1 with _ | r2
    · rw [h2] at h; cases h
    · rw [h2] at h
      have := key 1 post r r2 h2 h
      simp [await_ready, this]

/-- C5 (witness): in `pair2` task `1` has not returned; after it returns `7` and the caller `0` is resumed, the handle of `1` yields `7`. -/
theorem result_write_once_witness :
    run [Action.start 10, Action.start 11, Action.awaitNested 1 0] Runtime.empty = some pair2 ∧
    (∃ r, run [Action.coReturn 1 7, Action.runPosted] pair2 = some r ∧
      r.frame 0 = Frame.running) ∧
    await_ready 1 pair2 = false ∧
    (∀ (v : Int) (post : List Action) (r : Runtime),
      run (Action.coReturn 1 v :: post) pair2 = some r →
        await_ready 1 r = true ∧ await_resume 1 r = some v) ∧
    (∀ (post : List Action) (r : Runtime),
      run (Action.coReturnVoid 1 :: post) pair2 = some r → await_ready 1 r = true) :=
  ⟨rfl, ⟨_, rfl, by decide⟩,
    result_write_once 1 [Action.start 10, Action.start 11, Action.awaitNested 1 0] pair2 rfl
      (by decide)⟩

theorem linkWeight_le {r r' : Runtime} (h : AbortMono r r') (x : CtrlId) :
    linkWeight r' x ≤ linkWeight r x := by
  unfold linkWeight
  have h1 : (if (r'.st x).down.isSome then 1 else 0) ≤
      (if (r.st x).down.isSome then 1 else 0) := by
    rcases h.down x with h2 | h2
    · rw [h2]
    · rw [h2]; simp
  have h2 : (if (r'.st x).up.isSome then 1 else 0) ≤
      (if (r.st x).up.isSome then 1 else 0) := by
    rcases h.up x with h2 | h2
    · rw [h2]
    · rw [h2]; simp
  exact Nat.add_le_add h1 h2

theorem linkCount_le {r r' : Runtime} (h : AbortMono r r') : linkCount r' ≤ linkCount r := by
  unfold linkCount
  rw [h.next]
  exact List.sum_le_sum (fun x _ => linkWeight_le h x)

theorem abortPrep_self (c : CtrlId) (r : Runtime) :
    ((abortPrep c r).st c).down = none ∧ ((abortPrep c r).st c).up = none := by
  have h1 : ∀ r0 : Runtime, ((unlinkDown c r0).st c).down = none := by
    intro r0
    unfold unlinkDown
    rcases hd : (r0.st c).down with _ | d
    · exact hd
    · simp
  have h2 : ∀ r0 : Runtime, (r0.st c).down = none → ((unlinkUp c r0).st c).down = none := by
    intro r0 h0
    unfold unlinkUp
    rcases (r0.st c).up with _ | u
    · exact h0
    · simp only [setUp_down, setDown_down]
      split_ifs
      · rfl
      · exact h0
  have h3 : ∀ r0 : Runtime, ((unlinkUp c r0).st c).up = none := by
    intro r0
    unfold unlinkUp
    rcases hu : (r0.st c).up with _ | u
    · exact hu
    · simp
  exact ⟨h2 _ (h1 _), h3 _⟩

theorem abortPrep_lt (c : CtrlId) (r : Runtime) (hinv : Inv r)
    (h : (r.st c).down ≠ none ∨ (r.st c).up ≠ none) :
    linkCount (abortPrep c r) < linkCount r := by
  have hm := abortPrep_mono c r
  have hclt : c < r.next := by
    by_contra hge
    have := hinv.fresh c (Nat.le_of_not_lt hge)
    rcases h with h | h
    · exact h this.2.1
    · exact h this.1
  unfold linkCount
  rw [hm.next]
  apply List.sum_lt_sum
  · intro x _; exact linkWeight_le hm x
  · refine ⟨c, List.mem_range.mpr hclt, ?_⟩
    have hs := abortPrep_self c r
    unfold linkWeight
    rw [hs.1, hs.2]
    simp only [Option.isSome_none]
    rcases h with h | h
    · obtain ⟨d, hd⟩ := Option.ne_none_iff_exists'.mp h
      rw [hd]; simp
    · obtain ⟨u, hu⟩ := Option.ne_none_iff_exists'.mp h
      rw [hu]; simp

/-- The cascade of `abort` terminates: with more fuel than there are non-null
links the call returns. -/
theorem abort_total : ∀ (fuel : Nat) (c : CtrlId) (r : Runtime),
    Inv r → linkCount r < fuel → ∃ r', abort fuel c r = some r' := by
  intro fuel
  induction fuel with
  | zero => intro c r _ h; exact absurd h (Nat.not_lt_zero _)
  | succ fuel ih =>
    intro c r hinv hlt
    rw [abort_succ]
    have hprep := abortPrep_inv c r hinv
    have hdown : ((abortEnter c r).st c).down = (r.st c).down := by
      simp [abortEnter]
    have hup : ∀ u, ((unlinkDown c (abortEnter c r)).st c).up = some u →
        (r.st c).up ≠ none := by
      intro u hu
      have h1 : ∀ r0 : Runtime, ((unlinkDown c r0).st c).up = (r0.st c).up ∨
          ((unlinkDown c r0).st c).up = none := by
        intro r0
        unfold unlinkDown
        rcases (r0.st c).down with _ | d
        · exact Or.inl rfl
        · simp only [setDown_up, setUp_up]
          split_ifs
          · exact Or.inr rfl
          · exact Or.inl rfl
      rcases h1 (abortEnter c r) with h2 | h2
      · rw [h2] at hu
        simp only [abortEnter, setCurrent_up, disconnect_st, emit_st] at hu
        rw [hu]; simp
      · rw [h2] at hu; cases hu
    have phase1 : ∃ r4, (match ((abortEnter c r).st c).down with
          | some d => abort fuel d (abortPrep c r)
          | none => some (abortPrep c r)) = some r4 ∧ AbortMono (abortPrep c r) r4 ∧ Inv r4 := by
      rw [hdown]
      rcases hd : (r.st c).down with _ | d
      · exact ⟨_, rfl, AbortMono.mono_refl _, hprep⟩
      · have hlt' := abortPrep_lt c r hinv (Or.inl (by rw [hd]; simp))
        obtain ⟨r4, h4⟩ := ih d (abortPrep c r) hprep (by omega)
        exact ⟨r4, h4, abort_mono fuel d _ r4 h4, abort_inv fuel d _ r4 h4 hprep⟩
    obtain ⟨r4, h4, hm4, hinv4⟩ := phase1
    rw [h4]
    rcases hu : ((unlinkDown c (abortEnter c r)).st c).up with _ | u
    · exact ⟨_, rfl⟩
    · have hlt' := abortPrep_lt c r hinv (Or.inr (hup u hu))
      have h5 := linkCount_le (hm4.mono_trans (destroyFrame_mono c r4))
      exact ih u (r4.destroyFrame c) (destroyFrame_inv c r4 hinv4) (by omega)

theorem setUp_st_ne (r : Runtime) (c m : CtrlId) (v : Option CtrlId) (h : m ≠ c) :
    (r.setUp c v).st m = r.st m := by
  simp [Runtime.setUp, Function.update_apply, h]

theorem setDown_st_ne (r : Runtime) (c m : CtrlId) (v : Option CtrlId) (h : m ≠ c) :
    (r.setDown c v).st m = r.st m := by
  simp [Runtime.setDown, Function.update_apply, h]

theorem setCurrent_st_ne (r : Runtime) (c m : CtrlId) (v : Option CtrlId) (h : m ≠ c) :
    (r.setCurrent c v).st m = r.st m := by
  simp [Runtime.setCurrent, Function.update_apply, h]

/-- The unlink steps of `abort()` on `c` touch only `c`, its callee and its
caller. -/
theorem abortPrep_other (c m : CtrlId) (r : Runtime) (hmc : m ≠ c)
    (hd : (r.st c).down ≠ some m) (hu : (r.st c).up ≠ some m) :
    (abortPrep c r).st m = r.st m ∧ (abortPrep c r).frame m = r.frame m ∧
      (abortPrep c r).conn m = r.conn m ∧ (abortPrep c r).sig m = r.sig m := by
  have e1 : (abortEnter c r).st m = r.st m := by
    simp [abortEnter, setCurrent_st_ne _ _ _ _ hmc]
  have e1d : ((abortEnter c r).st c).down = (r.st c).down := by simp [abortEnter]
  have e1u : ((abortEnter c r).st c).up = (r.st c).up := by simp [abortEnter]
  have e2 : (unlinkDown c (abortEnter c r)).st m = r.st m := by
    unfold unlinkDown
    rw [e1d]
    rcases hdd : (r.st c).down with _ | d
    · exact e1
    · have hmd : m ≠ d := by
        rintro rfl; exact hd hdd
      simp only [setDown_st_ne _ _ _ _ hmc, setUp_st_ne _ _ _ _ hmd]
      exact e1
  have e2u : ((unlinkDown c (abortEnter c r)).st c).up = (r.st c).up ∨
      ((unlinkDown c (abortEnter c r)).st c).up = none := by
    unfold unlinkDown
    rw [e1d]
    rcases (r.st c).down with _ | d
    · exact Or.inl e1u
    · simp only [setDown_up, setUp_up]
      split_ifs
      · exact Or.inr rfl
      · exact Or.inl e1u
  have e3 : (abortPrep c r).st m = r.st m := by
    unfold abortPrep unlinkUp
    rcases huu : ((unlinkDown c (abortEnter c r)).st c).up with _ | u
    · exact e2
    · have hmu : m ≠ u := by
        rintro rfl
        rcases e2u with h | h
        · rw [h] at huu; exact hu huu
        · rw [h] at huu; cases huu
      simp only [setUp_st_ne _ _ _ _ hmc, setDown_st_ne _ _ _ _ hmu]
      exact e2
  refine ⟨e3, ?_, ?_, ?_⟩
  · unfold abortPrep unlinkUp unlinkDown
    rcases ((abortEnter c r).st c).down with _ | d <;>
      simp only [] <;> split <;> simp [abortEnter]
  · unfold abortPrep unlinkUp unlinkDown
    rcases ((abortEnter c r).st c).down with _ | d <;>
      simp only [] <;> split <;> simp [abortEnter, Function.update_apply, hmc]
  · unfold abortPrep unlinkUp unlinkDown
    rcases ((abortEnter c r).st c).down with _ | d <;>
      simp only [] <;> split <;> simp [abortEnter]

theorem Untouched.unt_refl (r : Runtime) (cs : List CtrlId) : Untouched r r cs :=
  fun _ _ => ⟨rfl, rfl, rfl, rfl⟩

theorem Untouched.unt_trans {a b c : Runtime} {cs : List CtrlId} (h1 : Untouched a b cs)
    (h2 : Untouched b c cs) : Untouched a c cs := by
  intro m hm
  obtain ⟨a1, a2, a3, a4⟩ := h1 m hm
  obtain ⟨b1, b2, b3, b4⟩ := h2 m hm
  exact ⟨b1.trans a1, b2.trans a2, b3.trans a3, b4.trans a4⟩

theorem Closed.closed_of_untouched {r r' : Runtime} {cs : List CtrlId} (h : Closed r cs)
    (hu : Untouched r r' cs) : Closed r' cs := by
  intro m hm
  rw [(hu m hm).1]
  exact h m hm

/-- The up link read by `abort` after the first unlink step is the original
one when it is not null. -/
theorem unlinkDown_up_some (c u : CtrlId) (r : Runtime)
    (h : ((unlinkDown c (abortEnter c r)).st c).up = some u) : (r.st c).up = some u := by
  have e1u : ((abortEnter c r).st c).up = (r.st c).up := by simp [abortEnter]
  unfold unlinkDown at h
  rcases hd : ((abortEnter c r).st c).down with _ | d
  · rw [hd] at h
    rw [← e1u]; exact h
  · rw [hd] at h
    simp only [setDown_up, setUp_up] at h
    split_ifs at h
    rw [← e1u]; exact h

/-- An `abort()` cascade started outside a link-closed set of controllers
touches none of them. -/
theorem abort_outside (cs : List CtrlId) : ∀ (fuel : Nat) (y : CtrlId) (r r' : Runtime),
    Inv r → Closed r cs → y ∉ cs → abort fuel y r = some r' → Untouched r r' cs := by
  intro fuel
  induction fuel with
  | zero => intro y r r' _ _ _ h; simp [abort] at h
  | succ fuel ih =>
    intro y r r' hinv hcl hy h
    rw [abort_succ] at h
    have hprepInv := abortPrep_inv y r hinv
    have hdown : ((abortEnter y r).st y).down = (r.st y).down := by simp [abortEnter]
    have hdout : ∀ d, (r.st y).down = some d → d ∉ cs := by
      intro d hd hdc
      have := (hinv.cons y d).mp hd
      exact hy ((hcl d hdc).1 y this)
    have huout : ∀ u, (r.st y).up = some u → u ∉ cs := by
      intro u hu huc
      have := (hinv.cons u y).mpr hu
      exact hy ((hcl u huc).2 y this)
    have hprepU : Untouched r (abortPrep y r) cs := by
      intro m hm
      apply abortPrep_other y m r
      · rintro rfl; exact hy hm
      · intro hd; exact hdout m hd hm
      · intro hu; exact huout m hu hm
    have hprepCl := hcl.closed_of_untouched hprepU
    rw [hdown] at h
    rcases hr4 : (match (r.st y).down with
          | some d => abort fuel d (abortPrep y r)
          | none => some (abortPrep y r)) with _ | r4
    · rw [hr4] at h; cases h
    · rw [hr4] at h
      have h4 : Untouched r r4 cs ∧ Inv r4 := by
        rcases hd : (r.st y).down with _ | d
        · rw [hd] at hr4
          cases hr4
          exact ⟨hprepU, hprepInv⟩
        · rw [hd] at hr4
          exact ⟨hprepU.unt_trans (ih d _ r4 hprepInv hprepCl (hdout d hd) hr4),
            abort_inv fuel d _ r4 hr4 hprepInv⟩
      have h5 : Untouched r (r4.destroyFrame y) cs := by
        apply h4.1.unt_trans
        intro m hm
        have hmy : m ≠ y := by rintro rfl; exact hy hm
        simp [Function.update_apply, hmy]
      rcases hu : ((unlinkDown y (abortEnter y r)).st y).up with _ | u
      · rw [hu] at h
        cases h
        exact h5
      · rw [hu] at h
        have hu' := unlinkDown_up_some y u r hu
        exact h5.unt_trans (ih u _ r' (destroyFrame_inv y r4 h4.2) (hcl.closed_of_untouched h5)
          (huout u hu') h)

theorem linkedFrom_closed (r : Runtime) : ∀ (cs : List CtrlId) (prev : Option CtrlId),
    linkedFrom r prev cs = true →
    ∀ m ∈ cs, (∀ u, (r.st m).up = some u → some u = prev ∨ u ∈ cs) ∧
      (∀ d, (r.st m).down = some d → d ∈ cs)
  | [], _, _ => by intro m hm; simp at hm
  | [c], prev, h => by
    intro m hm
    have h' := (linkedFrom_singleton r prev c).mp h
    simp only [List.mem_singleton] at hm
    subst hm
    constructor
    · intro u hu; left; rw [← hu, h'.1]
    · intro d hd; rw [h'.2] at hd; cases hd
  | c :: d :: l, prev, h => by
    intro m hm
    have h' := (linkedFrom_cons_cons r prev c d l).mp h
    have ih := linkedFrom_closed r (d :: l) (some c) h'.2.2
    rcases List.mem_cons.mp hm with hm | hm
    · subst hm
      constructor
      · intro u hu; left; rw [← hu, h'.1]
      · intro e he
        rw [h'.2.1] at he
        rw [← Option.some.inj he]; simp
    · have := ih m hm
      constructor
      · intro u hu
        rcases this.1 u hu with h1 | h1
        · right
          rw [Option.some.inj h1]; simp
        · right; exact List.mem_cons_of_mem _ h1
      · intro e he
        exact List.mem_cons_of_mem _ (this.2 e he)

theorem IsChain.closed {r : Runtime} {cs : List CtrlId} (h : IsChain r cs) : Closed r cs := by
  intro m hm
  have := linkedFrom_closed r cs none h.2 m hm
  refine ⟨?_, this.2⟩
  intro u hu
  rcases this.1 u hu with h1 | h1
  · cases h1
  · exact h1

theorem Inv.congr {r r' : Runtime} (h : Inv r) (hst : r'.st = r.st)
    (hfr : r'.frame = r.frame) (hq : r'.queue = r.queue) (hn : r'.next = r.next) : Inv r' :=
  h.of_cleared (by intro a b; rw [hst]; exact h.cons a b) hq hn
    (fun x => Or.inl (by rw [hst])) (fun x => Or.inl (by rw [hst]))
    (fun x => Or.inl (by rw [hst])) (fun x => Or.inl (by rw [hfr]))

/-- The fields that the unlink steps of `abort()` leave alone. -/
theorem abortPrep_fields (c : CtrlId) (r : Runtime) :
    (abortPrep c r).conn = Function.update r.conn c false ∧
    (abortPrep c r).frame = r.frame ∧ (abortPrep c r).sig = r.sig ∧
    (abortPrep c r).log = r.log ++ [Event.aborted c] := by
  have key : ∀ (r0 : Runtime),
      ((unlinkDown c r0).conn = r0.conn ∧ (unlinkDown c r0).frame = r0.frame ∧
        (unlinkDown c r0).sig = r0.sig ∧ (unlinkDown c r0).log = r0.log) ∧
      ((unlinkUp c r0).conn = r0.conn ∧ (unlinkUp c r0).frame = r0.frame ∧
        (unlinkUp c r0).sig = r0.sig ∧ (unlinkUp c r0).log = r0.log) := by
    intro r0
    constructor
    · unfold unlinkDown; split <;> exact ⟨rfl, rfl, rfl, rfl⟩
    · unfold unlinkUp; split <;> exact ⟨rfl, rfl, rfl, rfl⟩
  unfold abortPrep
  rw [(key _).2.1, (key _).2.2.1, (key _).2.2.2.1, (key _).2.2.2.2,
    (key _).1.1, (key _).1.2.1, (key _).1.2.2.1, (key _).1.2.2.2]
  exact ⟨rfl, rfl, rfl, rfl⟩

/-- The controller on which `abort()` is called ends with its frame
destroyed, its awaiter gone and its owner connection removed. -/
theorem abort_target (fuel : Nat) (c : CtrlId) (r r' : Runtime)
    (h : abort fuel c r = some r') :
    r'.frame c = Frame.destroyed ∧ r'.sig c = none ∧ r'.conn c = false := by
  cases fuel with
  | zero => simp [abort] at h
  | succ fuel =>
    rw [abort_succ] at h
    rcases hr4 : (match ((abortEnter c r).st c).down with
          | some d => abort fuel d (abortPrep c r)
          | none => some (abortPrep c r)) with _ | r4
    · rw [hr4] at h; cases h
    · rw [hr4] at h
      have hprepc : (abortPrep c r).conn c = false := by
        rw [(abortPrep_fields c r).1]; simp
      have hm4 : AbortMono (abortPrep c r) r4 := by
        rcases hd : ((abortEnter c r).st c).down with _ | d
        · rw [hd] at hr4; cases hr4; exact AbortMono.mono_refl _
        · rw [hd] at hr4; exact abort_mono fuel d _ r4 hr4
      have h4c : r4.conn c = false := by
        rcases hm4.connOff c with h1 | h1
        · rw [h1]; exact hprepc
        · exact h1
      have hm5 : AbortMono (r4.destroyFrame c) r' := by
        rcases hu : ((unlinkDown c (abortEnter c r)).st c).up with _ | u
        · rw [hu] at h; cases h; exact AbortMono.mono_refl _
        · rw [hu] at h; exact abort_mono fuel u _ r' h
      refine ⟨?_, ?_, ?_⟩
      · rcases hm5.frame c with h1 | h1
        · rw [h1]; simp
        · exact h1
      · rcases hm5.sigOff c with h1 | h1
        · rw [h1]; simp
        · exact h1
      · rcases hm5.connOff c with h1 | h1
        · rw [h1]; exact h4c
        · exact h1

theorem Coupled.cpl_refl (r : Runtime) : Coupled r r :=
  ⟨⟨[], by simp, by simp, by simp⟩, fun _ => Or.inl ⟨rfl, rfl, rfl⟩⟩

theorem Coupled.cpl_trans {a b c : Runtime} (h1 : Coupled a b) (h2 : Coupled b c) :
    Coupled a c := by
  obtain ⟨⟨l1, hl1, ht1, ha1⟩, h1'⟩ := h1
  obtain ⟨⟨l2, hl2, ht2, ha2⟩, h2'⟩ := h2
  refine ⟨⟨l1 ++ l2, by rw [hl2, hl1, List.append_assoc], ?_, ?_⟩, ?_⟩
  · intro e he
    rcases List.mem_append.mp he with h | h
    · exact ht1 e h
    · exact ht2 e h
  · intro z hz
    rcases List.mem_append.mp hz with h | h
    · rcases h2' z with ⟨f2, -, -⟩ | ⟨f2, -, -⟩
      · rw [f2]; exact ha1 z h
      · exact f2
    · exact ha2 z h
  intro z
  rcases h2' z with ⟨f2, c2, s2⟩ | h
  · rcases h1' z with ⟨f1, c1, s1⟩ | ⟨f1, s1, e1⟩
    · exact Or.inl ⟨f2.trans f1, c2.trans c1, s2.trans s1⟩
    · refine Or.inr ⟨f2.trans f1, s2.trans s1, ?_⟩
      rw [hl2]
      exact List.mem_append_left _ e1
  · exact Or.inr h

theorem abort_coupled : ∀ (fuel : Nat) (c : CtrlId) (r r' : Runtime),
    abort fuel c r = some r' → Coupled r r' := by
  intro fuel
  induction fuel with
  | zero => intro c r r' h; simp [abort] at h
  | succ fuel ih =>
    intro c r r' h
    have htarget := abort_target (fuel + 1) c r r' h
    rw [abort_succ] at h
    obtain ⟨-, hpf, hps, hpl⟩ := abortPrep_fields c r
    rcases hr4 : (match ((abortEnter c r).st c).down with
          | some d => abort fuel d (abortPrep c r)
          | none => some (abortPrep c r)) with _ | r4
    · rw [hr4] at h; cases h
    · rw [hr4] at h
      have h4 : Coupled (abortPrep c r) r4 := by
        rcases hd : ((abortEnter c r).st c).down with _ | d
        · rw [hd] at hr4; cases hr4; exact Coupled.cpl_refl _
        · rw [hd] at hr4; exact ih d _ r4 hr4
      have h5 : Coupled (r4.destroyFrame c) r' ∧ AbortMono (r4.destroyFrame c) r' := by
        rcases hu : ((unlinkDown c (abortEnter c r)).st c).up with _ | u
        · rw [hu] at h; cases h; exact ⟨Coupled.cpl_refl _, AbortMono.mono_refl _⟩
        · rw [hu] at h; exact ⟨ih u _ r' h, abort_mono fuel u _ r' h⟩
      obtain ⟨⟨l4, hl4, ht4, ha4⟩, h4'⟩ := h4
      obtain ⟨⟨⟨l5, hl5, ht5, ha5⟩, h5'⟩, hm5⟩ := h5
      have hlog : r'.log = r.log ++ ([Event.aborted c] ++ l4 ++ [Event.destroyed c] ++ l5) := by
        rw [hl5, destroyFrame_log, hl4, hpl]
        simp
      refine ⟨⟨_, hlog, ?_, ?_⟩, ?_⟩
      · intro e he
        simp only [List.mem_append, List.mem_singleton] at he
        rcases he with ((he | he) | he) | he
        · rw [he]; rfl
        · exact ht4 e he
        · rw [he]; rfl
        · exact ht5 e he
      · intro z hz
        simp only [List.mem_append, List.mem_singleton] at hz
        rcases hz with ((hz | hz) | hz) | hz
        · cases hz; exact htarget.1
        · have h4z := ha4 z hz
          rcases hm5.frame z with h6 | h6
          · rw [h6]
            simp only [destroyFrame_frame, Function.update_apply]
            split_ifs
            · rfl
            · exact h4z
          · exact h6
        · cases hz
        · exact ha5 z hz
      intro z
      by_cases hzc : z = c
      · subst hzc
        refine Or.inr ⟨htarget.1, htarget.2.1, ?_⟩
        rw [hlog]; simp
      · rcases h5' z with ⟨f5, c5, s5⟩ | h5z
        · rcases h4' z with ⟨f4, c4, s4⟩ | ⟨f4, s4, e4⟩
          · left
            refine ⟨?_, ?_, ?_⟩
            · rw [f5]; simp [Function.update_apply, hzc, f4, hpf]
            · rw [c5]; simp only [destroyFrame_conn]
              rw [c4, (abortPrep_fields c r).1]; simp [Function.update_apply, hzc]
            · rw [s5]; simp [Function.update_apply, hzc, s4, hps]
          · right
            refine ⟨?_, ?_, ?_⟩
            · rw [f5]; simp [Function.update_apply, hzc, f4]
            · rw [s5]; simp [Function.update_apply, hzc, s4]
            · rw [hl5, destroyFrame_log]
              exact List.mem_append_left _ (List.mem_append_left _ e4)
        · exact Or.inr h5z

@[simp] theorem setSig_st (r : Runtime) (c : CtrlId) (a : Option CoSignal) :
    (r.setSig c a).st = r.st := rfl

@[simp] theorem setSig_conn (r : Runtime) (c : CtrlId) (a : Option CoSignal) :
    (r.setSig c a).conn = r.conn := rfl

@[simp] theorem setSig_owner (r : Runtime) (c : CtrlId) (a : Option CoSignal) :
    (r.setSig c a).owner = r.owner := rfl

@[simp] theorem setSig_frame (r : Runtime) (c : CtrlId) (a : Option CoSignal) :
    (r.setSig c a).frame = r.frame := rfl

@[simp] theorem setSig_alive (r : Runtime) (c : CtrlId) (a : Option CoSignal) :
    (r.setSig c a).alive = r.alive := rfl

@[simp] theorem setSig_thread (r : Runtime) (c : CtrlId) (a : Option CoSignal) :
    (r.setSig c a).thread = r.thread := rfl

@[simp] theorem setSig_futConts (r : Runtime) (c : CtrlId) (a : Option CoSignal) :
    (r.setSig c a).futConts = r.futConts := rfl

@[simp] theorem setSig_futDone (r : Runtime) (c : CtrlId) (a : Option CoSignal) :
    (r.setSig c a).futDone = r.futDone := rfl

@[simp] theorem setSig_queue (r : Runtime) (c : CtrlId) (a : Option CoSignal) :
    (r.setSig c a).queue = r.queue := rfl

@[simp] theorem setSig_log (r : Runtime) (c : CtrlId) (a : Option CoSignal) :
    (r.setSig c a).log = r.log := rfl

@[simp] theorem setSig_next (r : Runtime) (c : CtrlId) (a : Option CoSignal) :
    (r.setSig c a).next = r.next := rfl

@[simp] theorem setSig_sig (r : Runtime) (c x : CtrlId) (a : Option CoSignal) :
    (r.setSig c a).sig x = if x = c then a else r.sig x := by
  simp [Runtime.setSig, Function.update_apply]

theorem Good.of_mono {fuel : Nat} {r r' : Runtime} (h : Good fuel r) (hm : AbortMono r r')
    (hinv : Inv r') : Good fuel r' where
  inv := hinv
  wf := by
    intro y a hy
    rcases hm.sigOff y with h1 | h1
    · exact h.wf y a (h1 ▸ hy)
    · rw [h1] at hy; cases hy
  enough := Nat.lt_of_le_of_lt (linkCount_le hm) h.enough

/-- One slot of the `destroyed` signal runs to its end. -/
theorem destroyedSlot_spec (fuel : Nat) (o : ObjId) (w : Bool) (y : CtrlId) (r : Runtime)
    (hg : Good fuel r) :
    ∃ r', destroyedSlot fuel o w y r = some r' ∧ AbortMono r r' ∧ Coupled r r' ∧
      Good fuel r' := by
  unfold destroyedSlot
  have phase1 : ∃ r1, (if ownedBy r o y = true then abort fuel y r else some r) = some r1 ∧
      AbortMono r r1 ∧ Coupled r r1 ∧ Good fuel r1 := by
    by_cases ho : ownedBy r o y = true
    · rw [if_pos ho]
      obtain ⟨r1, h1⟩ := abort_total fuel y r hg.inv hg.enough
      have hm := abort_mono fuel y r r1 h1
      exact ⟨r1, h1, hm, abort_coupled fuel y r r1 h1,
        hg.of_mono hm (abort_inv fuel y r r1 h1 hg.inv)⟩
    · rw [if_neg ho]
      exact ⟨r, rfl, AbortMono.mono_refl r, Coupled.cpl_refl r, hg⟩
  obtain ⟨r1, h1, hm1, hc1, hg1⟩ := phase1
  rw [h1]
  simp only []
  rcases hs : r1.sig y with _ | a
  · exact ⟨r1, rfl, hm1, hc1, hg1⟩
  · simp only []
    by_cases hw : (w && a.destroyedConnection) = true
    · rw [if_pos hw]
      have hh : a.handle = some y := hg1.wf y a hs
      rw [hh]
      simp only []
      have hinv' : Inv (r1.setSig y (some { a with sender := none })) :=
        hg1.inv.congr rfl rfl rfl rfl
      obtain ⟨r2, h2⟩ := abort_total fuel y (r1.setSig y (some { a with sender := none }))
        hinv' hg1.enough
      have ht := abort_target fuel y _ r2 h2
      have hm2 := abort_mono fuel y _ r2 h2
      have hc2 := abort_coupled fuel y _ r2 h2
      have hm12 : AbortMono r1 r2 := by
        refine ⟨hm2.next, hm2.queue, hm2.owner, hm2.alive, hm2.thread, hm2.futConts,
          hm2.futDone, hm2.result, hm2.down, hm2.up, hm2.current, hm2.frame, hm2.connOff, ?_⟩
        intro z
        by_cases hz : z = y
        · right; rw [hz]; exact ht.2.1
        · rcases hm2.sigOff z with h3 | h3
          · left; rw [h3]; simp [hz]
          · right; exact h3
      have hc12 : Coupled r1 r2 := by
        refine ⟨hc2.1, ?_⟩
        intro z
        rcases hc2.2 z with ⟨f, c, s⟩ | h3
        · by_cases hz : z = y
          · rw [hz] at s
            rw [ht.2.1] at s
            simp at s
          · left
            refine ⟨f, c, ?_⟩
            rw [s]; simp [hz]
        · exact Or.inr h3
      have h2' := h2
      rw [hh] at h2'
      exact ⟨r2, h2', hm1.mono_trans hm12, hc1.cpl_trans hc12,
        hg1.of_mono hm12 (abort_inv fuel y _ r2 h2 hinv')⟩
    · rw [if_neg hw]
      exact ⟨r1, rfl, hm1, hc1, hg1⟩

/-- The slots of the `destroyed` signal run to their end. -/
theorem destroyedSlots_spec (fuel : Nat) (o : ObjId) (w : CtrlId → Bool) :
    ∀ (ys : List CtrlId) (r : Runtime), Good fuel r →
    ∃ r', destroyedSlots fuel o w ys r = some r' ∧ AbortMono r r' ∧ Coupled r r' ∧
      Good fuel r'
  | [], r, hg => ⟨r, rfl, AbortMono.mono_refl r, Coupled.cpl_refl r, hg⟩
  | y :: ys, r, hg => by
    obtain ⟨r1, h1, hm1, hc1, hg1⟩ := destroyedSlot_spec fuel o (w y) y r hg
    obtain ⟨r2, h2, hm2, hc2, hg2⟩ := destroyedSlots_spec fuel o w ys r1 hg1
    refine ⟨r2, ?_, hm1.mono_trans hm2, hc1.cpl_trans hc2, hg2⟩
    simp only [destroyedSlots, h1, h2]

/-- The slot of a controller that is still connected to its owner destroys
the controller's frame. -/
theorem destroyedSlot_owned (fuel : Nat) (o : ObjId) (w : Bool) (y : CtrlId) (r r' : Runtime)
    (ho : ownedBy r o y = true) (h : destroyedSlot fuel o w y r = some r') :
    r'.frame y = Frame.destroyed := by
  unfold destroyedSlot at h
  rw [if_pos ho] at h
  rcases h1 : abort fuel y r with _ | r1
  · rw [h1] at h; cases h
  · rw [h1] at h
    have ht := abort_target fuel y r r1 h1
    simp only [ht.2.1] at h
    cases h
    exact ht.1

theorem destroyedSlots_owned (fuel : Nat) (o : ObjId) (w : CtrlId → Bool) (c : CtrlId) :
    ∀ (ys : List CtrlId) (r r' : Runtime), Good fuel r →
    destroyedSlots fuel o w ys r = some r' →
    (r.frame c = Frame.destroyed ∨ (c ∈ ys ∧ ownedBy r o c = true)) →
    r'.frame c = Frame.destroyed
  | [], r, r', _, h, hc => by
    simp only [destroyedSlots, Option.some.injEq] at h
    rw [← h]
    rcases hc with hc | hc
    · exact hc
    · simp at hc
  | y :: ys, r, r', hg, h, hc => by
    obtain ⟨r1, h1, hm1, hc1, hg1⟩ := destroyedSlot_spec fuel o (w y) y r hg
    simp only [destroyedSlots, h1] at h
    apply destroyedSlots_owned fuel o w c ys r1 r' hg1 h
    rcases hc with hc | ⟨hmem, hown⟩
    · left
      rcases hm1.frame c with h2 | h2
      · rw [h2]; exact hc
      · exact h2
    · by_cases hyc : c = y
      · left
        subst hyc
        exact destroyedSlot_owned fuel o (w c) c r r1 hown h1
      · rcases hc1.2 c with ⟨-, c2, -⟩ | ⟨f2, -, -⟩
        · right
          refine ⟨(List.mem_cons.mp hmem).resolve_left hyc, ?_⟩
          unfold ownedBy at hown ⊢
          rw [c2, hm1.owner]
          exact hown
        · left; exact f2

theorem signalSlots_inert (fuel : Nat) (s : ObjId) (p : Int) :
    ∀ (ys : List CtrlId) (r : Runtime),
    (∀ y ∈ ys, ∀ a, r.sig y = some a → ¬ (a.connection = true ∧ a.sender = some s)) →
    signalSlots fuel s p ys r = some r
  | [], _, _ => rfl
  | y :: ys, r, h => by
    have h1 : signalSlot fuel s p y r = some r := by
      unfold signalSlot
      rcases hs : r.sig y with _ | a
      · rfl
      · simp only []
        rw [if_neg (h y (by simp) a hs)]
    simp only [signalSlots, h1]
    exact signalSlots_inert fuel s p ys r (fun z hz => h z (List.mem_cons_of_mem _ hz))

/-- The state in which the slots of the `destroyed` signal of `o` start. -/
theorem Good.mark {fuel : Nat} {r : Runtime} (hg : Good fuel r) (o : ObjId) :
    Good fuel { r with alive := Function.update r.alive o false,
                        log := r.log ++ [Event.deleted o] } where
  inv := hg.inv.congr rfl rfl rfl rfl
  wf := hg.wf
  enough := hg.enough

/-- What `destroyObject` returns, in terms of the state after the slots. -/
theorem destroyObject_some (fuel : Nat) (o : ObjId) (r : Runtime) (hg : Good fuel r)
    (halive : r.alive o = true) :
    ∃ r2, destroyedSlots fuel o
        (fun y => match r.sig y with
          | some a => decide (a.sender = some o)
          | none => false)
        (List.range r.next)
        { r with alive := Function.update r.alive o false,
                 log := r.log ++ [Event.deleted o] } = some r2 ∧
      destroyObject fuel o r = some (forgetObject o
        (fun y => match r.sig y with
          | some a => decide (a.sender = some o)
          | none => false) r2) ∧
      AbortMono { r with alive := Function.update r.alive o false,
                         log := r.log ++ [Event.deleted o] } r2 ∧
      Coupled { r with alive := Function.update r.alive o false,
                       log := r.log ++ [Event.deleted o] } r2 ∧
      Good fuel r2 := by
  obtain ⟨r2, h2, hm2, hc2, hg2⟩ := destroyedSlots_spec fuel o
    (fun y => match r.sig y with
      | some a => decide (a.sender = some o)
      | none => false) (List.range r.next) _ (hg.mark o)
  refine ⟨r2, h2, ?_, hm2, hc2, hg2⟩
  unfold destroyObject
  rw [if_pos halive]
  simp only [h2, Option.map_some']

/-- The destruction of the object `o` that owns the still connected
controller `c` returns and destroys the frame of `c`; after it, a future all
of whose continuations had context `o`, and a signal all of whose awaiters
were owned by `o`, have nothing left to call. -/
theorem destroyObject_source_inert (fuel : Nat) (o : ObjId) (c : CtrlId) (r : Runtime)
    (hg : Good fuel r) (halive : r.alive o = true) (hc : c < r.next)
    (hown : r.owner c = o) (hconn : r.conn c = true) :
    ∃ r', destroyObject fuel o r = some r' ∧ r'.frame c = Frame.destroyed ∧
      (∀ f, (∀ k ∈ r.futConts, k.future = f → k.context = o) →
        ∃ r'', completeFuture f r' = some r'' ∧ r''.st = r'.st ∧ r''.frame = r'.frame ∧
          r''.conn = r'.conn ∧ r''.sig = r'.sig ∧ r''.queue = r'.queue ∧
          r''.log = r'.log ∧ r''.futConts = r'.futConts) ∧
      (∀ s p, (∀ y a, r.sig y = some a → a.sender = some s → r.owner y = o) →
        emitSignal fuel s p r' = some r') := by
  obtain ⟨r2, h2, hd, hm2, hc2, hg2⟩ := destroyObject_some fuel o r hg halive
  have hfr : r2.frame c = Frame.destroyed :=
    destroyedSlots_owned fuel o _ c (List.range r.next) _ r2 (hg.mark o) h2
      (Or.inr ⟨List.mem_range.mpr hc, by simp [ownedBy, hown, hconn]⟩)
  refine ⟨_, hd, hfr, ?_, ?_⟩
  · intro f hf
    have hconts : (forgetObject o (fun y => match r.sig y with
          | some a => decide (a.sender = some o)
          | none => false) r2).futConts =
        r.futConts.filter (fun k => decide (k.context ≠ o)) := by
      simp only [forgetObject, hm2.futConts]
    have hnone : ∀ k ∈ r.futConts.filter (fun k => decide (k.context ≠ o)), k.future ≠ f := by
      intro k hk hkf
      have hk' := List.mem_filter.mp hk
      exact (of_decide_eq_true hk'.2) (hf k hk'.1 hkf)
    have e1 : (r.futConts.filter (fun k => decide (k.context ≠ o))).filter
        (fun k => decide (k.future = f)) = [] := by
      apply List.filter_eq_nil_iff.mpr
      intro k hk
      simpa using hnone k hk
    have e2 : (r.futConts.filter (fun k => decide (k.context ≠ o))).filter
        (fun k => decide (k.future ≠ f)) =
        r.futConts.filter (fun k => decide (k.context ≠ o)) := by
      apply List.filter_eq_self.mpr
      intro k hk
      simpa using hnone k hk
    unfold completeFuture
    rw [hconts, e1, e2]
    exact ⟨_, rfl, rfl, rfl, rfl, rfl, rfl, rfl, rfl⟩
  · intro s p hs
    unfold emitSignal
    apply signalSlots_inert
    intro y _ a' ha'
    simp only [forgetObject] at ha'
    rcases hs2 : r2.sig y with _ | a
    · rw [hs2] at ha'; cases ha'
    · rw [hs2] at ha'
      simp only [] at ha'
      have hra : r.sig y = some a := by
        rcases hm2.sigOff y with h3 | h3
        · rw [h3] at hs2; exact hs2
        · rw [h3] at hs2; cases hs2
      split_ifs at ha' with hcond hcond2
      all_goals cases ha'
      all_goals first
        | (intro hcs
           exact hcond (Or.inr (Or.inr (by rw [hm2.owner]; exact hs y _ hra hcs.2))))
        | simp

/-- What a successful `awaitSignal` does. -/
theorem awaitSignal_some (c : CtrlId) (s : ObjId) (flags : Nat) (r r' : Runtime)
    (h : awaitSignal c s flags r = some r') :
    r.frame c = Frame.running ∧ r.alive s = true ∧
    r' = (r.setSig c (some
      { sender := some s, flags := flags, received := false, handle := some c,
        connection := true, destroyedConnection := true, result := 0 })).setFrame c
          Frame.suspended := by
  unfold awaitSignal at h
  split_ifs at h with hg
  refine ⟨hg.1, hg.2, ?_⟩
  simp only [CoSignal.await_suspend, CoSignal.new, setSig_sig, if_true, Bool.false_eq_true,
    if_false, Option.map_some', Option.some.injEq] at h
  rw [← h]
  congr 1
  simp only [Runtime.setSig, Function.update_idem]

/-- What a successful `awaitFuture` does. -/
theorem awaitFuture_some (c : CtrlId) (f : FutId) (r r' : Runtime)
    (h : awaitFuture c f r = some r') :
    r.frame c = Frame.running ∧ r.futDone f = false ∧
    r' = ({ r with futConts := r.futConts ++
      [{ future := f, context := r.owner c, handle := some c, awaiterOf := c }] } :
        Runtime).setFrame c Frame.suspended := by
  unfold awaitFuture at h
  split_ifs at h with hg
  exact ⟨hg.1, hg.2, (Option.some.inj h).symm⟩

theorem Good.suspend {fuel : Nat} {r r' : Runtime} (hg : Good fuel r) (c : CtrlId)
    (hst : r'.st = r.st) (hq : r'.queue = r.queue) (hn : r'.next = r.next)
    (hfr : ∀ x, r'.frame x = if x = c then Frame.suspended else r.frame x)
    (hwf : SigWF r') : Good fuel r' where
  inv := by
    refine hg.inv.of_cleared ?_ hq hn ?_ ?_ ?_ ?_
    · intro a b; rw [hst]; exact hg.inv.cons a b
    · intro x; rw [hst]; exact Or.inl rfl
    · intro x; rw [hst]; exact Or.inl rfl
    · intro x; rw [hst]; exact Or.inl rfl
    · intro x
      rw [hfr]
      split_ifs
      · right; decide
      · left; rfl
  wf := hwf
  enough := by
    have : linkCount r' = linkCount r := by
      unfold linkCount linkWeight
      rw [hst, hn]
    rw [this]; exact hg.enough

theorem awaitSignal_good {fuel : Nat} (c : CtrlId) (s : ObjId) (flags : Nat) (r r' : Runtime)
    (h : awaitSignal c s flags r = some r') (hg : Good fuel r) : Good fuel r' := by
  obtain ⟨-, -, rfl⟩ := awaitSignal_some c s flags r r' h
  refine hg.suspend c rfl rfl rfl (fun x => by simp) ?_
  intro y a hy
  simp only [setFrame_sig_apply, setSig_sig] at hy
  split_ifs at hy with hyc
  · cases hy; rw [hyc]
  · exact hg.wf y a hy

theorem awaitFuture_good {fuel : Nat} (c : CtrlId) (f : FutId) (r r' : Runtime)
    (h : awaitFuture c f r = some r') (hg : Good fuel r) : Good fuel r' := by
  obtain ⟨-, -, rfl⟩ := awaitFuture_some c f r r' h
  exact hg.suspend c rfl rfl rfl (fun x => by simp) hg.wf

theorem start_good (o : ObjId) : Good 1 (start o Runtime.empty) where
  inv := start_inv o _ empty_inv
  wf := by intro y a h; cases h
  enough := by
    have h : (start o Runtime.empty).next = 1 := rfl
    rw [linkCount, h]
    simp [List.range_succ, linkWeight, start, Runtime.empty, emptyState]

theorem futWait_good : Good 1 futWait :=
  awaitFuture_good 0 5 (start 10 Runtime.empty) futWait rfl (start_good 10)

theorem sigWait_good (flags : Nat) : Good 1 (sigWait flags) :=
  awaitSignal_good 0 20 flags (start 10 Runtime.empty) (sigWait flags) rfl (start_good 10)

/-- More fuel does not change the result of `abort`. -/
theorem abort_fuel_mono : ∀ (fuel : Nat) (c : CtrlId) (r r' : Runtime),
    abort fuel c r = some r' → ∀ k, abort (fuel + k) c r = some r' := by
  intro fuel
  induction fuel with
  | zero => intro c r r' h; simp [abort] at h
  | succ fuel ih =>
    intro c r r' h k
    have e : fuel + 1 + k = (fuel + k) + 1 := by omega
    rw [e, abort_succ]
    rw [abort_succ] at h
    rcases hr4 : (match ((abortEnter c r).st c).down with
          | some d => abort fuel d (abortPrep c r)
          | none => some (abortPrep c r)) with _ | r4
    · rw [hr4] at h; cases h
    · rw [hr4] at h
      have h4 : (match ((abortEnter c r).st c).down with
          | some d => abort (fuel + k) d (abortPrep c r)
          | none => some (abortPrep c r)) = some r4 := by
        rcases hd : ((abortEnter c r).st c).down with _ | d
        · rw [hd] at hr4; exact hr4
        · rw [hd] at hr4; exact ih d _ r4 hr4 k
      rw [h4]
      rcases hu : ((unlinkDown c (abortEnter c r)).st c).up with _ | u
      · rw [hu] at h; exact h
      · rw [hu] at h; exact ih u _ r' h k

theorem linkedFrom_congr (r r' : Runtime) : ∀ (cs : List CtrlId) (prev : Option CtrlId),
    (∀ m ∈ cs, r'.st m = r.st m) → linkedFrom r' prev cs = linkedFrom r prev cs
  | [], _, _ => rfl
  | [c], prev, h => by
    simp only [linkedFrom, h c (by simp)]
  | c :: d :: l, prev, h => by
    simp only [linkedFrom, h c (by simp)]
    rw [linkedFrom_congr r r' (d :: l) (some c) (fun m hm => h m (List.mem_cons_of_mem _ hm))]

theorem IsChain.chain_of_untouched {r r' : Runtime} {cs : List CtrlId} (h : IsChain r cs)
    (hu : Untouched r r' cs) : IsChain r' cs :=
  ⟨h.1, by rw [linkedFrom_congr r r' cs none (fun m hm => (hu m hm).1)]; exact h.2⟩

/-- An `abort()` on a member of a chain destroys the whole chain; an
`abort()` outside the chain leaves it untouched. -/
theorem abort_chain_cases (fuel : Nat) (y : CtrlId) (r r' : Runtime) (cs : List CtrlId)
    (hinv : Inv r) (hchain : IsChain r cs) (h : abort fuel y r = some r') :
    (y ∈ cs → ∀ m ∈ cs, r'.frame m = Frame.destroyed) ∧ (y ∉ cs → Untouched r r' cs) := by
  constructor
  · intro hy m hm
    obtain ⟨pre, post, rfl⟩ := List.append_of_mem hy
    obtain ⟨r2, h2, -, hfr⟩ := abort_chain_split r pre post y hchain
      (fuel + (pre ++ y :: post).length) (Nat.le_add_left _ _)
    have := abort_fuel_mono fuel y r r' h (pre ++ y :: post).length
    rw [this] at h2
    cases h2
    rw [hfr m, if_pos hm]
  · intro hy
    exact abort_outside cs fuel y r r' hinv hchain.closed hy h

/-- One slot of the `destroyed` signal, seen from a chain `cs`: a slot
outside the chain, or one that calls no `abort()`, leaves the chain untouched;
a slot of a member that calls `abort()` destroys the whole chain. -/
theorem destroyedSlot_chain (fuel : Nat) (o : ObjId) (w : Bool) (y : CtrlId) (r r' : Runtime)
    (cs : List CtrlId) (hg : Good fuel r) (hchain : IsChain r cs)
    (h : destroyedSlot fuel o w y r = some r') :
    ((y ∉ cs ∨ triggers r o w y = false) → Untouched r r' cs) ∧
    (y ∈ cs → triggers r o w y = true → ∀ m ∈ cs, r'.frame m = Frame.destroyed) := by
  unfold destroyedSlot at h
  by_cases ho : ownedBy r o y = true
  · -- the owner connection calls `abort()`
    rw [if_pos ho] at h
    rcases h1 : abort fuel y r with _ | r1
    · rw [h1] at h; cases h
    · rw [h1] at h
      have ht := abort_target fuel y r r1 h1
      simp only [ht.2.1] at h
      have e : r1 = r' := Option.some.inj h
      rw [← e]
      have hcases := abort_chain_cases fuel y r r1 cs hg.inv hchain h1
      constructor
      · rintro (hy | hy)
        · exact hcases.2 hy
        · simp [triggers, ho] at hy
      · intro hy _
        exact hcases.1 hy
  · rw [if_neg ho] at h
    simp only [] at h
    rcases hs : r.sig y with _ | a
    · rw [hs] at h
      cases h
      constructor
      · intro _; exact Untouched.unt_refl r cs
      · intro _ ht
        simp [triggers, ho, hs] at ht
    · rw [hs] at h
      simp only [] at h
      by_cases hw : (w && a.destroyedConnection) = true
      · rw [if_pos hw, hg.wf y a hs] at h
        simp only [] at h
        have hinv' : Inv (r.setSig y (some { a with sender := none })) :=
          hg.inv.congr rfl rfl rfl rfl
        have hchain' : IsChain (r.setSig y (some { a with sender := none })) cs :=
          ⟨hchain.1, by
            rw [linkedFrom_congr r (r.setSig y (some { a with sender := none })) cs none
              (fun _ _ => rfl)]
            exact hchain.2⟩
        have h' : abort fuel y (r.setSig y (some { a with sender := none })) = some r' := by
          rw [hg.wf y a hs]; exact h
        have hcases := abort_chain_cases fuel y _ r' cs hinv' hchain' h'
        constructor
        · rintro (hy | hy)
          · intro m hm
            have hmy : m ≠ y := by rintro rfl; exact hy hm
            have := hcases.2 hy m hm
            simpa [hmy] using this
          · simp [triggers, ho, hs, hw] at hy
        · intro hy _
          exact hcases.1 hy
      · rw [if_neg hw] at h
        cases h
        constructor
        · intro _; exact Untouched.unt_refl r cs
        · intro _ ht
          simp [triggers, ho, hs, hw] at ht

theorem triggers_congr {r r' : Runtime} (o : ObjId) (w : Bool) (y : CtrlId)
    (ho : r'.owner = r.owner) (hc : r'.conn y = r.conn y) (hs : r'.sig y = r.sig y) :
    triggers r' o w y = triggers r o w y := by
  simp only [triggers, ownedBy, ho, hc, hs]

/-- The slots of the `destroyed` signal leave a chain untouched when no slot
of a member calls `abort()`. -/
theorem destroyedSlots_untouched (fuel : Nat) (o : ObjId) (w : CtrlId → Bool)
    (cs : List CtrlId) : ∀ (ys : List CtrlId) (r r' : Runtime), Good fuel r →
    IsChain r cs → (∀ y ∈ cs, triggers r o (w y) y = false) →
    destroyedSlots fuel o w ys r = some r' → Untouched r r' cs
  | [], r, r', _, _, _, h => by
    simp only [destroyedSlots, Option.some.injEq] at h
    rw [← h]; exact Untouched.unt_refl r cs
  | y :: ys, r, r', hg, hchain, hno, h => by
    obtain ⟨r1, h1, hm1, -, hg1⟩ := destroyedSlot_spec fuel o (w y) y r hg
    simp only [destroyedSlots, h1] at h
    have hu1 : Untouched r r1 cs := by
      apply (destroyedSlot_chain fuel o (w y) y r r1 cs hg hchain h1).1
      by_cases hy : y ∈ cs
      · exact Or.inr (hno y hy)
      · exact Or.inl hy
    have hno1 : ∀ z ∈ cs, triggers r1 o (w z) z = false := by
      intro z hz
      rw [triggers_congr o (w z) z hm1.owner (hu1 z hz).2.2.1 (hu1 z hz).2.2.2]
      exact hno z hz
    exact hu1.unt_trans (destroyedSlots_untouched fuel o w cs ys r1 r' hg1
      (hchain.chain_of_untouched hu1) hno1 h)

/-- The slots of the `destroyed` signal destroy a whole chain as soon as the
slot of one member calls `abort()`. -/
theorem destroyedSlots_chain (fuel : Nat) (o : ObjId) (w : CtrlId → Bool)
    (cs : List CtrlId) (c : CtrlId) (hc : c ∈ cs) : ∀ (ys : List CtrlId) (r r' : Runtime),
    Good fuel r → destroyedSlots fuel o w ys r = some r' →
    ((∀ m ∈ cs, r.frame m = Frame.destroyed) ∨
      (IsChain r cs ∧ c ∈ ys ∧ triggers r o (w c) c = true)) →
    ∀ m ∈ cs, r'.frame m = Frame.destroyed
  | [], r, r', _, h, hcase => by
    simp only [destroyedSlots, Option.some.injEq] at h
    rw [← h]
    rcases hcase with hcase | hcase
    · exact hcase
    · simp at hcase
  | y :: ys, r, r', hg, h, hcase => by
    obtain ⟨r1, h1, hm1, -, hg1⟩ := destroyedSlot_spec fuel o (w y) y r hg
    simp only [destroyedSlots, h1] at h
    apply destroyedSlots_chain fuel o w cs c hc ys r1 r' hg1 h
    rcases hcase with hall | ⟨hchain, hmem, htrig⟩
    · left
      intro m hm
      rcases hm1.frame m with h2 | h2
      · rw [h2]; exact hall m hm
      · exact h2
    · have hslot := destroyedSlot_chain fuel o (w y) y r r1 cs hg hchain h1
      by_cases hfire : y ∈ cs ∧ triggers r o (w y) y = true
      · left; exact hslot.2 hfire.1 hfire.2
      · have hu1 : Untouched r r1 cs := by
          apply hslot.1
          by_cases hy : y ∈ cs
          · right
            cases ht : triggers r o (w y) y
            · rfl
            · exact absurd ⟨hy, ht⟩ hfire
          · exact Or.inl hy
        have hyc : c ≠ y := by
          rintro rfl
          exact hfire ⟨hc, htrig⟩
        right
        refine ⟨hchain.chain_of_untouched hu1, (List.mem_cons.mp hmem).resolve_left hyc, ?_⟩
        rw [triggers_congr o (w c) c hm1.owner (hu1 c hc).2.2.1 (hu1 c hc).2.2.2]
        exact htrig

/-- C6: a chain `cs` whose link `c` is suspended on an Event Awaiter watching
the sender `s`.  When `s` is destroyed before the event fires, the destruction
returns, `abort()` was entered on `c`, every frame of the chain is destroyed,
and the only events after the deletion are entries of `abort()` and frame
destructions: no frame is resumed. -/
theorem sender_destroyed_aborts_chain (fuel : Nat) (s : ObjId) (c : CtrlId)
    (cs : List CtrlId) (a : CoSignal) (r : Runtime) (hg : Good fuel r)
    (halive : r.alive s = true) (hchain : IsChain r cs) (hc : c ∈ cs) (hlt : c < r.next)
    (hsusp : r.frame c = Frame.suspended) (hsig : r.sig c = some a)
    (hsender : a.sender = some s) (hwatch : a.destroyedConnection = true) :
    ∃ r', destroyObject fuel s r = some r' ∧
      (∀ m ∈ cs, r'.frame m = Frame.destroyed) ∧ Event.aborted c ∈ r'.log ∧
      ∃ l, r'.log = r.log ++ Event.deleted s :: l ∧ ∀ e ∈ l, e.isTeardown = true := by
  obtain ⟨r2, h2, hd, hm2, hc2, hg2⟩ := destroyObject_some fuel s r hg halive
  have hall : ∀ m ∈ cs, r2.frame m = Frame.destroyed := by
    apply destroyedSlots_chain fuel s _ cs c hc (List.range r.next) _ r2 (hg.mark s) h2
    right
    refine ⟨?_, List.mem_range.mpr hlt, ?_⟩
    · exact hchain.chain_of_untouched (fun _ _ => ⟨rfl, rfl, rfl, rfl⟩)
    · simp [triggers, ownedBy, hsig, hsender, hwatch]
  refine ⟨_, hd, hall, ?_, ?_⟩
  · rcases hc2.2 c with ⟨f, -, -⟩ | ⟨-, -, e⟩
    · rw [hall c hc] at f
      rw [hsusp] at f
      cases f
    · exact e
  · obtain ⟨l, hl, ht, -⟩ := hc2.1
    exact ⟨l, by simp [forgetObject, hl], ht⟩

theorem awaitNested_wf (x u : CtrlId) (r r' : Runtime) (h : awaitNested x u r = some r')
    (hwf : SigWF r) : SigWF r' := by
  obtain ⟨-, -, cur, -, -, -, rfl⟩ := awaitNested_some x u r r' h
  exact hwf

theorem start_wf (o : ObjId) (r : Runtime) (hwf : SigWF r) : SigWF (start o r) := hwf

theorem linkCount_le_next (r : Runtime) : linkCount r ≤ 2 * r.next := by
  unfold linkCount
  have h := List.sum_le_card_nsmul ((List.range r.next).map (linkWeight r)) 2 (by
    intro x hx
    obtain ⟨y, -, rfl⟩ := List.mem_map.mp hx
    unfold linkWeight
    split_ifs <;> simp)
  simpa [Nat.mul_comm] using h

theorem Good.ofInv {r : Runtime} (hinv : Inv r) (hwf : SigWF r) :
    Good (2 * r.next + 1) r where
  inv := hinv
  wf := hwf
  enough := Nat.lt_succ_of_le (linkCount_le_next r)

theorem sigChain_good (flags : Nat) : Good 5 (sigChain flags) := by
  have g1 : Good 1 (start 10 Runtime.empty) := start_good 10
  have i2 : Inv (start 11 (start 10 Runtime.empty)) := start_inv 11 _ g1.inv
  have w2 : SigWF (start 11 (start 10 Runtime.empty)) := start_wf 11 _ g1.wf
  have e3 : awaitSignal 1 20 flags (start 11 (start 10 Runtime.empty)) =
      some ((awaitSignal 1 20 flags (start 11 (start 10 Runtime.empty))).getD
        (start 11 (start 10 Runtime.empty))) := rfl
  have g3 := awaitSignal_good 1 20 flags _ _ e3 (Good.ofInv i2 w2)
  have e4 : awaitNested 1 0 ((awaitSignal 1 20 flags (start 11 (start 10 Runtime.empty))).getD
        (start 11 (start 10 Runtime.empty))) = some (sigChain flags) := rfl
  exact Good.ofInv (awaitNested_inv 1 0 _ _ e4 g3.inv) (awaitNested_wf 1 0 _ _ e4 g3.wf)

/-- C6 (witness): the chain `0`, `1` of `sigChain`, whose callee-most task waits for sender `20`. -/
theorem sender_destroyed_aborts_chain_witness :
    Good 5 (sigChain 1) ∧ (sigChain 1).alive 20 = true ∧ IsChain (sigChain 1) [0, 1] ∧
    1 ∈ [0, 1] ∧ 1 < (sigChain 1).next ∧ (sigChain 1).frame 1 = Frame.suspended ∧
    (sigChain 1).sig 1 = some
      { sender := some 20, flags := 1, received := false, handle := some 1,
        connection := true, destroyedConnection := true, result := 0 } ∧
    ∃ r', destroyObject 5 20 (sigChain 1) = some r' ∧
      (∀ m ∈ [0, 1], r'.frame m = Frame.destroyed) ∧ Event.aborted 1 ∈ r'.log ∧
      ∃ l, r'.log = (sigChain 1).log ++ Event.deleted 20 :: l ∧
        ∀ e ∈ l, e.isTeardown = true :=
  ⟨sigChain_good 1, by decide, ⟨by decide, by decide⟩, by decide, by decide, by decide, rfl,
    sender_destroyed_aborts_chain 5 20 1 [0, 1] _ (sigChain 1) (sigChain_good 1) (by decide)
      ⟨by decide, by decide⟩ (by decide) (by decide) (by decide) rfl rfl rfl⟩

theorem handle_signal_unfold (fuel : Nat) (c : CtrlId) (r : Runtime) (a : CoSignal)
    (h : r.sig c = some a) :
    handle_signal fuel c r =
      (match (if a.flags &&& DeleteSenderOnSignal ≠ 0 then
          (match a.sender with
            | none => some (disconnectWatch c (afterOneShot c a r))
            | some s => destroyObject fuel s (disconnectWatch c (afterOneShot c a r)))
          else some (afterOneShot c a r)) with
        | none => none
        | some r3 =>
          match r3.sig c with
          | none => none
          | some a3 =>
            match a3.handle with
            | none => none
            | some h => resume h r3) := by
  unfold handle_signal
  rw [h]
  rfl

/-- The one-shot block of `handle_signal` changes only the awaiter of `c` and
the log. -/
theorem afterOneShot_spec (c : CtrlId) (a : CoSignal) (r : Runtime) (h : r.sig c = some a) :
    (afterOneShot c a r).st = r.st ∧ (afterOneShot c a r).frame = r.frame ∧
    (afterOneShot c a r).queue = r.queue ∧ (afterOneShot c a r).next = r.next ∧
    (afterOneShot c a r).conn = r.conn ∧ (afterOneShot c a r).owner = r.owner ∧
    (afterOneShot c a r).alive = r.alive ∧
    (afterOneShot c a r).log = r.log ++ oneShotEvents c a ∧
    (∀ y, y ≠ c → (afterOneShot c a r).sig y = r.sig y) ∧
    ∃ a1, (afterOneShot c a r).sig c = some a1 ∧ a1.handle = a.handle ∧
      a1.sender = a.sender ∧ a1.result = a.result ∧ a1.connection = a.connection ∧
      a1.flags = a.flags ∧
      (a.flags &&& SingleShot ≠ 0 → a1.destroyedConnection = false ∧ a1.received = true) := by
  unfold afterOneShot oneShotEvents
  by_cases hss : a.flags &&& SingleShot ≠ 0
  · rw [if_pos hss, if_pos hss]
    simp only [disconnectWatch, h, setReceived, emit_sig, setSig_sig, if_true]
    refine ⟨rfl, rfl, rfl, rfl, rfl, rfl, rfl, rfl, ?_, ?_⟩
    · intro y hy
      simp [hy]
    · exact ⟨{ a with destroyedConnection := false, received := true }, by simp, rfl, rfl,
        rfl, rfl, rfl, fun _ => ⟨rfl, rfl⟩⟩
  · rw [if_neg hss, if_neg hss]
    refine ⟨rfl, rfl, rfl, rfl, rfl, rfl, rfl, by simp, fun _ _ => rfl, ?_⟩
    exact ⟨a, h, rfl, rfl, rfl, rfl, rfl, fun h1 => absurd h1 hss⟩

/-- The removal of the sender watch changes only the awaiter of `c` and the
log. -/
theorem disconnectWatch_spec (c : CtrlId) (a : CoSignal) (r : Runtime) (h : r.sig c = some a) :
    (disconnectWatch c r).st = r.st ∧ (disconnectWatch c r).frame = r.frame ∧
    (disconnectWatch c r).queue = r.queue ∧ (disconnectWatch c r).next = r.next ∧
    (disconnectWatch c r).conn = r.conn ∧ (disconnectWatch c r).owner = r.owner ∧
    (disconnectWatch c r).alive = r.alive ∧
    (disconnectWatch c r).log = r.log ++ [Event.watchRemoved c] ∧
    (∀ y, y ≠ c → (disconnectWatch c r).sig y = r.sig y) ∧
    (disconnectWatch c r).sig c = some { a with destroyedConnection := false } := by
  simp only [disconnectWatch, h]
  refine ⟨rfl, rfl, rfl, rfl, rfl, rfl, rfl, rfl, ?_, ?_⟩
  · intro y hy; simp [hy]
  · simp

/-- Without the "delete sender" flag, `handle_signal` runs its one-shot block
and resumes the awaiting frame. -/
theorem handle_signal_plain (fuel : Nat) (c : CtrlId) (a : CoSignal) (r : Runtime)
    (hsig : r.sig c = some a) (hhandle : a.handle = some c)
    (hflags : a.flags &&& DeleteSenderOnSignal = 0)
    (hsusp : r.frame c = Frame.suspended) :
    ∃ r', handle_signal fuel c r = some r' ∧ r'.frame c = Frame.running ∧
      r'.log = r.log ++ oneShotEvents c a ++ [Event.resumed c] ∧
      r'.queue = r.queue ∧ r'.st = r.st ∧ r'.sig = (afterOneShot c a r).sig := by
  obtain ⟨hst, hfr, hq, -, -, -, -, hlog, -, a1, hs1, hh1, -⟩ := afterOneShot_spec c a r hsig
  rw [handle_signal_unfold fuel c r a hsig]
  have hno : ¬ (a.flags &&& DeleteSenderOnSignal ≠ 0) := by simp [hflags]
  rw [if_neg hno]
  simp only [hs1, hh1, hhandle, resume]
  rw [if_pos (by rw [hfr]; exact hsusp)]
  refine ⟨_, rfl, by simp, ?_, ?_, ?_, rfl⟩
  · simp [hlog]
  · simp [hq]
  · simp [hst]

/-- The awaiter of `c` survives `forgetObject` with its handle. -/
theorem forgetObject_sig (o : ObjId) (w : CtrlId → Bool) (r : Runtime) (c : CtrlId)
    (a : CoSignal) (h : r.sig c = some a) :
    ∃ a', (forgetObject o w r).sig c = some a' ∧ a'.handle = a.handle := by
  simp only [forgetObject, h]
  split_ifs
  all_goals exact ⟨_, rfl, rfl⟩

/-- The "delete sender" block of `handle_signal`, when the destruction of the
sender calls `abort()` on no controller of the awaiting chain: the watch is
removed, the sender is destroyed, and the awaiting frame is then resumed. -/
theorem handle_signal_delete_core (fuel : Nat) (c : CtrlId) (a : CoSignal) (s : ObjId)
    (cs : List CtrlId) (r : Runtime) (hg : Good fuel r) (hsig : r.sig c = some a)
    (hhandle : a.handle = some c) (hflags : a.flags &&& DeleteSenderOnSignal ≠ 0)
    (hsender : a.sender = some s) (hsusp : r.frame c = Frame.suspended)
    (hapart : SenderApart r s c cs) :
    ∃ r' l, handle_signal fuel c r = some r' ∧ r'.frame c = Frame.running ∧
      r'.queue = r.queue ∧ r'.alive s = false ∧
      r'.log = r.log ++ oneShotEvents c a ++
        [Event.watchRemoved c, Event.deleted s] ++ l ++ [Event.resumed c] ∧
      (∀ e ∈ l, e.isTeardown = true) ∧ Event.aborted c ∉ l := by
  obtain ⟨hchain, hcmem, halive, hown, hothers⟩ := hapart
  obtain ⟨hst1, hfr1, hq1, hn1, hc1, ho1, hal1, hlog1, hsig1, a1, hs1, hh1, hsd1, -, -, -, -⟩ :=
    afterOneShot_spec c a r hsig
  obtain ⟨hst2, hfr2, hq2, hn2, hc2, ho2, hal2, hlog2, hsig2, hs2⟩ :=
    disconnectWatch_spec c a1 (afterOneShot c a r) hs1
  have hg2 : Good fuel (disconnectWatch c (afterOneShot c a r)) := by
    refine ⟨hg.inv.congr (hst2.trans hst1) (hfr2.trans hfr1) (hq2.trans hq1)
      (hn2.trans hn1), ?_, ?_⟩
    · intro y b hy
      by_cases hyc : y = c
      · subst hyc
        rw [hs2] at hy
        cases hy
        exact hh1.trans hhandle
      · rw [hsig2 y hyc, hsig1 y hyc] at hy
        exact hg.wf y b hy
    · have : linkCount (disconnectWatch c (afterOneShot c a r)) = linkCount r := by
        unfold linkCount linkWeight
        rw [hst2, hst1, hn2, hn1]
      rw [this]; exact hg.enough
  have halive2 : (disconnectWatch c (afterOneShot c a r)).alive s = true := by
    rw [hal2, hal1]; exact halive
  obtain ⟨r3, h3, hd, hm3, hc3, hg3⟩ := destroyObject_some fuel s _ hg2 halive2
  have hchain2 : IsChain (disconnectWatch c (afterOneShot c a r)) cs :=
    ⟨hchain.1, by
      rw [linkedFrom_congr r _ cs none (fun m _ => congrFun (hst2.trans hst1) m)]
      exact hchain.2⟩
  have hoff : ∀ y ∈ cs, triggers
      { disconnectWatch c (afterOneShot c a r) with
        alive := Function.update (disconnectWatch c (afterOneShot c a r)).alive s false,
        log := (disconnectWatch c (afterOneShot c a r)).log ++ [Event.deleted s] } s
      (match (disconnectWatch c (afterOneShot c a r)).sig y with
        | some a => decide (a.sender = some s)
        | none => false) y = false := by
    intro y hy
    by_cases hyc : y = c
    · subst hyc
      have e1 : ownedBy r s y = false := hown
      simp only [triggers, ownedBy, hs2, hc2, hc1, ho2, ho1, Bool.and_false, Bool.or_false]
      exact e1
    · have := hothers y hy hyc
      simp only [triggers, ownedBy, watches, hc2, hc1, ho2, ho1, hsig2 y hyc, hsig1 y hyc]
        at this ⊢
      exact this
  have hunt := destroyedSlots_untouched fuel s _ cs (List.range _) _ r3 (hg2.mark s)
    (hchain2.chain_of_untouched (fun _ _ => ⟨rfl, rfl, rfl, rfl⟩)) hoff h3
  obtain ⟨-, hfrc, -, hsigc⟩ := hunt c hcmem
  have hfrc' : r3.frame c = Frame.suspended := by
    rw [hfrc]
    show (disconnectWatch c (afterOneShot c a r)).frame c = _
    rw [hfr2, hfr1]; exact hsusp
  have hsigc' : r3.sig c = some { a1 with destroyedConnection := false } := by
    rw [hsigc]; exact hs2
  obtain ⟨⟨l, hl, ht, ha⟩, -⟩ := hc3
  obtain ⟨R, hR, hdR⟩ : ∃ R, R = forgetObject s
      (fun y => match (disconnectWatch c (afterOneShot c a r)).sig y with
        | some a => decide (a.sender = some s)
        | none => false) r3 ∧
      destroyObject fuel s (disconnectWatch c (afterOneShot c a r)) = some R := ⟨_, rfl, hd⟩
  have hRfr : R.frame c = Frame.suspended := by rw [hR]; exact hfrc'
  have hRq : R.queue = r.queue := by
    rw [hR]
    show r3.queue = _
    rw [hm3.queue]
    show (disconnectWatch c (afterOneShot c a r)).queue = _
    rw [hq2, hq1]
  have hRal : R.alive s = false := by
    rw [hR]
    show r3.alive s = false
    rw [hm3.alive]
    simp
  have hRlog : R.log = r.log ++ oneShotEvents c a ++
      [Event.watchRemoved c, Event.deleted s] ++ l := by
    rw [hR]
    show r3.log = _
    rw [hl]
    show ((disconnectWatch c (afterOneShot c a r)).log ++ [Event.deleted s]) ++ l = _
    rw [hlog2, hlog1]
    simp
  obtain ⟨a3, hRsig, hRh⟩ := forgetObject_sig s
    (fun y => match (disconnectWatch c (afterOneShot c a r)).sig y with
      | some a => decide (a.sender = some s)
      | none => false) r3 c _ hsigc'
  rw [← hR] at hRsig
  have hRh' : a3.handle = some c := hRh.trans (hh1.trans hhandle)
  refine ⟨(R.setFrame c Frame.running).emit (Event.resumed c), l, ?_, by simp, hRq, hRal,
    by simp [hRlog], ht, ?_⟩
  · rw [handle_signal_unfold fuel c r a hsig, if_pos hflags, hsender]
    simp only [hdR, hRsig, hRh', resume]
    rw [if_pos hRfr]
  · intro hmem
    have := ha c hmem
    rw [hfrc'] at this
    cases this

/-- C4 (counterexample): task `0` awaits a signal in one-shot mode; when the
delivery callback `handle_signal` returns, the frame is already running again
and the run queue of the event loop is empty: the resumption was made inside
the callback, not scheduled. -/
theorem handle_signal_sync_counterexample :
    ∃ r', handle_signal 1 0 (sigWait SingleShot) = some r' ∧
      (sigWait SingleShot).frame 0 = Frame.suspended ∧ r'.frame 0 = Frame.running ∧
      r'.queue = [] ∧ r'.log = [Event.watchRemoved 0, Event.resumed 0] :=
  ⟨_, rfl, by decide, by decide, by decide, by decide⟩

/-- C4 (amended): when the awaited event fires, `handle_signal` itself calls
`m_handle.resume()` as its last step: when the delivery callback returns the
frame of `c` is running, the last event is the resumption of `c`, and nothing
was posted to the run queue of the event loop.  In "delete sender" mode this
holds when the destruction of the sender aborts no controller of the awaiting
chain. -/
theorem handle_signal_resumes_inline (fuel : Nat) (c : CtrlId) (a : CoSignal) (r : Runtime)
    (hg : Good fuel r) (hsig : r.sig c = some a) (hhandle : a.handle = some c)
    (hsusp : r.frame c = Frame.suspended)
    (hdel : a.flags &&& DeleteSenderOnSignal ≠ 0 →
      ∃ s cs, a.sender = some s ∧ SenderApart r s c cs) :
    ∃ r', handle_signal fuel c r = some r' ∧ r'.frame c = Frame.running ∧
      r'.log.getLast? = some (Event.resumed c) ∧ r'.queue = r.queue := by
  by_cases hflags : a.flags &&& DeleteSenderOnSignal = 0
  · obtain ⟨r', h1, h2, h3, h4, -, -⟩ :=
      handle_signal_plain fuel c a r hsig hhandle hflags hsusp
    exact ⟨r', h1, h2, by rw [h3, List.getLast?_concat], h4⟩
  · obtain ⟨s, cs, hsender, hapart⟩ := hdel hflags
    obtain ⟨r', l, h1, h2, h3, -, h4, -, -⟩ :=
      handle_signal_delete_core fuel c a s cs r hg hsig hhandle hflags hsender hsusp hapart
    exact ⟨r', h1, h2, by rw [h4, List.getLast?_concat], h3⟩

/-- C4 (witness): task `0` of `sigWait` waits in one-shot mode for sender `20`. -/
theorem handle_signal_resumes_inline_witness :
    Good 1 (sigWait SingleShot) ∧
    (sigWait SingleShot).sig 0 = some
      { sender := some 20, flags := SingleShot, received := false, handle := some 0,
        connection := true, destroyedConnection := true, result := 0 } ∧
    (sigWait SingleShot).frame 0 = Frame.suspended ∧
    ∃ r', handle_signal 1 0 (sigWait SingleShot) = some r' ∧ r'.frame 0 = Frame.running ∧
      r'.log.getLast? = some (Event.resumed 0) ∧ r'.queue = (sigWait SingleShot).queue :=
  ⟨sigWait_good SingleShot, rfl, by decide,
    handle_signal_resumes_inline 1 0 _ (sigWait SingleShot) (sigWait_good SingleShot) rfl rfl
      (by decide) (fun h => absurd h (by decide))⟩

/-- C8 (counterexample): task `0` awaits in "delete sender" mode a signal of
its own Owner `10`.  The delivery step removes the sender watch and deletes
the sender; that destruction calls `abort()` on the awaiting controller `0`
through the owner connection and destroys its frame, so the final
`m_handle.resume()` has no defined behaviour. -/
theorem delete_sender_is_owner_counterexample :
    (∃ r2, destroyObject 3 10 (disconnectWatch 0 selfSender) = some r2 ∧
      Event.aborted 0 ∈ r2.log ∧ r2.frame 0 = Frame.destroyed ∧ r2.sig 0 = none) ∧
    handle_signal 3 0 selfSender = none :=
  ⟨⟨_, rfl, by decide, by decide, by decide⟩, rfl⟩

/-- C8 (amended): in "delete sender" mode, when the sender's destruction
aborts no controller of the awaiting chain (the sender is not the Owner of a
link and no other link watches it), one firing makes `handle_signal` return
after, in this order, the removal of the sender watch, the destruction of the
sender and the resumption of the awaiting frame; the sender is dead when the
frame resumes, the events between the deletion and the resumption are
teardown events of other controllers, and `abort()` is not entered on the
awaiting controller. -/
theorem delete_sender_order (fuel : Nat) (c : CtrlId) (a : CoSignal) (s : ObjId)
    (cs : List CtrlId) (r : Runtime) (hg : Good fuel r) (hsig : r.sig c = some a)
    (hhandle : a.handle = some c) (hflags : a.flags &&& DeleteSenderOnSignal ≠ 0)
    (hsender : a.sender = some s) (hsusp : r.frame c = Frame.suspended)
    (hapart : SenderApart r s c cs) :
    ∃ r' l, handle_signal fuel c r = some r' ∧
      r'.log = r.log ++ oneShotEvents c a ++
        [Event.watchRemoved c, Event.deleted s] ++ l ++ [Event.resumed c] ∧
      (∀ e ∈ l, e.isTeardown = true) ∧ Event.aborted c ∉ l ∧
      r'.alive s = false ∧ r'.frame c = Frame.running := by
  obtain ⟨r', l, h1, h2, -, h4, h5, h6, h7⟩ :=
    handle_signal_delete_core fuel c a s cs r hg hsig hhandle hflags hsender hsusp hapart
  exact ⟨r', l, h1, h5, h6, h7, h4, h2⟩

/-- C8 (witness): task `0` of owner `10` waits in "delete sender" mode for sender `20`. -/
theorem delete_sender_order_witness :
    Good 1 (sigWait DeleteSenderOnSignal) ∧
    (sigWait DeleteSenderOnSignal).sig 0 = some
      { sender := some 20, flags := DeleteSenderOnSignal, received := false,
        handle := some 0, connection := true, destroyedConnection := true, result := 0 } ∧
    (sigWait DeleteSenderOnSignal).frame 0 = Frame.suspended ∧
    SenderApart (sigWait DeleteSenderOnSignal) 20 0 [0] ∧
    ∃ r' l, handle_signal 1 0 (sigWait DeleteSenderOnSignal) = some r' ∧
      r'.log = (sigWait DeleteSenderOnSignal).log ++
        oneShotEvents 0
          { sender := some 20, flags := DeleteSenderOnSignal, received := false,
            handle := some 0, connection := true, destroyedConnection := true, result := 0 } ++
        [Event.watchRemoved 0, Event.deleted 20] ++ l ++ [Event.resumed 0] ∧
      (∀ e ∈ l, e.isTeardown = true) ∧ Event.aborted 0 ∉ l ∧
      r'.alive 20 = false ∧ r'.frame 0 = Frame.running :=
  ⟨sigWait_good DeleteSenderOnSignal, rfl, by decide,
    ⟨⟨by decide, by decide⟩, by decide, by decide, by decide, by decide⟩,
    delete_sender_order 1 0 _ 20 [0] (sigWait DeleteSenderOnSignal)
      (sigWait_good DeleteSenderOnSignal) rfl rfl (by decide) rfl (by decide)
      ⟨⟨by decide, by decide⟩, by decide, by decide, by decide, by decide⟩⟩

theorem emitSignals_inert (fuel : Nat) (s : ObjId) : ∀ (ps : List Int) (r : Runtime),
    (∀ y a, r.sig y = some a → ¬ (a.connection = true ∧ a.sender = some s)) →
    emitSignals fuel s ps r = some r
  | [], _, _ => rfl
  | p :: ps, r, h => by
    have h1 : emitSignal fuel s p r = some r :=
      signalSlots_inert fuel s p (List.range r.next) r (fun y _ => h y)
    simp only [emitSignals, h1]
    exact emitSignals_inert fuel s ps r h

/-- The slots of a signal when only the awaiter of `c` is connected to it. -/
theorem signalSlots_single (fuel : Nat) (s : ObjId) (p : Int) (c : CtrlId) (r r1 : Runtime)
    (hslot : signalSlot fuel s p c r = some r1)
    (hothers : ∀ y, y ≠ c → ∀ b, r.sig y = some b → ¬ (b.connection = true ∧ b.sender = some s))
    (hafter : ∀ y b, r1.sig y = some b → ¬ (b.connection = true ∧ b.sender = some s)) :
    ∀ (ys : List CtrlId), ys.Nodup → c ∈ ys → signalSlots fuel s p ys r = some r1
  | [], _, hc => by simp at hc
  | y :: ys, hnd, hc => by
    by_cases hyc : y = c
    · subst hyc
      simp only [signalSlots, hslot]
      exact signalSlots_inert fuel s p ys r1 (fun z _ => hafter z)
    · have h1 : signalSlot fuel s p y r = some r := by
        unfold signalSlot
        rcases hs : r.sig y with _ | b
        · rfl
        · simp only []
          rw [if_neg (hothers y hyc b hs)]
      simp only [signalSlots, h1]
      exact signalSlots_single fuel s p c r r1 hslot hothers hafter ys
        (List.nodup_cons.mp hnd).2 ((List.mem_cons.mp hc).resolve_left (fun e => hyc e.symm))

/-- C7: an Event Awaiter in one-shot mode, the only one connected to the
signal of `s`.  For firings `p :: ps`, the first firing already gives the
final state: the frame of `c` is resumed once (the events are the removal of
the sender watch and one resumption), `await_resume` yields `p`, and the later
firings `ps` change nothing at all. -/
theorem one_shot_first_payload (fuel : Nat) (c : CtrlId) (a : CoSignal) (s : ObjId)
    (r : Runtime) (p : Int) (ps : List Int) (hsig : r.sig c = some a)
    (hflags : a.flags = SingleShot) (hconn : a.connection = true)
    (hsender : a.sender = some s) (hhandle : a.handle = some c)
    (hsusp : r.frame c = Frame.suspended) (hlt : c < r.next)
    (honly : ∀ y, y ≠ c → ∀ b, r.sig y = some b →
      ¬ (b.connection = true ∧ b.sender = some s)) :
    ∃ r1, emitSignals fuel s (p :: ps) r = some r1 ∧ emitSignal fuel s p r = some r1 ∧
      emitSignals fuel s ps r1 = some r1 ∧ r1.frame c = Frame.running ∧
      r1.log = r.log ++ [Event.watchRemoved c, Event.resumed c] ∧
      ∃ a1, r1.sig c = some a1 ∧ a1.await_resume = p := by
  have hss : a.flags &&& SingleShot ≠ 0 := by rw [hflags]; decide
  have hsigA : (r.setSig c (some { a with connection := false, result := p })).sig c =
      some { a with connection := false, result := p } := by simp
  obtain ⟨r1, h1, hfr, hlog, -, -, hsigs⟩ := handle_signal_plain fuel c
    { a with connection := false, result := p }
    (r.setSig c (some { a with connection := false, result := p })) hsigA hhandle
    (by show a.flags &&& DeleteSenderOnSignal = 0; rw [hflags]; decide)
    (by simpa using hsusp)
  obtain ⟨-, -, -, -, -, -, -, -, hsigy, a1, hs1, -, hsd1, hres1, hconn1, -, -⟩ :=
    afterOneShot_spec c { a with connection := false, result := p }
      (r.setSig c (some { a with connection := false, result := p })) hsigA
  have hslot : signalSlot fuel s p c r = some r1 := by
    unfold signalSlot
    rw [hsig]
    simp only []
    rw [if_pos ⟨hconn, hsender⟩, if_pos hss]
    exact h1
  have hafter : ∀ y b, r1.sig y = some b → ¬ (b.connection = true ∧ b.sender = some s) := by
    intro y b hy
    rw [hsigs] at hy
    by_cases hyc : y = c
    · subst hyc
      rw [hs1] at hy
      cases hy
      rw [hconn1]
      simp
    · rw [hsigy y hyc] at hy
      simp only [setSig_sig, if_neg hyc] at hy
      exact honly y hyc b hy
  have hemit : emitSignal fuel s p r = some r1 :=
    signalSlots_single fuel s p c r r1 hslot honly hafter (List.range r.next)
      (List.nodup_range _) (List.mem_range.mpr hlt)
  have hlater := emitSignals_inert fuel s ps r1 hafter
  refine ⟨r1, ?_, hemit, hlater, hfr, ?_, a1, ?_, ?_⟩
  · simp only [emitSignals, hemit]
    exact hlater
  · rw [hlog]
    simp [oneShotEvents, hflags, SingleShot]
  · rw [hsigs]; exact hs1
  · show a1.result = p
    rw [hres1]

theorem sigWait_sig_other (flags : Nat) (y : CtrlId) (h : y ≠ 0) :
    (sigWait flags).sig y = none := by
  obtain ⟨-, -, e⟩ := awaitSignal_some 0 20 flags (start 10 Runtime.empty) (sigWait flags) rfl
  rw [e]
  simp only [setFrame_sig_apply, setSig_sig, if_neg h]
  rfl

theorem sigWait_only (flags : Nat) (s : ObjId) : ∀ y, y ≠ 0 → ∀ b,
    (sigWait flags).sig y = some b → ¬ (b.connection = true ∧ b.sender = some s) := by
  intro y hy b hb
  rw [sigWait_sig_other flags y hy] at hb
  cases hb

/-- C7 (witness): the signal of sender `20` fires with payloads `1` and `2` while task `0` waits in one-shot mode. -/
theorem one_shot_first_payload_witness :
    (sigWait SingleShot).sig 0 = some
      { sender := some 20, flags := SingleShot, received := false, handle := some 0,
        connection := true, destroyedConnection := true, result := 0 } ∧
    (sigWait SingleShot).frame 0 = Frame.suspended ∧ 0 < (sigWait SingleShot).next ∧
    (∀ y, y ≠ 0 → ∀ b, (sigWait SingleShot).sig y = some b →
      ¬ (b.connection = true ∧ b.sender = some 20)) ∧
    ∃ r1, emitSignals 1 20 [1, 2] (sigWait SingleShot) = some r1 ∧
      emitSignal 1 20 1 (sigWait SingleShot) = some r1 ∧
      emitSignals 1 20 [2] r1 = some r1 ∧ r1.frame 0 = Frame.running ∧
      r1.log = (sigWait SingleShot).log ++ [Event.watchRemoved 0, Event.resumed 0] ∧
      ∃ a1, r1.sig 0 = some a1 ∧ a1.await_resume = 1 :=
  ⟨rfl, by decide, by decide, sigWait_only SingleShot 20,
    one_shot_first_payload 1 0 _ 20 (sigWait SingleShot) 1 [2] rfl rfl rfl rfl rfl (by decide)
      (by decide) (sigWait_only SingleShot 20)⟩

/-- C10 (the code at the failing input): task `1` completes while task `0`
awaits it, so the resumption of `0` is posted; then `abort()` runs on `0`
(its Owner is destroyed) and destroys the frame of `0` once.  The posted
resumption is still in the run queue, and when the event loop calls it,
`handle.resume()` is called on the destroyed frame: no defined behaviour. -/
theorem posted_resume_hits_destroyed_frame :
    ∃ r1 r2, coReturn 1 7 pair2 = some r1 ∧ r1.queue = [0] ∧
      abort 1 0 r1 = some r2 ∧ destroyedOf r2.log = [0] ∧
      r2.frame 0 = Frame.destroyed ∧ r2.queue = [0] ∧ runPosted r2 = none :=
  ⟨_, _, rfl, by decide, rfl, by decide, by decide, by decide, rfl⟩

/-- C9: the running body of task `c`, still connected to its living Owner,
suspends on the future `f` (`awaitFuture`), or on the signal of the sender `s`
(`awaitSignal`), which no other task awaits.  When the Owner is destroyed
next, the destruction returns and the frame of `c` is destroyed; the later
completion of `f` returns and changes no shared state, frame, connection,
awaiter, run queue, event log (no frame is resumed) or continuation, and
every later firing of the signal of `s` leaves the whole runtime as it is. -/
theorem owner_destroyed_source_inert (fuel : Nat) (c : CtrlId) (r0 : Runtime)
    (hg : Good fuel r0) (hc : c < r0.next) (halive : r0.alive (r0.owner c) = true)
    (hconn : r0.conn c = true) :
    (∀ f r, awaitFuture c f r0 = some r → (∀ k ∈ r0.futConts, k.future ≠ f) →
      ∃ r', destroyObject fuel (r0.owner c) r = some r' ∧ r'.frame c = Frame.destroyed ∧
        ∃ r'', completeFuture f r' = some r'' ∧ r''.st = r'.st ∧ r''.frame = r'.frame ∧
          r''.conn = r'.conn ∧ r''.sig = r'.sig ∧ r''.queue = r'.queue ∧
          r''.log = r'.log ∧ r''.futConts = r'.futConts) ∧
    (∀ s flags r, awaitSignal c s flags r0 = some r →
      (∀ y a, y ≠ c → r0.sig y = some a → a.sender ≠ some s) →
      ∃ r', destroyObject fuel (r0.owner c) r = some r' ∧ r'.frame c = Frame.destroyed ∧
        ∀ p, emitSignal fuel s p r' = some r') := by
  constructor
  · intro f r h hlone
    have hg1 := awaitFuture_good c f r0 r h hg
    obtain ⟨-, -, rfl⟩ := awaitFuture_some c f r0 r h
    obtain ⟨r', hd, hfr, hfut, -⟩ :=
      destroyObject_source_inert fuel (r0.owner c) c _ hg1 halive hc rfl hconn
    refine ⟨r', hd, hfr, hfut f ?_⟩
    intro k hk hkf
    have hk1 : k ∈ r0.futConts ++
        [{ future := f, context := r0.owner c, handle := some c, awaiterOf := c }] := hk
    rcases List.mem_append.mp hk1 with h1 | h1
    · exact absurd hkf (hlone k h1)
    · rw [List.mem_singleton.mp h1]
  · intro s flags r h hlone
    have hg1 := awaitSignal_good c s flags r0 r h hg
    obtain ⟨-, -, rfl⟩ := awaitSignal_some c s flags r0 r h
    obtain ⟨r', hd, hfr, -, hsig⟩ :=
      destroyObject_source_inert fuel (r0.owner c) c _ hg1 halive hc rfl hconn
    refine ⟨r', hd, hfr, fun p => hsig s p ?_⟩
    intro y a hy hs
    simp only [setFrame_sig_apply, setSig_sig] at hy
    split_ifs at hy with hyc
    · rw [hyc]; rfl
    · exact absurd hs (hlone y a hyc hy)

/-- C9 (witness): task `0` of owner `10` suspends on the future `5`
(`testAwaitFutureOwnerDestroyed`), and on the signal of sender `20`
(`testAwaitSignalOwnerDestroyed`); then the owner is destroyed. -/
theorem owner_destroyed_source_inert_witness :
    Good 1 (start 10 Runtime.empty) ∧ 0 < (start 10 Runtime.empty).next ∧
    (start 10 Runtime.empty).alive 10 = true ∧ (start 10 Runtime.empty).conn 0 = true ∧
    (awaitFuture 0 5 (start 10 Runtime.empty) = some futWait ∧
      (∀ k ∈ (start 10 Runtime.empty).futConts, k.future ≠ 5) ∧
      ∃ r', destroyObject 1 10 futWait = some r' ∧ r'.frame 0 = Frame.destroyed ∧
        ∃ r'', completeFuture 5 r' = some r'' ∧ r''.st = r'.st ∧ r''.frame = r'.frame ∧
          r''.conn = r'.conn ∧ r''.sig = r'.sig ∧ r''.queue = r'.queue ∧
          r''.log = r'.log ∧ r''.futConts = r'.futConts) ∧
    (awaitSignal 0 20 SingleShot (start 10 Runtime.empty) = some (sigWait SingleShot) ∧
      (∀ y a, y ≠ 0 → (start 10 Runtime.empty).sig y = some a → a.sender ≠ some 20) ∧
      ∃ r', destroyObject 1 10 (sigWait SingleShot) = some r' ∧
        r'.frame 0 = Frame.destroyed ∧ ∀ p, emitSignal 1 20 p r' = some r') :=
  ⟨start_good 10, (by decide), (by decide), (by decide),
    ⟨rfl, (fun k hk => by cases hk),
      (owner_destroyed_source_inert 1 0 (start 10 Runtime.empty) (start_good 10) (by decide)
        (by decide) (by decide)).1 5 futWait rfl (fun k hk => by cases hk)⟩,
    ⟨rfl, (fun y a _ h => by cases h),
      (owner_destroyed_source_inert 1 0 (start 10 Runtime.empty) (start_good 10) (by decide)
        (by decide) (by decide)).2 20 SingleShot (sigWait SingleShot) rfl
        (fun y a _ h => by cases h)⟩⟩

/-- C12: `Async::await_suspend` on the handle of task `x`, called with the
handle of the awaiting controller `u`, fails exactly when `current` of `x` is
null, or `up` of `x` is not null, or the Owners of `u` and of the controller
of `x` live on different threads; otherwise it sets `up` of `x` to `u` and
`down` of `u` to the controller of `x`, and changes no other field of any
shared state, nor anything else of the runtime. -/
theorem await_suspend_contract (x u : CtrlId) (r : Runtime) :
    (await_suspend x u r = none ↔
      ((r.st x).current = none ∨ (r.st x).up ≠ none ∨
        ∃ cur, (r.st x).current = some cur ∧
          r.thread (r.owner u) ≠ r.thread (r.owner cur))) ∧
    (∀ r', await_suspend x u r = some r' →
      ∃ cur, (r.st x).current = some cur ∧ (r'.st x).up = some u ∧
        (r'.st u).down = some cur ∧
        (∀ y, (r'.st y).current = (r.st y).current ∧ (r'.st y).result = (r.st y).result ∧
          (y ≠ x → (r'.st y).up = (r.st y).up) ∧ (y ≠ u → (r'.st y).down = (r.st y).down)) ∧
        r'.frame = r.frame ∧ r'.conn = r.conn ∧ r'.sig = r.sig ∧ r'.queue = r.queue ∧
        r'.log = r.log ∧ r'.futConts = r.futConts) := by
  unfold await_suspend
  rcases hc : (r.st x).current with _ | cur
  · simp
  · by_cases hup : (r.st x).up = none
    · by_cases hth : r.thread (r.owner u) = r.thread (r.owner cur)
      · simp only [hup, hth, ne_eq, not_true_eq_false, if_false]
        constructor
        · simp
        · intro r' h
          have e : r' = (r.setUp x (some u)).setDown u (some cur) := (Option.some.inj h).symm
          subst e
          refine ⟨cur, rfl, by simp, by simp, ?_, rfl, rfl, rfl, rfl, rfl, rfl⟩
          intro y
          refine ⟨by simp, by simp, ?_, ?_⟩
          · intro hy; simp [hy]
          · intro hy; simp [hy]
      · simp only [hup, ne_eq, not_true_eq_false, if_false, hth, not_false_eq_true, if_true]
        constructor
        · simp [hth]
        · intro r' h; cases h
    · simp only [ne_eq, hup, not_false_eq_true, if_true]
      constructor
      · simp
      · intro r' h; cases h

/-- C12 (witness): in `start 11 (start 10 Runtime.empty)` task `0` awaits
task `1`; awaiting task `1` a second time fails. -/
theorem await_suspend_contract_witness :
    (await_suspend 1 0 (start 11 (start 10 Runtime.empty))).isSome = true ∧
    await_suspend 1 0 pair2 = none ∧
    (await_suspend 1 0 pair2 = none ↔
      ((pair2.st 1).current = none ∨ (pair2.st 1).up ≠ none ∨
        ∃ cur, (pair2.st 1).current = some cur ∧
          pair2.thread (pair2.owner 0) ≠ pair2.thread (pair2.owner cur))) :=
  ⟨rfl, rfl, (await_suspend_contract 1 0 pair2).1⟩

/-- C13 (counterexample): task `0` has just started, its result slot is empty
and `await_ready` is false; `await_resume` of the valueless task returns
normally all the same. -/
theorem await_resume_void_counterexample :
    await_ready 0 (start 10 Runtime.empty) = false ∧
    await_resume_void 0 (start 10 Runtime.empty) = some () :=
  ⟨rfl, rfl⟩

/-- C13 (amended): on an empty result slot, `await_resume` of a valued task
has no value to return (`result.value()` throws), while `await_resume` of a
valueless task makes no check and returns normally. -/
theorem await_resume_before_ready (x : CtrlId) (r : Runtime)
    (h : await_ready x r = false) :
    await_resume x r = none ∧ await_resume_void x r = some () := by
  refine ⟨?_, rfl⟩
  unfold await_ready at h
  unfold await_resume
  cases hres : (r.st x).result with
  | none => rfl
  | some v => rw [hres] at h; cases h

/-- C13 (witness): the empty slot of task `0` right after its start. -/
theorem await_resume_before_ready_witness :
    await_ready 0 (start 10 Runtime.empty) = false ∧
    await_resume 0 (start 10 Runtime.empty) = none ∧
    await_resume_void 0 (start 10 Runtime.empty) = some () :=
  ⟨rfl, await_resume_before_ready 0 (start 10 Runtime.empty) rfl⟩

/-- C14: in a state with consistent links, `handle_return` of controller `x`
returns; it removes the owner connection of `x` and clears `current` of `x`;
when `x` has a caller `u` it clears `down` of `u` and `up` of `x` and appends
exactly one resumption of `u` to the run queue; when `x` has no caller the run
queue is unchanged; no result slot changes, `down` of `x` is unchanged, and no
link of a controller other than `x` and `u` changes. -/
theorem handle_return_effect (x : CtrlId) (r : Runtime) (hcons : Consistent r) :
    ∃ r', handle_return x r = some r' ∧ r'.conn x = false ∧ (r'.st x).current = none ∧
      (∀ u, (r.st x).up = some u →
        (r'.st u).down = none ∧ (r'.st x).up = none ∧ r'.queue = r.queue ++ [u]) ∧
      ((r.st x).up = none → r'.queue = r.queue) ∧
      (∀ y, (r'.st y).result = (r.st y).result) ∧
      ((r.st x).up ≠ some x → (r'.st x).down = (r.st x).down) ∧
      (∀ y, y ≠ x → (r.st x).up ≠ some y →
        (r'.st y).up = (r.st y).up ∧ (r'.st y).down = (r.st y).down) ∧
      r'.frame = r.frame := by
  rcases hu : (r.st x).up with _ | u
  · refine ⟨(r.disconnect x).setCurrent x none, by simp [handle_return, hu], by simp,
      by simp, ?_, fun _ => rfl, fun y => by simp, fun _ => by simp, ?_, rfl⟩
    · intro u h; cases h
    · intro y _ _; simp
  · have hd : (r.st u).down = some x := (hcons u x).mpr hu
    refine ⟨((((r.disconnect x).setCurrent x none).setDown u none).post u).setUp x none,
      by simp [handle_return, hu, hd], by simp [Runtime.post], by simp, ?_, ?_,
      fun y => by simp, ?_, ?_, rfl⟩
    · intro u' h
      cases h
      refine ⟨by simp, by simp, rfl⟩
    · intro h; cases h
    · intro hxu
      have : x ≠ u := fun e => hxu (by rw [e])
      simp [this]
    · intro y hyx hyu
      have : y ≠ u := fun e => hyu (by rw [e])
      simp [hyx, this]

/-- C14 (witness): task `1` of `pair2` completes while task `0` awaits it. -/
theorem handle_return_effect_witness :
    Consistent pair2 ∧
    ∃ r', handle_return 1 pair2 = some r' ∧ r'.conn 1 = false ∧ (r'.st 1).current = none ∧
      (∀ u, (pair2.st 1).up = some u →
        (r'.st u).down = none ∧ (r'.st 1).up = none ∧ r'.queue = pair2.queue ++ [u]) ∧
      ((pair2.st 1).up = none → r'.queue = pair2.queue) ∧
      (∀ y, (r'.st y).result = (pair2.st y).result) ∧
      ((pair2.st 1).up ≠ some 1 → (r'.st 1).down = (pair2.st 1).down) ∧
      (∀ y, y ≠ 1 → (pair2.st 1).up ≠ some y →
        (r'.st y).up = (pair2.st y).up ∧ (r'.st y).down = (pair2.st y).down) ∧
      r'.frame = pair2.frame :=
  ⟨(reachable_inv pair2 pair2_reachable).cons,
    handle_return_effect 1 pair2 (reachable_inv pair2 pair2_reachable).cons⟩

/-- C15 (the code at the failing input): task `0` (owner `10`) awaits task `1`
(owner `11`), which is suspended on the future `5`.  The destruction of owner
`10` destroys both frames by the abort cascade; owner `11` stays alive, and
the continuation attached by the `FutureAwaiter` of task `1` stays attached
(it has no destructor, unlike `~CoSignal`).  When the future completes, the
continuation calls `m_handle.resume()` of the awaiter in the destroyed frame:
no defined behaviour. -/
theorem future_completion_hits_destroyed_frame :
    ∃ r2, destroyObject 5 10 futChain = some r2 ∧
      r2.frame 0 = Frame.destroyed ∧ r2.frame 1 = Frame.destroyed ∧
      destroyedOf r2.log = [1, 0] ∧ r2.alive 11 = true ∧
      r2.futConts = [{ future := 5, context := 11, handle := some 1, awaiterOf := 1 }] ∧
      completeFuture 5 r2 = none :=
  ⟨_, rfl, by decide, by decide, by decide, by decide, by decide, rfl⟩

/-- The two stages of a successful `abort`: the descent, then the
destruction of the own frame and the ascent. -/
theorem abort_succ_some (fuel : Nat) (c : CtrlId) (r r' : Runtime)
    (h : abort (fuel + 1) c r = some r') :
    ∃ r4, (match (r.st c).down with
        | some d => abort fuel d (abortPrep c r)
        | none => some (abortPrep c r)) = some r4 ∧
      (match ((unlinkDown c (abortEnter c r)).st c).up with
        | some u => abort fuel u (r4.destroyFrame c)
        | none => some (r4.destroyFrame c)) = some r' := by
  rw [abort_succ] at h
  have hdown : ((abortEnter c r).st c).down = (r.st c).down := by simp [abortEnter]
  rw [hdown] at h
  rcases hr4 : (match (r.st c).down with
        | some d => abort fuel d (abortPrep c r)
        | none => some (abortPrep c r)) with _ | r4
  · rw [hr4] at h; cases h
  · rw [hr4] at h
    exact ⟨r4, hr4, h⟩

theorem Dead.dead_mono {r r' : Runtime} {z : CtrlId} (h : Dead r z) (hm : AbortMono r r') :
    Dead r' z := by
  obtain ⟨h1, h2, h3, h4, h5⟩ := h
  refine ⟨?_, ?_, ?_, ?_, ?_⟩
  · rcases hm.up z with e | e
    · rw [e]; exact h1
    · exact e
  · rcases hm.down z with e | e
    · rw [e]; exact h2
    · exact e
  · rcases hm.connOff z with e | e
    · rw [e]; exact h3
    · exact e
  · rcases hm.sigOff z with e | e
    · rw [e]; exact h4
    · exact e
  · rcases hm.frame z with e | e
    · rw [e]; exact h5
    · exact e

/-- The events of an `abort()` cascade: every controller it enters ends dead,
and every frame destruction belongs to a controller it entered. -/
theorem abort_log : ∀ (fuel : Nat) (c : CtrlId) (r r' : Runtime),
    abort fuel c r = some r' →
    ∃ l, r'.log = r.log ++ l ∧ (∀ z, Event.aborted z ∈ l → Dead r' z) ∧
      (∀ z, Event.destroyed z ∈ l → Event.aborted z ∈ l) := by
  intro fuel
  induction fuel with
  | zero => intro c r r' h; simp [abort] at h
  | succ fuel ih =>
    intro c r r' h
    have htarget := abort_target (fuel + 1) c r r' h
    have hself := abortPrep_self c r
    obtain ⟨r4, h4, h5⟩ := abort_succ_some fuel c r r' h
    obtain ⟨-, -, -, hpl⟩ := abortPrep_fields c r
    have hm4 : AbortMono (abortPrep c r) r4 := by
      rcases hd : (r.st c).down with _ | d
      · rw [hd] at h4; cases h4; exact AbortMono.mono_refl _
      · rw [hd] at h4; exact abort_mono fuel d _ r4 h4
    have hm5 : AbortMono (r4.destroyFrame c) r' := by
      rcases hu : ((unlinkDown c (abortEnter c r)).st c).up with _ | u
      · rw [hu] at h5; cases h5; exact AbortMono.mono_refl _
      · rw [hu] at h5; exact abort_mono fuel u _ r' h5
    have hm45 : AbortMono r4 r' := (destroyFrame_mono c r4).mono_trans hm5
    have hdeadc : Dead r' c := by
      have hprep : ((abortPrep c r).st c).up = none ∧ ((abortPrep c r).st c).down = none :=
        ⟨hself.2, hself.1⟩
      have hall := (abortPrep_mono c r).mono_trans (hm4.mono_trans hm45)
      have hm := hm4.mono_trans hm45
      refine ⟨?_, ?_, htarget.2.2, htarget.2.1, htarget.1⟩
      · rcases hm.up c with e | e
        · rw [e]; exact hprep.1
        · exact e
      · rcases hm.down c with e | e
        · rw [e]; exact hprep.2
        · exact e
    have p4 : ∃ l4, r4.log = (abortPrep c r).log ++ l4 ∧
        (∀ z, Event.aborted z ∈ l4 → Dead r4 z) ∧
        (∀ z, Event.destroyed z ∈ l4 → Event.aborted z ∈ l4) := by
      rcases hd : (r.st c).down with _ | d
      · rw [hd] at h4; cases h4
        exact ⟨[], by simp, by simp, by simp⟩
      · rw [hd] at h4; exact ih d _ r4 h4
    have p5 : ∃ l5, r'.log = (r4.destroyFrame c).log ++ l5 ∧
        (∀ z, Event.aborted z ∈ l5 → Dead r' z) ∧
        (∀ z, Event.destroyed z ∈ l5 → Event.aborted z ∈ l5) := by
      rcases hu : ((unlinkDown c (abortEnter c r)).st c).up with _ | u
      · rw [hu] at h5; cases h5
        exact ⟨[], by simp, by simp, by simp⟩
      · rw [hu] at h5; exact ih u _ r' h5
    obtain ⟨l4, hl4, ha4, hd4⟩ := p4
    obtain ⟨l5, hl5, ha5, hd5⟩ := p5
    refine ⟨[Event.aborted c] ++ l4 ++ [Event.destroyed c] ++ l5, ?_, ?_, ?_⟩
    · rw [hl5, destroyFrame_log, hl4, hpl]; simp
    · intro z hz
      simp only [List.mem_append, List.mem_singleton] at hz
      rcases hz with ((hz | hz) | hz) | hz
      · cases hz; exact hdeadc
      · exact (ha4 z hz).dead_mono hm45
      · cases hz
      · exact ha5 z hz
    · intro z hz
      simp only [List.mem_append, List.mem_singleton] at hz ⊢
      rcases hz with ((hz | hz) | hz) | hz
      · cases hz
      · exact Or.inl (Or.inl (Or.inr (hd4 z hz)))
      · cases hz; exact Or.inl (Or.inl (Or.inl rfl))
      · exact Or.inr (hd5 z hz)

/-- An `abort()` cascade started outside a link-closed set of controllers
enters none of them. -/
theorem abort_outside_events (cs : List CtrlId) : ∀ (fuel : Nat) (y : CtrlId) (r r' : Runtime),
    Inv r → Closed r cs → y ∉ cs → abort fuel y r = some r' →
    ∃ l, r'.log = r.log ++ l ∧ ∀ m ∈ cs, Event.aborted m ∉ l := by
  intro fuel
  induction fuel with
  | zero => intro y r r' _ _ _ h; simp [abort] at h
  | succ fuel ih =>
    intro y r r' hinv hcl hy h
    obtain ⟨r4, h4, h5⟩ := abort_succ_some fuel y r r' h
    obtain ⟨-, -, -, hpl⟩ := abortPrep_fields y r
    have hprepInv := abortPrep_inv y r hinv
    have hdout : ∀ d, (r.st y).down = some d → d ∉ cs := by
      intro d hd hdc
      have := (hinv.cons y d).mp hd
      exact hy ((hcl d hdc).1 y this)
    have huout : ∀ u, (r.st y).up = some u → u ∉ cs := by
      intro u hu huc
      have := (hinv.cons u y).mpr hu
      exact hy ((hcl u huc).2 y this)
    have hprepU : Untouched r (abortPrep y r) cs := by
      intro m hm
      apply abortPrep_other y m r
      · rintro rfl; exact hy hm
      · intro hd; exact hdout m hd hm
      · intro hu; exact huout m hu hm
    have hprepCl := hcl.closed_of_untouched hprepU
    have p4 : (∃ l4, r4.log = (abortPrep y r).log ++ l4 ∧ ∀ m ∈ cs, Event.aborted m ∉ l4) ∧
        Inv r4 ∧ Closed r4 cs := by
      rcases hd : (r.st y).down with _ | d
      · rw [hd] at h4; cases h4
        exact ⟨⟨[], by simp, by simp⟩, hprepInv, hprepCl⟩
      · rw [hd] at h4
        exact ⟨ih d _ r4 hprepInv hprepCl (hdout d hd) h4, abort_inv fuel d _ r4 h4 hprepInv,
          hprepCl.closed_of_untouched
            (abort_outside cs fuel d _ r4 hprepInv hprepCl (hdout d hd) h4)⟩
    obtain ⟨⟨l4, hl4, hn4⟩, hinv4, hcl4⟩ := p4
    have hcl5 : Closed (r4.destroyFrame y) cs := by
      intro m hm
      exact hcl4 m hm
    have p5 : ∃ l5, r'.log = (r4.destroyFrame y).log ++ l5 ∧ ∀ m ∈ cs, Event.aborted m ∉ l5 := by
      rcases hu : ((unlinkDown y (abortEnter y r)).st y).up with _ | u
      · rw [hu] at h5; cases h5
        exact ⟨[], by simp, by simp⟩
      · rw [hu] at h5
        exact ih u _ r' (destroyFrame_inv y r4 hinv4) hcl5
          (huout u (unlinkDown_up_some y u r hu)) h5
    obtain ⟨l5, hl5, hn5⟩ := p5
    refine ⟨[Event.aborted y] ++ l4 ++ [Event.destroyed y] ++ l5, ?_, ?_⟩
    · rw [hl5, destroyFrame_log, hl4, hpl]; simp
    · intro m hm hmem
      simp only [List.mem_append, List.mem_singleton] at hmem
      rcases hmem with ((hmem | hmem) | hmem) | hmem
      · cases hmem; exact hy hm
      · exact hn4 m hm hmem
      · cases hmem
      · exact hn5 m hm hmem

theorem mem_destroyedOf (z : CtrlId) : ∀ (l : List Event),
    z ∈ destroyedOf l ↔ Event.destroyed z ∈ l
  | [] => by simp [destroyedOf]
  | e :: l => by
    have ih := mem_destroyedOf z l
    cases e <;> simp [destroyedOf, ih]

theorem destroyCount_append (r r' : Runtime) (l : List Event) (z : CtrlId)
    (h : r'.log = r.log ++ l) :
    destroyCount r' z = destroyCount r z + (destroyedOf l).count z := by
  unfold destroyCount
  rw [h, destroyedOf_append, List.count_append]

/-- An `abort()` cascade started outside a link-closed set of controllers
destroys none of their frames. -/
theorem abort_outside_once (cs : List CtrlId) (fuel : Nat) (y : CtrlId) (r r' : Runtime)
    (hinv : Inv r) (hcl : Closed r cs) (hy : y ∉ cs) (h : abort fuel y r = some r') :
    ∀ m ∈ cs, destroyCount r' m = destroyCount r m := by
  intro m hm
  obtain ⟨l, hl, hn⟩ := abort_outside_events cs fuel y r r' hinv hcl hy h
  obtain ⟨l', hl', -, hd'⟩ := abort_log fuel y r r' h
  have e : l' = l := List.append_cancel_left (hl'.symm.trans hl)
  subst e
  rw [destroyCount_append r r' l' m hl]
  have : m ∉ destroyedOf l' := by
    intro hmem
    exact hn m hm (hd' m ((mem_destroyedOf m l').mp hmem))
  rw [List.count_eq_zero_of_not_mem this]
  rfl

/-- An `abort()` on a link of a chain destroys the frame of every link
exactly once and leaves every link dead. -/
theorem abort_chain_once (fuel : Nat) (y : CtrlId) (r r' : Runtime) (cs : List CtrlId)
    (hchain : IsChain r cs) (hy : y ∈ cs) (h : abort fuel y r = some r') :
    ∀ m ∈ cs, Dead r' m ∧ destroyCount r' m = destroyCount r m + 1 := by
  intro m hm
  obtain ⟨pre, post, rfl⟩ := List.append_of_mem hy
  obtain ⟨r2, h2, hlog, -⟩ := abort_chain_split r pre post y hchain
    (fuel + (pre ++ y :: post).length) (Nat.le_add_left _ _)
  have := abort_fuel_mono fuel y r r' h (pre ++ y :: post).length
  rw [this] at h2
  cases h2
  obtain ⟨l, hl, ha, hd⟩ := abort_log fuel y r r' h
  have hdl : destroyedOf l = (pre ++ y :: post).reverse := by
    rw [hl, destroyedOf_append] at hlog
    exact List.append_cancel_left hlog
  have hmem : m ∈ destroyedOf l := by
    rw [hdl]; exact List.mem_reverse.mpr hm
  refine ⟨ha m (hd m ((mem_destroyedOf m l).mp hmem)), ?_⟩
  rw [destroyCount_append r r' l m hl, hdl, List.count_reverse,
    List.count_eq_one_of_mem hchain.1 hm]

/-- One slot of the `destroyed` signal either calls no `abort()` and changes
nothing, or makes exactly one `abort()` call on its controller, from a state
that differs from the current one at most in the awaiter of that
controller. -/
theorem destroyedSlot_cases (fuel : Nat) (o : ObjId) (w : Bool) (y : CtrlId) (r r' : Runtime)
    (hwf : SigWF r) (h : destroyedSlot fuel o w y r = some r') :
    (triggers r o w y = false ∧ r' = r) ∨
    (triggers r o w y = true ∧ ∃ rs, abort fuel y rs = some r' ∧ rs.st = r.st ∧
      rs.log = r.log ∧ rs.frame = r.frame ∧ rs.conn = r.conn ∧ rs.queue = r.queue ∧
      rs.next = r.next ∧ ∀ z, z ≠ y → rs.sig z = r.sig z) := by
  unfold destroyedSlot at h
  by_cases ho : ownedBy r o y = true
  · rw [if_pos ho] at h
    rcases h1 : abort fuel y r with _ | r1
    · rw [h1] at h; cases h
    · rw [h1] at h
      have ht := abort_target fuel y r r1 h1
      simp only [ht.2.1] at h
      have e : r1 = r' := Option.some.inj h
      rw [e] at h1
      right
      exact ⟨by simp [triggers, ho], r, h1, rfl, rfl, rfl, rfl, rfl, rfl, fun _ _ => rfl⟩
  · rw [if_neg ho] at h
    simp only [] at h
    rcases hs : r.sig y with _ | a
    · rw [hs] at h
      left
      exact ⟨by simp [triggers, ho, hs], (Option.some.inj h).symm⟩
    · rw [hs] at h
      simp only [] at h
      by_cases hw : (w && a.destroyedConnection) = true
      · rw [if_pos hw, hwf y a hs] at h
        simp only [] at h
        right
        refine ⟨by simp [triggers, ho, hs, hw], r.setSig y (some { a with sender := none }),
          ?_, rfl, rfl, rfl, rfl, rfl, rfl, ?_⟩
        · rw [hwf y a hs]; exact h
        · intro z hz; simp [hz]
      · rw [if_neg hw] at h
        left
        exact ⟨by simp [triggers, ho, hs, hw], (Option.some.inj h).symm⟩

theorem destroyCount_congr {r r' : Runtime} (h : r'.log = r.log) (z : CtrlId) :
    destroyCount r' z = destroyCount r z := by
  unfold destroyCount; rw [h]

/-- One slot of the `destroyed` signal, seen from a chain `cs`: it destroys
no frame of the chain, or, when it is the slot of a link and calls `abort()`,
it destroys every frame of the chain exactly once and leaves every link
dead. -/
theorem destroyedSlot_once (fuel : Nat) (o : ObjId) (w : Bool) (y : CtrlId) (r r' : Runtime)
    (cs : List CtrlId) (hg : Good fuel r) (hchain : IsChain r cs)
    (h : destroyedSlot fuel o w y r = some r') :
    ((y ∉ cs ∨ triggers r o w y = false) → ∀ m ∈ cs, destroyCount r' m = destroyCount r m) ∧
    (y ∈ cs → triggers r o w y = true →
      ∀ m ∈ cs, Dead r' m ∧ destroyCount r' m = destroyCount r m + 1) := by
  rcases destroyedSlot_cases fuel o w y r r' hg.wf h with ⟨ht, e⟩ |
    ⟨ht, rs, ha, hst, hlog, hfr, -, hq, hn, -⟩
  · subst e
    exact ⟨fun _ _ _ => rfl, fun _ ht' => by rw [ht] at ht'; cases ht'⟩
  · have hinv : Inv rs := hg.inv.congr hst hfr hq hn
    have hchain' : IsChain rs cs :=
      ⟨hchain.1, by
        rw [linkedFrom_congr r rs cs none (fun m _ => congrFun hst m)]
        exact hchain.2⟩
    constructor
    · rintro (hy | hy)
      · intro m hm
        rw [abort_outside_once cs fuel y rs r' hinv hchain'.closed hy ha m hm]
        exact destroyCount_congr hlog m
      · rw [ht] at hy; cases hy
    · intro hy _ m hm
      have := abort_chain_once fuel y rs r' cs hchain' hy ha m hm
      rw [destroyCount_congr hlog m] at this
      exact this

/-- One slot of the `destroyed` signal leaves a dead controller dead and does
not destroy its frame again. -/
theorem destroyedSlot_dead (fuel : Nat) (o : ObjId) (w : Bool) (y c : CtrlId) (r r' : Runtime)
    (hg : Good fuel r) (hdead : Dead r c) (h : destroyedSlot fuel o w y r = some r') :
    Dead r' c ∧ destroyCount r' c = destroyCount r c := by
  rcases destroyedSlot_cases fuel o w y r r' hg.wf h with ⟨-, e⟩ |
    ⟨ht, rs, ha, hst, hlog, hfr, hconn, hq, hn, hsig⟩
  · subst e
    exact ⟨hdead, rfl⟩
  · obtain ⟨d1, d2, d3, d4, d5⟩ := hdead
    have hyc : c ≠ y := by
      rintro rfl
      simp [triggers, ownedBy, d3, d4] at ht
    have hinv : Inv rs := hg.inv.congr hst hfr hq hn
    have hcl : Closed rs [c] := by
      intro m hm
      simp only [List.mem_singleton] at hm
      subst hm
      rw [hst]
      constructor
      · intro u hu; rw [d1] at hu; cases hu
      · intro d hd; rw [d2] at hd; cases hd
    have hy : y ∉ [c] := by
      simp only [List.mem_singleton]
      exact fun e => hyc e.symm
    obtain ⟨u1, u2, u3, u4⟩ := abort_outside [c] fuel y rs r' hinv hcl hy ha c (by simp)
    refine ⟨⟨?_, ?_, ?_, ?_, ?_⟩, ?_⟩
    · rw [u1, hst]; exact d1
    · rw [u1, hst]; exact d2
    · rw [u3, hconn]; exact d3
    · rw [u4, hsig c hyc]; exact d4
    · rw [u2, hfr]; exact d5
    · rw [abort_outside_once [c] fuel y rs r' hinv hcl hy ha c (by simp)]
      exact destroyCount_congr hlog c

/-- The slots of the `destroyed` signal of the Owner of `c`, a link of the
chain `cs`: the frame of `c` is destroyed exactly once, and `c` ends dead. -/
theorem destroyedSlots_once (fuel : Nat) (o : ObjId) (w : CtrlId → Bool) (cs : List CtrlId)
    (c : CtrlId) (hc : c ∈ cs) (n : Nat) : ∀ (ys : List CtrlId) (r r' : Runtime),
    Good fuel r → destroyedSlots fuel o w ys r = some r' →
    ((Dead r c ∧ destroyCount r c = n + 1) ∨
      (IsChain r cs ∧ c ∈ ys ∧ ownedBy r o c = true ∧ destroyCount r c = n)) →
    Dead r' c ∧ destroyCount r' c = n + 1
  | [], r, r', _, h, hcase => by
    simp only [destroyedSlots, Option.some.injEq] at h
    rw [← h]
    rcases hcase with hcase | hcase
    · exact hcase
    · simp at hcase
  | y :: ys, r, r', hg, h, hcase => by
    obtain ⟨r1, h1, hm1, -, hg1⟩ := destroyedSlot_spec fuel o (w y) y r hg
    simp only [destroyedSlots, h1] at h
    apply destroyedSlots_once fuel o w cs c hc n ys r1 r' hg1 h
    rcases hcase with ⟨hdead, hcount⟩ | ⟨hchain, hmem, hown, hcount⟩
    · left
      obtain ⟨hd1, hc1⟩ := destroyedSlot_dead fuel o (w y) y c r r1 hg hdead h1
      exact ⟨hd1, hc1.trans hcount⟩
    · have hslot := destroyedSlot_once fuel o (w y) y r r1 cs hg hchain h1
      have hchainSlot := destroyedSlot_chain fuel o (w y) y r r1 cs hg hchain h1
      have htrigc : ∀ b, triggers r o b c = true := by
        intro b; simp [triggers, hown]
      by_cases hfire : y ∈ cs ∧ triggers r o (w y) y = true
      · left
        obtain ⟨hd1, hc1⟩ := hslot.2 hfire.1 hfire.2 c hc
        exact ⟨hd1, by rw [hc1, hcount]⟩
      · have hquiet : y ∉ cs ∨ triggers r o (w y) y = false := by
          by_cases hy : y ∈ cs
          · right
            cases ht : triggers r o (w y) y
            · rfl
            · exact absurd ⟨hy, ht⟩ hfire
          · exact Or.inl hy
        have hu1 : Untouched r r1 cs := hchainSlot.1 hquiet
        have hyc : c ≠ y := by
          rintro rfl
          exact hfire ⟨hc, htrigc (w c)⟩
        right
        refine ⟨hchain.chain_of_untouched hu1, (List.mem_cons.mp hmem).resolve_left hyc, ?_,
          (hslot.1 hquiet c hc).trans hcount⟩
        unfold ownedBy at hown ⊢
        rw [(hu1 c hc).2.2.1, hm1.owner]
        exact hown

/-- C11 (the code at the failing input): task `0` was resumed by its future
and its body is running when it deletes its own Owner `10`
(`testShootInMyFingFootAndHit`).  The owner connection is live, so the
deletion calls `abort()` on `0`, and `abort()` calls `handle.destroy()` on the
frame of the running body: a call on a coroutine that is not suspended, which
has no defined behaviour (the same deletion while the task is suspended, or
on a suspended chain, makes only defined calls).  The deletion then returns
into the body of the destroyed frame, which is executed further, and the
completion of that body has no defined behaviour either. -/
theorem delete_owner_destroys_running_frame :
    hitState.frame 0 = Frame.running ∧ ownedBy hitState 10 0 = true ∧
    abortDefined 1 0
      { hitState with alive := Function.update hitState.alive 10 false,
                      log := hitState.log ++ [Event.deleted 10] } = false ∧
    abortDefined 1 0 futWait = true ∧ abortDefined 5 1 chain3 = true ∧
    ∃ r', destroyObject 1 10 hitState = some r' ∧
      r'.log = hitState.log ++ [Event.deleted 10, Event.aborted 0, Event.destroyed 0] ∧
      r'.frame 0 = Frame.destroyed ∧
      deleteInBody 1 0 10 hitState = BodyOutcome.continuesDestroyed r' ∧
      coReturnVoid 0 r' = none ∧ (∀ v, coReturn 0 v r' = none) :=
  ⟨by decide, by decide, by decide, by decide, by decide,
    _, rfl, by decide, by decide, rfl, rfl, fun _ => rfl⟩

end QCoSignal
